import Mathlib

namespace FreeHeap

/-- Width of `size_t` on the modelled 32-bit target. -/
def SIZE_MOD : Nat := 2 ^ 32

/-- `size_t` addition (wraps modulo `2 ^ 32`). -/
def add32 (a b : Nat) : Nat := (a + b) % SIZE_MOD

/-- `size_t` subtraction (wraps modulo `2 ^ 32`); arguments are `< SIZE_MOD`. -/
def sub32 (a b : Nat) : Nat := (a + SIZE_MOD - b) % SIZE_MOD

/-- `#define configTOTAL_HEAP_SIZE ((size_t) 40960)` -/
def configTOTAL_HEAP_SIZE : Nat := 40960

/-- `#define portBYTE_ALIGNMENT 8` -/
def portBYTE_ALIGNMENT : Nat := 8

/-- `#define portBYTE_ALIGNMENT_MASK (portBYTE_ALIGNMENT - 1)` -/
def portBYTE_ALIGNMENT_MASK : Nat := portBYTE_ALIGNMENT - 1

/-- `(sizeof(BlockLink_t) + portBYTE_ALIGNMENT_MASK) & ~portBYTE_ALIGNMENT_MASK`
with `sizeof(BlockLink_t) = 8` on the 32-bit target. -/
def xHeapStructSize : Nat := 8

/-- `#define heapMINIMUM_BLOCK_SIZE ((size_t)(xHeapStructSize << 1))` -/
def heapMINIMUM_BLOCK_SIZE : Nat := xHeapStructSize * 2

/-- `#define heapBLOCK_ALLOCATED_BITMASK (((size_t) 1) << ((sizeof(size_t) * 8) - 1))` -/
def heapBLOCK_ALLOCATED_BITMASK : Nat := 2 ^ 31

/-- `heapBLOCK_IS_ALLOCATED`: test the top bit of a raw `xBlockSize` value. -/
def heapBLOCK_IS_ALLOCATED (sz : Nat) : Bool := (sz &&& heapBLOCK_ALLOCATED_BITMASK) != 0

/-- `heapALLOCATE_BLOCK`: `xBlockSize |= heapBLOCK_ALLOCATED_BITMASK`. -/
def heapALLOCATE_BLOCK (sz : Nat) : Nat := sz ||| heapBLOCK_ALLOCATED_BITMASK

/-- `heapFREE_BLOCK`: `xBlockSize &= ~heapBLOCK_ALLOCATED_BITMASK`
(on 32 bits `~heapBLOCK_ALLOCATED_BITMASK = 2 ^ 31 - 1`).  This is also the
mask applied to read a block's logical (flag-free) size. -/
def heapFREE_BLOCK (sz : Nat) : Nat := sz &&& (heapBLOCK_ALLOCATED_BITMASK - 1)

/-- `struct A_BLOCK_LINK`: free-list link and raw (flag-carrying) size. -/
structure BlockLink where
  pxNextFreeBlock : Option Nat
  xBlockSize : Nat
deriving DecidableEq

/-- The header map: the `BlockLink_t` read at each address. -/
abbrev Mem : Type := Nat → BlockLink

/-- Store a header at an address. -/
def writeMem (m : Mem) (a : Nat) (b : BlockLink) : Mem := fun x => if x = a then b else m x

/-- The mutable globals of heap.c. -/
structure HeapState where
  mem : Mem
  /-- `xStart.pxNextFreeBlock` (`xStart.xBlockSize` is always 0). -/
  xStartNext : Option Nat
  pxEnd : Option Nat
  xFreeBytesRemaining : Nat
  xMinimumEverFreeBytesRemaining : Nat
  xNumberOfSuccessfulAllocations : Nat
  xNumberOfSuccessfulFrees : Nat

/-- Program start: `ucHeap` zeroed, `xStart` zeroed, `pxEnd = NULL`,
all counters 0. -/
def initState : HeapState :=
  { mem := fun _ => ⟨none, 0⟩
    xStartNext := none
    pxEnd := none
    xFreeBytesRemaining := 0
    xMinimumEverFreeBytesRemaining := 0
    xNumberOfSuccessfulAllocations := 0
    xNumberOfSuccessfulFrees := 0 }

/-- `n & ~portBYTE_ALIGNMENT_MASK`: round an address down to the alignment. -/
def alignDown (n : Nat) : Nat := n - n % portBYTE_ALIGNMENT

/-- The aligned arena start address computed by `prvHeapInit` from the raw
`ucHeap` address `base`. -/
def startAddr (base : Nat) : Nat :=
  if base &&& portBYTE_ALIGNMENT_MASK ≠ 0 then alignDown (base + (portBYTE_ALIGNMENT - 1))
  else base

/-- `xTotalHeapSize` after the misalignment shrink in `prvHeapInit`. -/
def usableTotal (base : Nat) : Nat := configTOTAL_HEAP_SIZE - (startAddr base - base)

/-- The end-sentinel address computed by `prvHeapInit`. -/
def endAddr (base : Nat) : Nat := alignDown (startAddr base + usableTotal base - xHeapStructSize)

/-- The total usable arena size established by initialization: the size of
the single initial free block. -/
def usableSize (base : Nat) : Nat := endAddr base - startAddr base

/-- `prvHeapInit` (heap.c lines 156-188). -/
def prvHeapInit (base : Nat) (s : HeapState) : HeapState :=
  let uxStartAddress := startAddr base
  let uxEndAddress := endAddr base
  let m1 := writeMem s.mem uxEndAddress ⟨none, 0⟩
  let m2 := writeMem m1 uxStartAddress ⟨some uxEndAddress, uxEndAddress - uxStartAddress⟩
  { mem := m2
    xStartNext := some uxStartAddress
    pxEnd := some uxEndAddress
    xFreeBytesRemaining := uxEndAddress - uxStartAddress
    xMinimumEverFreeBytesRemaining := uxEndAddress - uxStartAddress
    xNumberOfSuccessfulAllocations := s.xNumberOfSuccessfulAllocations
    xNumberOfSuccessfulFrees := s.xNumberOfSuccessfulFrees }

/-- The search loop of `prvInsertBlockIntoFreeList`:
`for (pxIterator = &xStart; pxIterator->pxNextFreeBlock < pxBlockToInsert;
pxIterator = pxIterator->pxNextFreeBlock) {}`.
The iterator is `none` while standing at `&xStart`.  A `none` next pointer
stops the walk (the well-formed free list ends at `pxEnd`, whose address is
above every block ever inserted, so the `NULL` case is never compared). -/
def nextOfIt (m : Mem) (sn : Option Nat) : Option Nat → Option Nat
  | none => sn
  | some a => (m a).pxNextFreeBlock

def insertLoop (m : Mem) (sn : Option Nat) (ins : Nat) : Nat → Option Nat → Option Nat
  | 0, it => it
  | fuel + 1, it =>
    match nextOfIt m sn it with
    | some b => if b < ins then insertLoop m sn ins fuel (some b) else it
    | none => it

/-- `prvInsertBlockIntoFreeList` (heap.c lines 111-150), acting on the header
map, `xStart.pxNextFreeBlock` and the (read-only) `pxEnd`; returns the new
header map and the new `xStart.pxNextFreeBlock`. -/
def prvInsertBlockIntoFreeList (pxEnd : Option Nat) (m0 : Mem) (sn : Option Nat)
    (ins0 : Nat) : Mem × Option Nat :=
  let it := insertLoop m0 sn ins0 configTOTAL_HEAP_SIZE none
  -- backward coalesce: `if (puc + pxIterator->xBlockSize == (uint8_t *) pxBlockToInsert)`;
  -- for `pxIterator = &xStart` (it = none) the address `&xStart` is outside
  -- the arena, so the equality is false.
  let m1 := match it with
    | none => m0
    | some itA =>
      if itA + (m0 itA).xBlockSize = ins0 then
        writeMem m0 itA ⟨(m0 itA).pxNextFreeBlock, add32 (m0 itA).xBlockSize (m0 ins0).xBlockSize⟩
      else m0
  let ins1 := match it with
    | none => ins0
    | some itA => if itA + (m0 itA).xBlockSize = ins0 then itA else ins0
  let succ := match it with
    | none => sn
    | some itA => (m1 itA).pxNextFreeBlock
  -- forward coalesce: `if (puc + pxBlockToInsert->xBlockSize == (uint8_t *) pxIterator->pxNextFreeBlock)`
  let m2 :=
    if succ = some (ins1 + (m1 ins1).xBlockSize) then
      if succ ≠ pxEnd then
        match succ with
        | some succA =>
          writeMem m1 ins1
            ⟨(m1 succA).pxNextFreeBlock, add32 (m1 ins1).xBlockSize (m1 succA).xBlockSize⟩
        | none => writeMem m1 ins1 ⟨none, (m1 ins1).xBlockSize⟩
      else writeMem m1 ins1 ⟨pxEnd, (m1 ins1).xBlockSize⟩
    else writeMem m1 ins1 ⟨succ, (m1 ins1).xBlockSize⟩
  -- `if (pxIterator != pxBlockToInsert) { pxIterator->pxNextFreeBlock = pxBlockToInsert; }`
  if it = some ins1 then (m2, sn)
  else
    match it with
    | none => (m2, some ins1)
    | some itA => (writeMem m2 itA ⟨some ins1, (m2 itA).xBlockSize⟩, sn)

/-- The size-adjustment prologue of `pvPortMalloc` (heap.c lines 197-205):
add the aligned header size and round up to the alignment, in wrapping
`size_t` arithmetic. -/
def computeWanted (xWantedSize : Nat) : Nat :=
  if 0 < xWantedSize then
    let w := add32 xWantedSize xHeapStructSize
    if w &&& portBYTE_ALIGNMENT_MASK ≠ 0 then
      add32 w (portBYTE_ALIGNMENT - (w &&& portBYTE_ALIGNMENT_MASK))
    else w
  else xWantedSize

/-- The first-fit loop of `pvPortMalloc`:
`while ((pxBlock->xBlockSize < xWantedSize) && (pxBlock->pxNextFreeBlock != NULL))`.
Returns `(pxPreviousBlock, pxBlock)`; `none` stands for `&xStart`. -/
def findFit (m : Mem) (w : Nat) : Nat → Option Nat → Nat → Option Nat × Nat
  | 0, prev, blk => (prev, blk)
  | fuel + 1, prev, blk =>
    match (m blk).pxNextFreeBlock with
    | some nxt => if (m blk).xBlockSize < w then findFit m w fuel (some blk) nxt else (prev, blk)
    | none => (prev, blk)

/-- The allocation body of `pvPortMalloc` (heap.c lines 211-247), run after
the size adjustment and the lazy initialization, with `xWantedSize` already
adjusted.  `pvReturn = (uint8_t *) pxPreviousBlock->pxNextFreeBlock + xHeapStructSize`
is written as `pxBlock + xHeapStructSize`: the search loop maintains
`pxPreviousBlock->pxNextFreeBlock = pxBlock` (lemma `findFit_prevNext`). -/
def mallocBody (s : HeapState) (xWantedSize : Nat) : Option Nat × HeapState :=
  if 0 < xWantedSize ∧ xWantedSize ≤ s.xFreeBytesRemaining then
    match s.xStartNext with
    | none => (none, s)   -- xStart.pxNextFreeBlock is NULL: not reached once initialized
    | some b0 =>
      let pb := findFit s.mem xWantedSize configTOTAL_HEAP_SIZE none b0
      if some pb.2 ≠ s.pxEnd then
        let pxBlock := pb.2
        let pvReturn := pxBlock + xHeapStructSize
        -- unlink: `pxPreviousBlock->pxNextFreeBlock = pxBlock->pxNextFreeBlock`
        let m1 := match pb.1 with
          | none => s.mem
          | some pA => writeMem s.mem pA ⟨(s.mem pxBlock).pxNextFreeBlock, (s.mem pA).xBlockSize⟩
        let sn1 := match pb.1 with
          | none => (s.mem pxBlock).pxNextFreeBlock
          | some _ => s.xStartNext
        let res :=
          if heapMINIMUM_BLOCK_SIZE < sub32 (m1 pxBlock).xBlockSize xWantedSize then
            -- split: new header at pxBlock + xWantedSize (its next field is
            -- not written by the C code before insertion)
            let pxNewBlockLink := pxBlock + xWantedSize
            let m2 := writeMem m1 pxNewBlockLink
              ⟨(m1 pxNewBlockLink).pxNextFreeBlock, sub32 (m1 pxBlock).xBlockSize xWantedSize⟩
            let m3 := writeMem m2 pxBlock ⟨(m2 pxBlock).pxNextFreeBlock, xWantedSize⟩
            prvInsertBlockIntoFreeList s.pxEnd m3 sn1 pxNewBlockLink
          else (m1, sn1)
        let xFree2 := sub32 s.xFreeBytesRemaining (res.1 pxBlock).xBlockSize
        let xMin2 :=
          if xFree2 < s.xMinimumEverFreeBytesRemaining then xFree2
          else s.xMinimumEverFreeBytesRemaining
        let m5 := writeMem res.1 pxBlock ⟨none, heapALLOCATE_BLOCK (res.1 pxBlock).xBlockSize⟩
        (some pvReturn,
          { mem := m5
            xStartNext := res.2
            pxEnd := s.pxEnd
            xFreeBytesRemaining := xFree2
            xMinimumEverFreeBytesRemaining := xMin2
            xNumberOfSuccessfulAllocations := add32 s.xNumberOfSuccessfulAllocations 1
            xNumberOfSuccessfulFrees := s.xNumberOfSuccessfulFrees })
      else (none, s)
  else (none, s)

/-- `pvPortMalloc` (heap.c lines 192-252): size adjustment, lazy
initialization, then the allocation body.  Returns the payload pointer
(`none` = `NULL`) and the successor state. -/
def pvPortMalloc (base : Nat) (s0 : HeapState) (xWantedSize : Nat) : Option Nat × HeapState :=
  let w := computeWanted xWantedSize
  let s := if s0.pxEnd = none then prvHeapInit base s0 else s0
  mallocBody s w

/-- `vPortFree` (heap.c lines 254-286).  `none` input is the `NULL` no-op.
A `none` result means a `configASSERT` tripped: the call hangs in
`for(;;);` and never returns (no successor state). -/
def vPortFree (s : HeapState) (pv : Option Nat) : Option HeapState :=
  match pv with
  | none => some s
  | some p =>
    let pxLinkA := p - xHeapStructSize
    if heapBLOCK_IS_ALLOCATED (s.mem pxLinkA).xBlockSize = false then none
    else if (s.mem pxLinkA).pxNextFreeBlock ≠ none then none
    else
      let m1 := writeMem s.mem pxLinkA
        ⟨(s.mem pxLinkA).pxNextFreeBlock, heapFREE_BLOCK (s.mem pxLinkA).xBlockSize⟩
      -- memset of the payload (configHEAP_CLEAR_MEMORY_ON_FREE) writes
      -- payload bytes only and is not modelled.
      let fb := add32 s.xFreeBytesRemaining (m1 pxLinkA).xBlockSize
      let r := prvInsertBlockIntoFreeList s.pxEnd m1 s.xStartNext pxLinkA
      some
        { mem := r.1
          xStartNext := r.2
          pxEnd := s.pxEnd
          xFreeBytesRemaining := fb
          xMinimumEverFreeBytesRemaining := s.xMinimumEverFreeBytesRemaining
          xNumberOfSuccessfulAllocations := s.xNumberOfSuccessfulAllocations
          xNumberOfSuccessfulFrees := add32 s.xNumberOfSuccessfulFrees 1 }

/-- `xPortGetFreeHeapSize` (heap.c line 288). -/
def xPortGetFreeHeapSize (s : HeapState) : Nat := s.xFreeBytesRemaining

/-- `xPortGetMinimumEverFreeHeapSize` (heap.c line 289). -/
def xPortGetMinimumEverFreeHeapSize (s : HeapState) : Nat := s.xMinimumEverFreeBytesRemaining

/-- One public operation: a `pvPortMalloc` call (any requested size), or a
`vPortFree` call that returns normally.  A free that trips `configASSERT`
never returns and has no successor state. -/
inductive Step (base : Nat) : HeapState → HeapState → Prop
  | malloc (s : HeapState) (n : Nat) : Step base s (pvPortMalloc base s n).2
  | free (s : HeapState) (pv : Option Nat) (s' : HeapState) :
      vPortFree s pv = some s' → Step base s s'

/-- States reachable from program start by a sequence of public operations. -/
def Reachable (base : Nat) (s : HeapState) : Prop :=
  Relation.ReflTransGen (Step base) initState s

/-! ## Abstract arena shapes

A reachable, initialized heap is abstracted by the address-ordered list of
its blocks: each block is its masked size together with its allocation flag.
Blocks tile the span from `startAddr base` to `endAddr base`. -/

/-- One abstract block: masked size and allocation flag. -/
abbrev Block := Nat × Bool

/-- Address one past the last block, starting the tiling at `a`. -/
def blocksEnd (a : Nat) : List Block → Nat
  | [] => a
  | b :: t => blocksEnd (a + b.1) t

/-- Header addresses of all blocks. -/
def addrsOf (a : Nat) : List Block → List Nat
  | [] => []
  | b :: t => a :: addrsOf (a + b.1) t

/-- Header addresses of the free blocks, in address order. -/
def freeAddrs (a : Nat) : List Block → List Nat
  | [] => []
  | b :: t => if b.2 then freeAddrs (a + b.1) t else a :: freeAddrs (a + b.1) t

/-- Header addresses of the allocated blocks. -/
def allocAddrs (a : Nat) : List Block → List Nat
  | [] => []
  | b :: t => if b.2 then a :: allocAddrs (a + b.1) t else allocAddrs (a + b.1) t

/-- Total size of the free blocks. -/
def freeSum : List Block → Nat
  | [] => 0
  | b :: t => (if b.2 then 0 else b.1) + freeSum t

/-- Total size of the allocated blocks (headers included). -/
def allocSum : List Block → Nat
  | [] => 0
  | b :: t => (if b.2 then b.1 else 0) + allocSum t

/-- The header map stores each block's header: allocated blocks carry the
flag bit and a `NULL` link, free blocks carry their masked size. -/
def PhysOK (m : Mem) : Nat → List Block → Prop
  | _, [] => True
  | a, b :: t =>
    (if b.2 then (m a).xBlockSize = heapALLOCATE_BLOCK b.1 ∧ (m a).pxNextFreeBlock = none
     else (m a).xBlockSize = b.1) ∧ PhysOK m (a + b.1) t

/-- `chainSeg m cur L stop`: starting from the link value `cur`, the free
list visits exactly the addresses in `L` and then reaches `stop`. -/
def chainSeg (m : Mem) : Option Nat → List Nat → Option Nat → Prop
  | cur, [], stop => cur = stop
  | cur, a :: L, stop => cur = some a ∧ chainSeg m (m a).pxNextFreeBlock L stop

/-- The link value standing at the head of `L` (or `stop` if `L` is empty). -/
def entry : List Nat → Option Nat → Option Nat
  | [], stop => stop
  | a :: _, _ => some a

/-- The refinement invariant: state `s` is an initialized heap whose arena
is tiled by the abstract blocks `bs`. -/
structure Models (base : Nat) (s : HeapState) (bs : List Block) : Prop where
  pxEnd_eq : s.pxEnd = some (endAddr base)
  end_hdr : s.mem (endAddr base) = ⟨none, 0⟩
  phys : PhysOK s.mem (startAddr base) bs
  chain : chainSeg s.mem s.xStartNext (freeAddrs (startAddr base) bs) (some (endAddr base))
  cover : blocksEnd (startAddr base) bs = endAddr base
  sizes_pos : ∀ b ∈ bs, 0 < b.1
  sizes_mod : ∀ b ∈ bs, b.1 % 8 = 0
  noadj : List.Chain' (fun b c : Block => b.2 = true ∨ c.2 = true) bs
  free_eq : s.xFreeBytesRemaining = freeSum bs
  clean : ∀ x, x ∉ allocAddrs (startAddr base) bs →
    heapBLOCK_IS_ALLOCATED ((s.mem x).xBlockSize) = false

/-! ### Folded-iterator helpers (the value of a loop iterator after a walk) -/

def lastO (it : Option Nat) (L : List Nat) : Option Nat := L.foldl (fun _ x => some x) it

/-- The two abstract outcomes of taking the fitting block: split or whole. -/
def splitBlocks (sz w : Nat) : List Block :=
  if heapMINIMUM_BLOCK_SIZE < sz - w then [(w, true), (sz - w, false)] else [(sz, true)]

/-- The abstract result of freeing the block `(sz, true)` between `pre` and
`post`: the block is marked free and coalesced with a free physical
neighbour on each side. -/
def freeShape (pre : List Block) (sz : Nat) (post : List Block) : List Block :=
  let pl := match pre.getLast? with
    | some (l, false) => (pre.dropLast, l)
    | _ => (pre, 0)
  let pr := match post.head? with
    | some (r, false) => (post.tail, r)
    | _ => (post, 0)
  pl.1 ++ (pl.2 + sz + pr.2, false) :: pr.1

/-- The global invariant: a state is either the program start (heap not yet
initialized) or it models some well-formed block list. -/
def GInv (base : Nat) (s : HeapState) : Prop :=
  s = initState ∨ ∃ bs, Models base s bs

/-- The free-list walk as the program would traverse it: follow
`pxNextFreeBlock` from `xStart` until `NULL` (or fuel runs out). -/
def freeWalk (m : Mem) : Option Nat → Nat → List Nat
  | _, 0 => []
  | none, _ => []
  | some a, fuel + 1 => a :: freeWalk m (m a).pxNextFreeBlock fuel

/-- A public operation from `s` to `s'` that does not hand out the pointer
`p`: a `pvPortMalloc` whose result is not `p`, or a returning `vPortFree`. -/
def AvoidsPtr (base p : Nat) (s s' : HeapState) : Prop :=
  (∃ n, s' = (pvPortMalloc base s n).2 ∧ (pvPortMalloc base s n).1 ≠ some p) ∨
  ∃ pv, vPortFree s pv = some s'

/-! ## Concrete witnesses for the claim theorems with hypotheses -/

def witC7s : HeapState := (mallocBody (prvHeapInit 0 initState) 24).2

def witC7t : HeapState := (vPortFree witC7s (some 8)).getD witC7s

def witC10s : HeapState := (mallocBody (prvHeapInit 0 initState) 24).2

def witC10t : HeapState := (vPortFree witC10s (some 8)).getD witC10s

/-! ## Arithmetic and bit-level helper lemmas -/

theorem add32_eq {a b : Nat} (h : a + b < SIZE_MOD) : add32 a b = a + b :=
  Nat.mod_eq_of_lt h

theorem sub32_eq {a b : Nat} (hb : b ≤ a) (ha : a < SIZE_MOD) : sub32 a b = a - b := by
  have hm : SIZE_MOD = 2 ^ 32 := rfl
  unfold sub32
  rw [hm] at ha ⊢
  omega

theorem heapFREE_BLOCK_eq_mod (sz : Nat) : heapFREE_BLOCK sz = sz % 2 ^ 31 :=
  Nat.and_pow_two_sub_one_eq_mod sz 31

theorem heapFREE_BLOCK_of_lt {sz : Nat} (h : sz < 2 ^ 31) : heapFREE_BLOCK sz = sz := by
  rw [heapFREE_BLOCK_eq_mod]
  exact Nat.mod_eq_of_lt h

theorem heapALLOCATE_BLOCK_eq {sz : Nat} (h : sz < 2 ^ 31) :
    heapALLOCATE_BLOCK sz = sz + 2 ^ 31 := by
  have h2 := Nat.mul_add_lt_is_or h 1
  rw [Nat.mul_one] at h2
  unfold heapALLOCATE_BLOCK heapBLOCK_ALLOCATED_BITMASK
  rw [Nat.lor_comm, ← h2, Nat.add_comm]

theorem heapBLOCK_IS_ALLOCATED_of_lt {sz : Nat} (h : sz < 2 ^ 31) :
    heapBLOCK_IS_ALLOCATED sz = false := by
  have h0 : sz &&& heapBLOCK_ALLOCATED_BITMASK = 0 := by
    rw [show heapBLOCK_ALLOCATED_BITMASK = 2 ^ 31 from rfl, Nat.and_two_pow]
    simp [Nat.testBit_lt_two_pow h]
  simp only [heapBLOCK_IS_ALLOCATED, h0]
  rfl

theorem heapBLOCK_IS_ALLOCATED_alloc {sz : Nat} (h : sz < 2 ^ 31) :
    heapBLOCK_IS_ALLOCATED (heapALLOCATE_BLOCK sz) = true := by
  rw [heapALLOCATE_BLOCK_eq h]
  have ht : (sz + 2 ^ 31).testBit 31 = true := by
    rw [Nat.testBit_to_div_mod]
    have h1 : (sz + 2 ^ 31) / 2 ^ 31 = 1 := by omega
    rw [h1]
    decide
  have h0 : (sz + 2 ^ 31) &&& heapBLOCK_ALLOCATED_BITMASK = 2 ^ 31 := by
    rw [show heapBLOCK_ALLOCATED_BITMASK = 2 ^ 31 from rfl, Nat.and_two_pow, ht]
    simp
  simp only [heapBLOCK_IS_ALLOCATED, h0]
  decide

theorem heapFREE_BLOCK_alloc {sz : Nat} (h : sz < 2 ^ 31) :
    heapFREE_BLOCK (heapALLOCATE_BLOCK sz) = sz := by
  rw [heapALLOCATE_BLOCK_eq h, heapFREE_BLOCK_eq_mod]
  omega

theorem writeMem_same (m : Mem) (a : Nat) (b : BlockLink) : writeMem m a b a = b := by
  simp [writeMem]

theorem writeMem_other (m : Mem) {a x : Nat} (b : BlockLink) (h : x ≠ a) :
    writeMem m a b x = m x := by
  simp [writeMem, h]

/-! ## Alignment facts about the arena bounds -/

theorem and_mask_eq_mod (base : Nat) : base &&& portBYTE_ALIGNMENT_MASK = base % 8 :=
  Nat.and_pow_two_sub_one_eq_mod base 3

theorem startAddr_mod (base : Nat) : startAddr base % 8 = 0 := by
  have hand := and_mask_eq_mod base
  unfold startAddr alignDown portBYTE_ALIGNMENT
  split
  · omega
  · next h =>
      rw [hand] at h
      omega

theorem base_le_startAddr (base : Nat) : base ≤ startAddr base := by
  unfold startAddr alignDown portBYTE_ALIGNMENT
  split <;> omega

theorem startAddr_le (base : Nat) : startAddr base ≤ base + 7 := by
  unfold startAddr alignDown portBYTE_ALIGNMENT
  split <;> omega

theorem endAddr_mod (base : Nat) : endAddr base % 8 = 0 := by
  unfold endAddr alignDown portBYTE_ALIGNMENT
  omega

theorem usableSize_mod (base : Nat) : usableSize base % 8 = 0 := by
  have h1 := startAddr_mod base
  have h2 := endAddr_mod base
  unfold usableSize
  omega

theorem usableSize_bounds (base : Nat) :
    40928 ≤ usableSize base ∧ usableSize base ≤ 40952 := by
  have h1 := base_le_startAddr base
  have h2 := startAddr_le base
  have h3 := startAddr_mod base
  unfold usableSize endAddr usableTotal alignDown configTOTAL_HEAP_SIZE xHeapStructSize
    portBYTE_ALIGNMENT
  omega

theorem startAddr_lt_endAddr (base : Nat) : startAddr base < endAddr base := by
  have := usableSize_bounds base
  unfold usableSize at this
  omega

/-! ### List-level lemmas about the shape functions -/

theorem blocksEnd_eq (a : Nat) (bs : List Block) :
    blocksEnd a bs = a + (bs.map Prod.fst).sum := by
  induction bs generalizing a with
  | nil => simp [blocksEnd]
  | cons b t ih => simp [blocksEnd, ih, Nat.add_assoc]

theorem le_blocksEnd (a : Nat) (bs : List Block) : a ≤ blocksEnd a bs := by
  rw [blocksEnd_eq]
  omega

theorem blocksEnd_append (a : Nat) (xs ys : List Block) :
    blocksEnd a (xs ++ ys) = blocksEnd (blocksEnd a xs) ys := by
  induction xs generalizing a with
  | nil => simp [blocksEnd]
  | cons b t ih => simp [blocksEnd, ih]

theorem freeSum_append (xs ys : List Block) :
    freeSum (xs ++ ys) = freeSum xs + freeSum ys := by
  induction xs with
  | nil => simp [freeSum]
  | cons b t ih => simp [freeSum, ih]; omega

theorem allocSum_append (xs ys : List Block) :
    allocSum (xs ++ ys) = allocSum xs + allocSum ys := by
  induction xs with
  | nil => simp [allocSum]
  | cons b t ih => simp [allocSum, ih]; omega

theorem freeSum_add_allocSum (bs : List Block) :
    freeSum bs + allocSum bs = (bs.map Prod.fst).sum := by
  induction bs with
  | nil => simp [freeSum, allocSum]
  | cons b t ih =>
      simp [freeSum, allocSum]
      cases h : b.2 <;> simp [h] <;> omega

theorem addrsOf_append (a : Nat) (xs ys : List Block) :
    addrsOf a (xs ++ ys) = addrsOf a xs ++ addrsOf (blocksEnd a xs) ys := by
  induction xs generalizing a with
  | nil => simp [addrsOf, blocksEnd]
  | cons b t ih => simp [addrsOf, blocksEnd, ih]

theorem freeAddrs_append (a : Nat) (xs ys : List Block) :
    freeAddrs a (xs ++ ys) = freeAddrs a xs ++ freeAddrs (blocksEnd a xs) ys := by
  induction xs generalizing a with
  | nil => simp [freeAddrs, blocksEnd]
  | cons b t ih =>
      cases h : b.2 <;> simp [freeAddrs, blocksEnd, h, ih]

theorem allocAddrs_append (a : Nat) (xs ys : List Block) :
    allocAddrs a (xs ++ ys) = allocAddrs a xs ++ allocAddrs (blocksEnd a xs) ys := by
  induction xs generalizing a with
  | nil => simp [allocAddrs, blocksEnd]
  | cons b t ih =>
      cases h : b.2 <;> simp [allocAddrs, blocksEnd, h, ih]

theorem PhysOK_append {m : Mem} (a : Nat) (xs ys : List Block) :
    PhysOK m a (xs ++ ys) ↔ PhysOK m a xs ∧ PhysOK m (blocksEnd a xs) ys := by
  induction xs generalizing a with
  | nil => simp [PhysOK, blocksEnd]
  | cons b t ih => simp [PhysOK, blocksEnd, ih, and_assoc]

theorem mem_addrsOf_ge {a x : Nat} {bs : List Block} (h : x ∈ addrsOf a bs) : a ≤ x := by
  induction bs generalizing a with
  | nil => simp [addrsOf] at h
  | cons b t ih =>
      simp [addrsOf] at h
      rcases h with rfl | h
      · exact le_rfl
      · exact le_trans (Nat.le_add_right a b.1) (ih h)

theorem mem_addrsOf_lt {a x : Nat} {bs : List Block} (hpos : ∀ b ∈ bs, 0 < b.1)
    (h : x ∈ addrsOf a bs) : x < blocksEnd a bs := by
  induction bs generalizing a with
  | nil => simp [addrsOf] at h
  | cons b t ih =>
      simp [addrsOf] at h
      rcases h with rfl | h
      · calc x < x + b.1 := by have := hpos b (by simp); omega
          _ ≤ blocksEnd (x + b.1) t := le_blocksEnd _ t
      · exact ih (fun c hc => hpos c (by simp [hc])) h

theorem freeAddrs_subset_addrsOf {a x : Nat} {bs : List Block}
    (h : x ∈ freeAddrs a bs) : x ∈ addrsOf a bs := by
  induction bs generalizing a with
  | nil => simp [freeAddrs] at h
  | cons b t ih =>
      cases hb : b.2 <;> simp [freeAddrs, hb, addrsOf] at h ⊢
      · rcases h with rfl | h
        · exact Or.inl rfl
        · exact Or.inr (ih h)
      · exact Or.inr (ih h)

theorem allocAddrs_subset_addrsOf {a x : Nat} {bs : List Block}
    (h : x ∈ allocAddrs a bs) : x ∈ addrsOf a bs := by
  induction bs generalizing a with
  | nil => simp [allocAddrs] at h
  | cons b t ih =>
      cases hb : b.2 <;> simp [allocAddrs, hb, addrsOf] at h ⊢
      · exact Or.inr (ih h)
      · rcases h with rfl | h
        · exact Or.inl rfl
        · exact Or.inr (ih h)

theorem addrsOf_pairwise {a : Nat} {bs : List Block} (hpos : ∀ b ∈ bs, 0 < b.1) :
    List.Pairwise (· < ·) (addrsOf a bs) := by
  induction bs generalizing a with
  | nil => simp [addrsOf]
  | cons b t ih =>
      simp only [addrsOf, List.pairwise_cons]
      constructor
      · intro x hx
        have h1 : a + b.1 ≤ x := mem_addrsOf_ge hx
        have := hpos b (by simp)
        omega
      · exact ih (fun c hc => hpos c (by simp [hc]))

theorem freeAddrs_sublist (a : Nat) (bs : List Block) :
    List.Sublist (freeAddrs a bs) (addrsOf a bs) := by
  induction bs generalizing a with
  | nil => simp [freeAddrs, addrsOf]
  | cons b t ih =>
      cases hb : b.2
      · simp only [freeAddrs, addrsOf, hb, Bool.false_eq_true, if_false]
        exact List.Sublist.cons₂ a (ih (a + b.1))
      · simp only [freeAddrs, addrsOf, hb, if_true]
        exact List.Sublist.cons a (ih (a + b.1))

theorem allocAddrs_sublist (a : Nat) (bs : List Block) :
    List.Sublist (allocAddrs a bs) (addrsOf a bs) := by
  induction bs generalizing a with
  | nil => simp [allocAddrs, addrsOf]
  | cons b t ih =>
      cases hb : b.2
      · simp only [allocAddrs, addrsOf, hb, Bool.false_eq_true, if_false]
        exact List.Sublist.cons a (ih (a + b.1))
      · simp only [allocAddrs, addrsOf, hb, if_true]
        exact List.Sublist.cons₂ a (ih (a + b.1))

theorem freeAddrs_pairwise {a : Nat} {bs : List Block} (hpos : ∀ b ∈ bs, 0 < b.1) :
    List.Pairwise (· < ·) (freeAddrs a bs) :=
  (addrsOf_pairwise hpos).sublist (freeAddrs_sublist a bs)

/-! ### Chain segment lemmas -/

theorem chainSeg_append {m : Mem} (cur stop : Option Nat) (L1 L2 : List Nat) :
    chainSeg m cur (L1 ++ L2) stop ↔
      chainSeg m cur L1 (entry L2 stop) ∧ chainSeg m (entry L2 stop) L2 stop := by
  induction L1 generalizing cur with
  | nil =>
      cases L2 with
      | nil => simp [chainSeg, entry]
      | cons a L => simp [chainSeg, entry]
  | cons a L ih => simp [chainSeg, ih, and_assoc]

theorem chainSeg_write {m : Mem} {w : Nat} {v : BlockLink} {cur stop : Option Nat}
    {L : List Nat} (hw : w ∉ L) :
    chainSeg (writeMem m w v) cur L stop ↔ chainSeg m cur L stop := by
  induction L generalizing cur with
  | nil => simp [chainSeg]
  | cons a L ih =>
      have ha : a ≠ w := fun h => hw (h ▸ List.mem_cons_self a L)
      have hL : w ∉ L := fun h => hw (List.mem_cons_of_mem a h)
      simp only [chainSeg]
      rw [writeMem_other m v ha, ih hL]

theorem PhysOK_write {m : Mem} {w : Nat} {v : BlockLink} {a : Nat} {bs : List Block}
    (hw : w ∉ addrsOf a bs) : PhysOK (writeMem m w v) a bs ↔ PhysOK m a bs := by
  induction bs generalizing a with
  | nil => simp [PhysOK]
  | cons b t ih =>
      have ha : a ≠ w := fun h => hw (h ▸ by simp [addrsOf])
      have ht : w ∉ addrsOf (a + b.1) t := fun h => hw (by simp [addrsOf, h])
      simp only [PhysOK]
      rw [writeMem_other m v ha, ih ht]

theorem PhysOK_read_free {m : Mem} {a sz : Nat} {xs ys : List Block}
    (h : PhysOK m a (xs ++ (sz, false) :: ys)) : (m (blocksEnd a xs)).xBlockSize = sz := by
  rw [PhysOK_append] at h
  have := h.2
  simp only [PhysOK] at this
  simpa using this.1

theorem PhysOK_read_alloc {m : Mem} {a sz : Nat} {xs ys : List Block}
    (h : PhysOK m a (xs ++ (sz, true) :: ys)) :
    (m (blocksEnd a xs)).xBlockSize = heapALLOCATE_BLOCK sz ∧
      (m (blocksEnd a xs)).pxNextFreeBlock = none := by
  rw [PhysOK_append] at h
  have := h.2
  simp only [PhysOK] at this
  simpa using this.1

theorem lastO_nil (it : Option Nat) : lastO it [] = it := rfl

theorem lastO_cons (it : Option Nat) (x : Nat) (L : List Nat) :
    lastO it (x :: L) = lastO (some x) L := rfl

theorem lastO_concat (it : Option Nat) (L : List Nat) (x : Nat) :
    lastO it (L ++ [x]) = some x := by
  induction L generalizing it with
  | nil => rfl
  | cons y L ih => rw [List.cons_append, lastO_cons, ih]

theorem lastO_mem (it : Option Nat) (L : List Nat) :
    lastO it L = it ∨ ∃ x ∈ L, lastO it L = some x := by
  induction L generalizing it with
  | nil => exact Or.inl rfl
  | cons y L ih =>
      rw [lastO_cons]
      rcases ih (some y) with h | ⟨x, hx, h⟩
      · exact Or.inr ⟨y, by simp, h⟩
      · exact Or.inr ⟨x, by simp [hx], h⟩

/-! ### Derived bounds from the invariant -/

theorem Models.sum_sizes {base : Nat} {s : HeapState} {bs : List Block}
    (h : Models base s bs) : (bs.map Prod.fst).sum = usableSize base := by
  have := h.cover
  rw [blocksEnd_eq] at this
  unfold usableSize
  omega

theorem Models.sizes_le {base : Nat} {s : HeapState} {bs : List Block}
    (h : Models base s bs) : ∀ b ∈ bs, b.1 ≤ usableSize base := by
  intro b hb
  have hs := h.sum_sizes
  have : b.1 ∈ bs.map Prod.fst := List.mem_map_of_mem Prod.fst hb
  calc b.1 ≤ (bs.map Prod.fst).sum := List.single_le_sum (fun _ _ => Nat.zero_le _) _ this
    _ = usableSize base := hs

theorem Models.sizes_lt_mask {base : Nat} {s : HeapState} {bs : List Block}
    (h : Models base s bs) : ∀ b ∈ bs, b.1 < 2 ^ 31 := by
  intro b hb
  have h1 := h.sizes_le b hb
  have h2 := (usableSize_bounds base).2
  omega

theorem length_le_sum {bs : List Block} (hp : ∀ b ∈ bs, 0 < b.1) :
    bs.length ≤ (bs.map Prod.fst).sum := by
  induction bs with
  | nil => simp
  | cons b t ih =>
      simp only [List.length_cons, List.map_cons, List.sum_cons]
      have hb := hp b (by simp)
      have ht := ih (fun c hc => hp c (by simp [hc]))
      omega

theorem Models.length_le {base : Nat} {s : HeapState} {bs : List Block}
    (h : Models base s bs) : bs.length ≤ usableSize base := by
  have hs := h.sum_sizes
  have := length_le_sum h.sizes_pos
  omega

theorem Models.freeSum_le {base : Nat} {s : HeapState} {bs : List Block}
    (h : Models base s bs) : freeSum bs ≤ usableSize base := by
  have h1 := freeSum_add_allocSum bs
  have h2 := h.sum_sizes
  omega

theorem Models.freeBytes_lt {base : Nat} {s : HeapState} {bs : List Block}
    (h : Models base s bs) : s.xFreeBytesRemaining < SIZE_MOD := by
  have h1 := h.free_eq
  have h2 := h.freeSum_le
  have h3 := (usableSize_bounds base).2
  have : SIZE_MOD = 2 ^ 32 := rfl
  omega

theorem writeMem_writeMem_same (m : Mem) (a : Nat) (v1 v2 : BlockLink) :
    writeMem (writeMem m a v1) a v2 = writeMem m a v2 := by
  funext x
  simp only [writeMem]
  by_cases h : x = a
  · simp [h]
  · simp [h]

/-! ### Characterisation of the insertion search loop -/

theorem insertLoop_spec {m : Mem} {sn : Option Nat} {ins endA : Nat} (L1 : List Nat) :
    ∀ (L2 : List Nat) (it : Option Nat) (fuel : Nat),
      L1.length < fuel →
      chainSeg m (nextOfIt m sn it) (L1 ++ L2) (some endA) →
      (∀ x ∈ L1, x < ins) → (∀ x ∈ L2, ins ≤ x) → ins ≤ endA →
      insertLoop m sn ins fuel it = lastO it L1 ∧
        chainSeg m (nextOfIt m sn (lastO it L1)) L2 (some endA) := by
  induction L1 with
  | nil =>
      intro L2 it fuel hfuel hch h1 h2 hend
      rw [lastO_nil]
      refine ⟨?_, by simpa using hch⟩
      cases fuel with
      | zero => omega
      | succ f =>
          simp only [insertLoop]
          cases L2 with
          | nil =>
              simp only [List.nil_append, chainSeg] at hch
              rw [hch]
              simp [Nat.not_lt.mpr hend]
          | cons q L =>
              simp only [List.nil_append, chainSeg] at hch
              rw [hch.1]
              have hq : ins ≤ q := h2 q (by simp)
              simp [Nat.not_lt.mpr hq]
  | cons p L1' ih =>
      intro L2 it fuel hfuel hch h1 h2 hend
      cases fuel with
      | zero => simp at hfuel
      | succ f =>
          simp only [List.cons_append, chainSeg] at hch
          have hp : p < ins := h1 p (by simp)
          have hrec := ih L2 (some p) f (by simp at hfuel; omega)
            (by simpa [nextOfIt] using hch.2)
            (fun x hx => h1 x (by simp [hx])) h2 hend
          rw [lastO_cons]
          refine ⟨?_, hrec.2⟩
          simp only [insertLoop]
          rw [hch.1]
          simp only [hp, if_true]
          exact hrec.1

/-! ### Characterisation of the first-fit search loop -/

theorem findFit_spec_found {m : Mem} {w endA : Nat} (P : List Nat) :
    ∀ (R : List Nat) (a : Nat) (prev : Option Nat) (blk : Nat) (fuel : Nat),
      P.length < fuel →
      chainSeg m (some blk) (P ++ a :: R) (some endA) →
      (∀ x ∈ P, (m x).xBlockSize < w) →
      ¬ (m a).xBlockSize < w →
      findFit m w fuel prev blk = (lastO prev P, a) := by
  induction P with
  | nil =>
      intro R a prev blk fuel hfuel hch hP ha
      cases fuel with
      | zero => omega
      | succ f =>
          simp only [List.nil_append, chainSeg] at hch
          have hblk : blk = a := Option.some.inj hch.1
          subst hblk
          simp only [findFit, lastO_nil]
          have hnx : ∃ y, (m blk).pxNextFreeBlock = some y := by
            cases R with
            | nil =>
                simp only [chainSeg] at hch
                exact ⟨endA, hch.2⟩
            | cons r R' =>
                simp only [chainSeg] at hch
                exact ⟨r, hch.2.1⟩
          obtain ⟨y, hy⟩ := hnx
          rw [hy]
          simp [ha]
  | cons p P' ih =>
      intro R a prev blk fuel hfuel hch hP ha
      cases fuel with
      | zero => simp at hfuel
      | succ f =>
          simp only [List.cons_append, chainSeg, List.append_eq] at hch
          have hblk : blk = p := Option.some.inj hch.1
          subst hblk
          have hhead : ∃ h L', P' ++ a :: R = h :: L' := by
            cases P' <;> simp
          obtain ⟨hd, L', hL⟩ := hhead
          have hnx : (m blk).pxNextFreeBlock = some hd := by
            have := hch.2
            rw [hL] at this
            exact this.1
          simp only [findFit]
          rw [hnx]
          have hsz : (m blk).xBlockSize < w := hP blk (by simp)
          simp only [hsz, if_true]
          rw [lastO_cons]
          exact ih R a (some blk) hd f (by simp at hfuel; omega)
            (by rw [hL] at hch ⊢; exact hnx ▸ hch.2)
            (fun x hx => hP x (by simp [hx])) ha

theorem findFit_spec_end {m : Mem} {w endA : Nat} (L : List Nat) :
    ∀ (prev : Option Nat) (blk : Nat) (fuel : Nat),
      L.length < fuel →
      chainSeg m (some blk) (L ++ [endA]) none →
      (∀ x ∈ L, (m x).xBlockSize < w) →
      findFit m w fuel prev blk = (lastO prev L, endA) := by
  induction L with
  | nil =>
      intro prev blk fuel hfuel hch
      intro _
      cases fuel with
      | zero => omega
      | succ f =>
          simp only [List.nil_append, chainSeg] at hch
          have hblk : blk = endA := Option.some.inj hch.1
          subst hblk
          simp only [findFit, lastO_nil]
          rw [hch.2]
  | cons p L' ih =>
      intro prev blk fuel hfuel hch hL
      cases fuel with
      | zero => simp at hfuel
      | succ f =>
          simp only [List.cons_append, chainSeg, List.append_eq] at hch
          have hblk : blk = p := Option.some.inj hch.1
          subst hblk
          have hhead : ∃ hd L2, L' ++ [endA] = hd :: L2 := by
            cases L' <;> simp
          obtain ⟨hd, L2, hL2⟩ := hhead
          have hnx : (m blk).pxNextFreeBlock = some hd := by
            have := hch.2
            rw [hL2] at this
            exact this.1
          simp only [findFit]
          rw [hnx]
          have hsz : (m blk).xBlockSize < w := hL blk (by simp)
          simp only [hsz, if_true]
          rw [lastO_cons]
          exact ih (some blk) hd f (by simp at hfuel; omega)
            (by rw [hL2] at hch ⊢; exact hnx ▸ hch.2)
            (fun x hx => hL x (by simp [hx]))

/-! ### Characterisation of `prvInsertBlockIntoFreeList`

Four behaviours, depending on address adjacency with the free-list
neighbours of the inserted block: plain insertion, backward coalescing,
forward coalescing, and both.  In each lemma `L1` is the prefix of free
blocks below the inserted address and `L2` the suffix above it. -/

theorem entry_of_chainSeg {m : Mem} {sn stop : Option Nat} {L : List Nat}
    (hch : chainSeg m sn L stop) : sn = entry L stop := by
  cases L with
  | nil => simpa [chainSeg, entry] using hch
  | cons q L' => simpa [chainSeg, entry] using hch.1

theorem insert_plain_nil {m : Mem} {sn : Option Nat} {endA ins : Nat} {L2 : List Nat}
    (hch : chainSeg m sn L2 (some endA))
    (h2 : ∀ x ∈ L2, ins < x) (hins : ins < endA)
    (hnofwd : ∀ q L2', L2 = q :: L2' → ins + (m ins).xBlockSize ≠ q) :
    prvInsertBlockIntoFreeList (some endA) m sn ins =
      (writeMem m ins ⟨entry L2 (some endA), (m ins).xBlockSize⟩, some ins) ∧
      chainSeg (writeMem m ins ⟨entry L2 (some endA), (m ins).xBlockSize⟩) (some ins)
        (ins :: L2) (some endA) := by
  have hsn : sn = entry L2 (some endA) := entry_of_chainSeg hch
  have hloop := @insertLoop_spec m sn ins endA
    [] L2 none configTOTAL_HEAP_SIZE (by norm_num [configTOTAL_HEAP_SIZE])
    (by simpa [nextOfIt] using hch) (by simp) (fun x hx => le_of_lt (h2 x hx))
    (le_of_lt hins)
  rw [lastO_nil] at hloop
  constructor
  · simp only [prvInsertBlockIntoFreeList]
    rw [hloop.1]
    cases L2 with
    | nil =>
        simp only [entry] at hsn ⊢
        subst hsn
        by_cases hadj : (some endA : Option Nat) = some (ins + (m ins).xBlockSize)
        · simp [hadj]
        · simp [hadj]
    | cons q L =>
        simp only [entry] at hsn ⊢
        subst hsn
        have hq : ¬ (some q : Option Nat) = some (ins + (m ins).xBlockSize) := by
          intro hcontra
          exact hnofwd q L rfl (Option.some.inj hcontra).symm
        simp [hq]
  · have hmem : ins ∉ L2 := fun hx => absurd (h2 ins hx) (lt_irrefl ins)
    simp only [chainSeg]
    refine ⟨by trivial, ?_⟩
    rw [writeMem_same]
    exact (chainSeg_write hmem).mpr (hsn ▸ hch)

theorem insert_plain_concat {m : Mem} {sn : Option Nat} {endA ins p : Nat}
    {P0 L2 : List Nat}
    (hch : chainSeg m sn ((P0 ++ [p]) ++ L2) (some endA))
    (hlen : (P0 ++ [p]).length < configTOTAL_HEAP_SIZE)
    (h1 : ∀ x ∈ P0 ++ [p], x < ins) (h2 : ∀ x ∈ L2, ins < x) (hins : ins < endA)
    (hpair : List.Pairwise (· < ·) (P0 ++ [p]))
    (hnoback : p + (m p).xBlockSize ≠ ins)
    (hnofwd : ∀ q L2', L2 = q :: L2' → ins + (m ins).xBlockSize ≠ q) :
    prvInsertBlockIntoFreeList (some endA) m sn ins =
      (writeMem (writeMem m ins ⟨entry L2 (some endA), (m ins).xBlockSize⟩) p
        ⟨some ins, (m p).xBlockSize⟩, sn) ∧
      chainSeg (writeMem (writeMem m ins ⟨entry L2 (some endA), (m ins).xBlockSize⟩) p
        ⟨some ins, (m p).xBlockSize⟩) sn ((P0 ++ [p]) ++ ins :: L2) (some endA) := by
  have hpins : p < ins := h1 p (by simp)
  have hloop := @insertLoop_spec m sn ins endA
    (P0 ++ [p]) L2 none configTOTAL_HEAP_SIZE hlen
    (by simpa [nextOfIt] using hch) h1 (fun x hx => le_of_lt (h2 x hx))
    (le_of_lt hins)
  rw [lastO_concat] at hloop
  have hnext : (m p).pxNextFreeBlock = entry L2 (some endA) :=
    entry_of_chainSeg (by simpa [nextOfIt] using hloop.2)
  -- decompose the original chain
  rw [chainSeg_append] at hch
  have hchL2 : chainSeg m (entry L2 (some endA)) L2 (some endA) := hch.2
  have hchP : chainSeg m sn (P0 ++ [p]) (entry L2 (some endA)) := hch.1
  rw [chainSeg_append] at hchP
  have hchP0 : chainSeg m sn P0 (some p) := by
    have := hchP.1
    simpa [entry] using this
  have hand : prvInsertBlockIntoFreeList (some endA) m sn ins =
      (writeMem (writeMem m ins ⟨entry L2 (some endA), (m ins).xBlockSize⟩) p
        ⟨some ins, (m p).xBlockSize⟩, sn) := by
    simp only [prvInsertBlockIntoFreeList]
    rw [hloop.1]
    have hm1 : ¬ p + (m p).xBlockSize = ins := hnoback
    cases hL2 : L2 with
    | nil =>
        simp only [hL2, entry] at hnext ⊢
        by_cases hadj : (some endA : Option Nat) = some (ins + (m ins).xBlockSize)
        · simp [hm1, hnext, hadj, writeMem_other, Nat.ne_of_lt hpins, Ne.symm (Nat.ne_of_lt hpins)]
        · simp [hm1, hnext, hadj, writeMem_other, Nat.ne_of_lt hpins, Ne.symm (Nat.ne_of_lt hpins)]
    | cons q L =>
        simp only [hL2, entry] at hnext ⊢
        have hq : ¬ (some q : Option Nat) = some (ins + (m ins).xBlockSize) := by
          intro hcontra
          exact hnofwd q L hL2 (Option.some.inj hcontra).symm
        simp [hm1, hnext, hq, writeMem_other, Nat.ne_of_lt hpins, Ne.symm (Nat.ne_of_lt hpins)]
  refine ⟨hand, ?_⟩
  -- rebuild the chain on the new memory
  have hinsP0 : ins ∉ P0 := fun hx => absurd (h1 ins (by simp [hx])) (lt_irrefl ins)
  have hpP0 : p ∉ P0 := by
    intro hx
    have := List.pairwise_append.mp hpair
    exact absurd (this.2.2 p hx p (by simp)) (lt_irrefl p)
  have hinsL2 : ins ∉ L2 := fun hx => absurd (h2 ins hx) (lt_irrefl ins)
  have hpL2 : p ∉ L2 := fun hx => absurd (lt_trans hpins (h2 p hx)) (lt_irrefl p)
  rw [chainSeg_append]
  constructor
  · rw [show entry (ins :: L2) (some endA) = some ins from rfl]
    rw [chainSeg_append]
    refine ⟨?_, ?_⟩
    · rw [show entry [p] (some ins) = some p from rfl]
      exact (chainSeg_write hpP0).mpr ((chainSeg_write hinsP0).mpr hchP0)
    · simp only [chainSeg, entry]
      refine ⟨by trivial, ?_⟩
      rw [writeMem_same]
  · simp only [chainSeg]
    refine ⟨by trivial, ?_⟩
    have hreadins : (writeMem (writeMem m ins ⟨entry L2 (some endA), (m ins).xBlockSize⟩) p
        ⟨some ins, (m p).xBlockSize⟩) ins = ⟨entry L2 (some endA), (m ins).xBlockSize⟩ := by
      rw [writeMem_other _ _ (Nat.ne_of_lt hpins).symm, writeMem_same]
    rw [hreadins]
    exact (chainSeg_write hpL2).mpr ((chainSeg_write hinsL2).mpr hchL2)

theorem insert_back {m : Mem} {sn : Option Nat} {endA ins p : Nat} {P0 L2 : List Nat}
    (hch : chainSeg m sn ((P0 ++ [p]) ++ L2) (some endA))
    (hlen : (P0 ++ [p]).length < configTOTAL_HEAP_SIZE)
    (h1 : ∀ x ∈ P0 ++ [p], x < ins) (h2 : ∀ x ∈ L2, ins < x) (hins : ins < endA)
    (hpair : List.Pairwise (· < ·) (P0 ++ [p]))
    (hback : p + (m p).xBlockSize = ins)
    (hsz : (m p).xBlockSize + (m ins).xBlockSize < SIZE_MOD)
    (hnofwd : ∀ q L2', L2 = q :: L2' → ins + (m ins).xBlockSize ≠ q) :
    prvInsertBlockIntoFreeList (some endA) m sn ins =
      (writeMem m p ⟨entry L2 (some endA), add32 (m p).xBlockSize (m ins).xBlockSize⟩, sn) ∧
      chainSeg (writeMem m p
          ⟨entry L2 (some endA), add32 (m p).xBlockSize (m ins).xBlockSize⟩)
        sn ((P0 ++ [p]) ++ L2) (some endA) := by
  have hpins : p < ins := h1 p (by simp)
  have hloop := @insertLoop_spec m sn ins endA
    (P0 ++ [p]) L2 none configTOTAL_HEAP_SIZE hlen
    (by simpa [nextOfIt] using hch) h1 (fun x hx => le_of_lt (h2 x hx))
    (le_of_lt hins)
  rw [lastO_concat] at hloop
  have hnext : (m p).pxNextFreeBlock = entry L2 (some endA) :=
    entry_of_chainSeg (by simpa [nextOfIt] using hloop.2)
  rw [chainSeg_append] at hch
  have hchL2 : chainSeg m (entry L2 (some endA)) L2 (some endA) := hch.2
  have hchP : chainSeg m sn (P0 ++ [p]) (entry L2 (some endA)) := hch.1
  rw [chainSeg_append] at hchP
  have hchP0 : chainSeg m sn P0 (some p) := by
    have := hchP.1
    simpa [entry] using this
  have hadd : add32 (m p).xBlockSize (m ins).xBlockSize =
      (m p).xBlockSize + (m ins).xBlockSize := add32_eq hsz
  have hand : prvInsertBlockIntoFreeList (some endA) m sn ins =
      (writeMem m p ⟨entry L2 (some endA), add32 (m p).xBlockSize (m ins).xBlockSize⟩, sn) := by
    simp only [prvInsertBlockIntoFreeList]
    rw [hloop.1]
    cases hL2 : L2 with
    | nil =>
        simp only [hL2, entry] at hnext ⊢
        by_cases hadj :
            (some endA : Option Nat) = some (p + add32 (m p).xBlockSize (m ins).xBlockSize)
        · simp [hback, hnext, writeMem_same, writeMem_writeMem_same, hadj]
        · simp [hback, hnext, writeMem_same, writeMem_writeMem_same, hadj]
    | cons q L =>
        simp only [hL2, entry] at hnext ⊢
        have hq : ¬ (some q : Option Nat) =
            some (p + add32 (m p).xBlockSize (m ins).xBlockSize) := by
          intro hcontra
          refine hnofwd q L hL2 ?_
          have := Option.some.inj hcontra
          omega
        simp [hback, hnext, writeMem_same, writeMem_writeMem_same, hq]
  refine ⟨hand, ?_⟩
  have hpP0 : p ∉ P0 := by
    intro hx
    have := List.pairwise_append.mp hpair
    exact absurd (this.2.2 p hx p (by simp)) (lt_irrefl p)
  have hpL2 : p ∉ L2 := fun hx => absurd (lt_trans hpins (h2 p hx)) (lt_irrefl p)
  rw [chainSeg_append]
  constructor
  · rw [chainSeg_append]
    refine ⟨?_, ?_⟩
    · rw [show entry [p] (entry L2 (some endA)) = some p from rfl]
      exact (chainSeg_write hpP0).mpr hchP0
    · simp only [chainSeg]
      refine ⟨by trivial, ?_⟩
      rw [writeMem_same]
  · exact (chainSeg_write hpL2).mpr hchL2

theorem insert_fwd_nil {m : Mem} {sn : Option Nat} {endA ins q : Nat} {L2' : List Nat}
    (hch : chainSeg m sn (q :: L2') (some endA))
    (h2 : ∀ x ∈ q :: L2', ins < x) (hins : ins < endA)
    (hfwd : ins + (m ins).xBlockSize = q) (hq : q ≠ endA) :
    prvInsertBlockIntoFreeList (some endA) m sn ins =
      (writeMem m ins
        ⟨(m q).pxNextFreeBlock, add32 (m ins).xBlockSize (m q).xBlockSize⟩, some ins) ∧
      chainSeg (writeMem m ins
          ⟨(m q).pxNextFreeBlock, add32 (m ins).xBlockSize (m q).xBlockSize⟩)
        (some ins) (ins :: L2') (some endA) := by
  have hsn : sn = some q := entry_of_chainSeg hch
  have hloop := @insertLoop_spec m sn ins endA
    [] (q :: L2') none configTOTAL_HEAP_SIZE (by norm_num [configTOTAL_HEAP_SIZE])
    (by simpa [nextOfIt] using hch) (by simp) (fun x hx => le_of_lt (h2 x hx))
    (le_of_lt hins)
  rw [lastO_nil] at hloop
  simp only [chainSeg] at hch
  have hqnext : chainSeg m (m q).pxNextFreeBlock L2' (some endA) := hch.2
  constructor
  · simp only [prvInsertBlockIntoFreeList]
    rw [hloop.1]
    have hqend : ¬ (some q : Option Nat) = some endA := fun hc => hq (Option.some.inj hc)
    simp [hsn, hfwd, hqend]
  · simp only [chainSeg]
    refine ⟨by trivial, ?_⟩
    rw [writeMem_same]
    have hinsL2 : ins ∉ L2' := fun hx => absurd (h2 ins (by simp [hx])) (lt_irrefl ins)
    exact (chainSeg_write hinsL2).mpr hqnext

theorem insert_fwd_concat {m : Mem} {sn : Option Nat} {endA ins p q : Nat}
    {P0 L2' : List Nat}
    (hch : chainSeg m sn ((P0 ++ [p]) ++ q :: L2') (some endA))
    (hlen : (P0 ++ [p]).length < configTOTAL_HEAP_SIZE)
    (h1 : ∀ x ∈ P0 ++ [p], x < ins) (h2 : ∀ x ∈ q :: L2', ins < x) (hins : ins < endA)
    (hpair : List.Pairwise (· < ·) (P0 ++ [p]))
    (hnoback : p + (m p).xBlockSize ≠ ins)
    (hfwd : ins + (m ins).xBlockSize = q) (hq : q ≠ endA) :
    prvInsertBlockIntoFreeList (some endA) m sn ins =
      (writeMem (writeMem m ins
          ⟨(m q).pxNextFreeBlock, add32 (m ins).xBlockSize (m q).xBlockSize⟩) p
        ⟨some ins, (m p).xBlockSize⟩, sn) ∧
      chainSeg (writeMem (writeMem m ins
          ⟨(m q).pxNextFreeBlock, add32 (m ins).xBlockSize (m q).xBlockSize⟩) p
        ⟨some ins, (m p).xBlockSize⟩) sn ((P0 ++ [p]) ++ ins :: L2') (some endA) := by
  have hpins : p < ins := h1 p (by simp)
  have hloop := @insertLoop_spec m sn ins endA
    (P0 ++ [p]) (q :: L2') none configTOTAL_HEAP_SIZE hlen
    (by simpa [nextOfIt] using hch) h1 (fun x hx => le_of_lt (h2 x hx))
    (le_of_lt hins)
  rw [lastO_concat] at hloop
  have hnext : (m p).pxNextFreeBlock = some q := by
    have := entry_of_chainSeg (by simpa [nextOfIt] using hloop.2)
    simpa [entry] using this
  rw [chainSeg_append] at hch
  have hchL2 : chainSeg m (some q) (q :: L2') (some endA) := by
    simpa [entry] using hch.2
  have hchP : chainSeg m sn (P0 ++ [p]) (some q) := by
    have := hch.1
    simpa [entry] using this
  rw [chainSeg_append] at hchP
  have hchP0 : chainSeg m sn P0 (some p) := by
    have := hchP.1
    simpa [entry] using this
  simp only [chainSeg] at hchL2
  have hqnext : chainSeg m (m q).pxNextFreeBlock L2' (some endA) := hchL2.2
  have hand : prvInsertBlockIntoFreeList (some endA) m sn ins =
      (writeMem (writeMem m ins
          ⟨(m q).pxNextFreeBlock, add32 (m ins).xBlockSize (m q).xBlockSize⟩) p
        ⟨some ins, (m p).xBlockSize⟩, sn) := by
    simp only [prvInsertBlockIntoFreeList]
    rw [hloop.1]
    have hqend : ¬ (some q : Option Nat) = some endA := fun hc => hq (Option.some.inj hc)
    simp [hnoback, hnext, hfwd, hqend, writeMem_other, Nat.ne_of_lt hpins,
      Ne.symm (Nat.ne_of_lt hpins)]
  refine ⟨hand, ?_⟩
  have hinsP0 : ins ∉ P0 := fun hx => absurd (h1 ins (by simp [hx])) (lt_irrefl ins)
  have hpP0 : p ∉ P0 := by
    intro hx
    have := List.pairwise_append.mp hpair
    exact absurd (this.2.2 p hx p (by simp)) (lt_irrefl p)
  have hinsL2 : ins ∉ L2' := fun hx => absurd (h2 ins (by simp [hx])) (lt_irrefl ins)
  have hpL2 : p ∉ L2' := fun hx =>
    absurd (lt_trans hpins (h2 p (by simp [hx]))) (lt_irrefl p)
  rw [chainSeg_append]
  constructor
  · rw [show entry (ins :: L2') (some endA) = some ins from rfl]
    rw [chainSeg_append]
    refine ⟨?_, ?_⟩
    · rw [show entry [p] (some ins) = some p from rfl]
      exact (chainSeg_write hpP0).mpr ((chainSeg_write hinsP0).mpr hchP0)
    · simp only [chainSeg, entry]
      refine ⟨by trivial, ?_⟩
      rw [writeMem_same]
  · simp only [chainSeg]
    refine ⟨by trivial, ?_⟩
    have hreadins : (writeMem (writeMem m ins
        ⟨(m q).pxNextFreeBlock, add32 (m ins).xBlockSize (m q).xBlockSize⟩) p
        ⟨some ins, (m p).xBlockSize⟩) ins =
        ⟨(m q).pxNextFreeBlock, add32 (m ins).xBlockSize (m q).xBlockSize⟩ := by
      rw [writeMem_other _ _ (Nat.ne_of_lt hpins).symm, writeMem_same]
    rw [hreadins]
    exact (chainSeg_write hpL2).mpr ((chainSeg_write hinsL2).mpr hqnext)

theorem insert_backfwd {m : Mem} {sn : Option Nat} {endA ins p q : Nat}
    {P0 L2' : List Nat}
    (hch : chainSeg m sn ((P0 ++ [p]) ++ q :: L2') (some endA))
    (hlen : (P0 ++ [p]).length < configTOTAL_HEAP_SIZE)
    (h1 : ∀ x ∈ P0 ++ [p], x < ins) (h2 : ∀ x ∈ q :: L2', ins < x) (hins : ins < endA)
    (hpair : List.Pairwise (· < ·) (P0 ++ [p]))
    (hback : p + (m p).xBlockSize = ins)
    (hsz : (m p).xBlockSize + (m ins).xBlockSize < SIZE_MOD)
    (hfwd : ins + (m ins).xBlockSize = q) (hq : q ≠ endA) :
    prvInsertBlockIntoFreeList (some endA) m sn ins =
      (writeMem m p ⟨(m q).pxNextFreeBlock,
        add32 (add32 (m p).xBlockSize (m ins).xBlockSize) (m q).xBlockSize⟩, sn) ∧
      chainSeg (writeMem m p ⟨(m q).pxNextFreeBlock,
          add32 (add32 (m p).xBlockSize (m ins).xBlockSize) (m q).xBlockSize⟩)
        sn ((P0 ++ [p]) ++ L2') (some endA) := by
  have hpins : p < ins := h1 p (by simp)
  have hqins : ins < q := h2 q (by simp)
  have hloop := @insertLoop_spec m sn ins endA
    (P0 ++ [p]) (q :: L2') none configTOTAL_HEAP_SIZE hlen
    (by simpa [nextOfIt] using hch) h1 (fun x hx => le_of_lt (h2 x hx))
    (le_of_lt hins)
  rw [lastO_concat] at hloop
  have hnext : (m p).pxNextFreeBlock = some q := by
    have := entry_of_chainSeg (by simpa [nextOfIt] using hloop.2)
    simpa [entry] using this
  rw [chainSeg_append] at hch
  have hchL2 : chainSeg m (some q) (q :: L2') (some endA) := by
    simpa [entry] using hch.2
  have hchP : chainSeg m sn (P0 ++ [p]) (some q) := by
    have := hch.1
    simpa [entry] using this
  rw [chainSeg_append] at hchP
  have hchP0 : chainSeg m sn P0 (some p) := by
    have := hchP.1
    simpa [entry] using this
  simp only [chainSeg] at hchL2
  have hqnext : chainSeg m (m q).pxNextFreeBlock L2' (some endA) := hchL2.2
  have hadd : add32 (m p).xBlockSize (m ins).xBlockSize =
      (m p).xBlockSize + (m ins).xBlockSize := add32_eq hsz
  have hand : prvInsertBlockIntoFreeList (some endA) m sn ins =
      (writeMem m p ⟨(m q).pxNextFreeBlock,
        add32 (add32 (m p).xBlockSize (m ins).xBlockSize) (m q).xBlockSize⟩, sn) := by
    simp only [prvInsertBlockIntoFreeList]
    rw [hloop.1]
    have hqend : ¬ (some q : Option Nat) = some endA := fun hc => hq (Option.some.inj hc)
    have hfix : p + add32 (m p).xBlockSize (m ins).xBlockSize = q := by
      rw [hadd]
      omega
    have hqp : q ≠ p := Nat.ne_of_gt (lt_trans hpins hqins)
    simp [hback, hnext, hfix, hqend, writeMem_same, writeMem_writeMem_same,
      writeMem_other, hqp]
  refine ⟨hand, ?_⟩
  have hpP0 : p ∉ P0 := by
    intro hx
    have := List.pairwise_append.mp hpair
    exact absurd (this.2.2 p hx p (by simp)) (lt_irrefl p)
  have hpL2 : p ∉ L2' := fun hx =>
    absurd (lt_trans hpins (h2 p (by simp [hx]))) (lt_irrefl p)
  rw [chainSeg_append]
  constructor
  · rw [chainSeg_append]
    refine ⟨?_, ?_⟩
    · rw [show entry [p] (entry L2' (some endA)) = some p from rfl]
      exact (chainSeg_write hpP0).mpr hchP0
    · simp only [chainSeg]
      refine ⟨by trivial, ?_⟩
      rw [writeMem_same]
      exact entry_of_chainSeg hqnext
  · have he : (m q).pxNextFreeBlock = entry L2' (some endA) := entry_of_chainSeg hqnext
    exact (chainSeg_write hpL2).mpr (he ▸ hqnext)

/-! ### Reading block data through `PhysOK` -/

theorem freeAddrs_size_bound {m : Mem} {w : Nat} :
    ∀ {a0 : Nat} {xs : List Block}, PhysOK m a0 xs →
      (∀ b ∈ xs, b.2 = true ∨ b.1 < w) →
      ∀ x ∈ freeAddrs a0 xs, (m x).xBlockSize < w := by
  intro a0 xs
  induction xs generalizing a0 with
  | nil => intro _ _ x hx; simp [freeAddrs] at hx
  | cons b t ih =>
      intro hphys hb x hx
      cases hb2 : b.2 with
      | true =>
          rw [freeAddrs, hb2, if_pos rfl] at hx
          exact ih hphys.2 (fun c hc => hb c (by simp [hc])) x hx
      | false =>
          rw [freeAddrs, hb2] at hx
          simp only [Bool.false_eq_true, if_false, List.mem_cons] at hx
          rcases hx with rfl | hx
          · have hsz : (m x).xBlockSize = b.1 := by
              have := hphys.1
              rw [hb2] at this
              simpa using this
            have := hb b (by simp)
            rw [hb2] at this
            simp at this
            omega
          · exact ih hphys.2 (fun c hc => hb c (by simp [hc])) x hx

theorem freeAddrs_extent {m : Mem} :
    ∀ {a0 : Nat} {xs : List Block}, PhysOK m a0 xs →
      ∀ x ∈ freeAddrs a0 xs, x + (m x).xBlockSize ≤ blocksEnd a0 xs := by
  intro a0 xs
  induction xs generalizing a0 with
  | nil => intro _ x hx; simp [freeAddrs] at hx
  | cons b t ih =>
      intro hphys x hx
      cases hb2 : b.2 with
      | true =>
          rw [freeAddrs, hb2, if_pos rfl] at hx
          exact ih hphys.2 x hx
      | false =>
          rw [freeAddrs, hb2] at hx
          simp only [Bool.false_eq_true, if_false, List.mem_cons] at hx
          rcases hx with rfl | hx
          · have hsz : (m x).xBlockSize = b.1 := by
              have := hphys.1
              rw [hb2] at this
              simpa using this
            rw [blocksEnd, hsz]
            exact le_blocksEnd _ t
          · exact ih hphys.2 x hx

theorem freeAddrs_gt_of_head_alloc {c : Nat} {post : List Block}
    (hpos : ∀ b ∈ post, 0 < b.1)
    (hhead : ∀ b2 t, post = b2 :: t → b2.2 = true) :
    ∀ r ∈ freeAddrs c post, c < r := by
  intro r hr
  cases post with
  | nil => simp [freeAddrs] at hr
  | cons b2 t =>
      have hb2 : b2.2 = true := hhead b2 t rfl
      rw [freeAddrs, hb2, if_pos rfl] at hr
      have h1 : c + b2.1 ≤ r := mem_addrsOf_ge (freeAddrs_subset_addrsOf hr)
      have := hpos b2 (by simp)
      omega

/-! ### The initial shape -/

theorem prvHeapInit_models (base : Nat) (s : HeapState)
    (hclean : ∀ x, heapBLOCK_IS_ALLOCATED ((s.mem x).xBlockSize) = false) :
    Models base (prvHeapInit base s) [(usableSize base, false)] := by
  have hlt := startAddr_lt_endAddr base
  have hne : startAddr base ≠ endAddr base := Nat.ne_of_lt hlt
  have hub := usableSize_bounds base
  constructor
  · rfl
  · show writeMem (writeMem s.mem (endAddr base) ⟨none, 0⟩) (startAddr base)
      ⟨some (endAddr base), endAddr base - startAddr base⟩ (endAddr base) = ⟨none, 0⟩
    rw [writeMem_other _ _ (Ne.symm hne), writeMem_same]
  · constructor
    · show (writeMem (writeMem s.mem (endAddr base) ⟨none, 0⟩) (startAddr base)
        ⟨some (endAddr base), endAddr base - startAddr base⟩ (startAddr base)).xBlockSize =
          usableSize base
      rw [writeMem_same]
      rfl
    · trivial
  · show chainSeg _ (some (startAddr base))
      (freeAddrs (startAddr base) [(usableSize base, false)]) (some (endAddr base))
    simp only [freeAddrs, Bool.false_eq_true, if_false, chainSeg]
    refine ⟨by trivial, ?_⟩
    show ((writeMem (writeMem s.mem (endAddr base) ⟨none, 0⟩) (startAddr base)
      ⟨some (endAddr base), endAddr base - startAddr base⟩) (startAddr base)).pxNextFreeBlock =
        some (endAddr base)
    rw [writeMem_same]
  · show blocksEnd (startAddr base) [(usableSize base, false)] = endAddr base
    simp only [blocksEnd]
    unfold usableSize
    omega
  · intro b hb
    simp at hb
    subst hb
    simp only
    omega
  · intro b hb
    simp at hb
    subst hb
    have := usableSize_mod base
    simpa using this
  · simp
  · show endAddr base - startAddr base = freeSum [(usableSize base, false)]
    simp [freeSum, usableSize]
  · intro x hx
    show heapBLOCK_IS_ALLOCATED ((writeMem (writeMem s.mem (endAddr base) ⟨none, 0⟩)
      (startAddr base) ⟨some (endAddr base), endAddr base - startAddr base⟩ x).xBlockSize) = false
    by_cases h1 : x = startAddr base
    · subst h1
      rw [writeMem_same]
      show heapBLOCK_IS_ALLOCATED (endAddr base - startAddr base) = false
      refine heapBLOCK_IS_ALLOCATED_of_lt ?_
      unfold usableSize at hub
      omega
    · rw [writeMem_other _ _ h1]
      by_cases h2 : x = endAddr base
      · subst h2
        rw [writeMem_same]
        exact heapBLOCK_IS_ALLOCATED_of_lt (by norm_num)
      · rw [writeMem_other _ _ h2]
        exact hclean x

/-! ### Search outcomes on an abstract shape -/

theorem addrsOf_length (a : Nat) (bs : List Block) : (addrsOf a bs).length = bs.length := by
  induction bs generalizing a with
  | nil => rfl
  | cons b t ih => simp [addrsOf, ih]

theorem chainSeg_snoc_end {m : Mem} {sn : Option Nat} {endA : Nat} {L : List Nat}
    (hch : chainSeg m sn L (some endA))
    (hend : (m endA).pxNextFreeBlock = none) : chainSeg m sn (L ++ [endA]) none := by
  rw [chainSeg_append]
  exact ⟨by simpa [entry] using hch, by simp [chainSeg, entry, hend]⟩

theorem Models.freeLen_lt {base : Nat} {s : HeapState} {bs : List Block}
    (hM : Models base s bs) :
    (freeAddrs (startAddr base) bs).length < configTOTAL_HEAP_SIZE := by
  have h1 : (freeAddrs (startAddr base) bs).length ≤ (addrsOf (startAddr base) bs).length :=
    (freeAddrs_sublist _ bs).length_le
  rw [addrsOf_length] at h1
  have h2 := hM.length_le
  have h3 := (usableSize_bounds base).2
  unfold configTOTAL_HEAP_SIZE
  omega

/-- Every requested size either fits no free block, or there is a first
free block that fits. -/
theorem firstFit_cases (bs : List Block) (w : Nat) :
    (∀ b ∈ bs, b.2 = true ∨ b.1 < w) ∨
    ∃ pre sz post, bs = pre ++ (sz, false) :: post ∧
      (∀ b ∈ pre, b.2 = true ∨ b.1 < w) ∧ w ≤ sz := by
  induction bs with
  | nil => left; simp
  | cons b t ih =>
      by_cases hb : b.2 = false ∧ w ≤ b.1
      · right
        refine ⟨[], b.1, t, ?_, by simp, hb.2⟩
        have : b = (b.1, false) := by
          cases b
          simp at hb ⊢
          exact hb.1
        rw [← this]
        simp
      · have hbok : b.2 = true ∨ b.1 < w := by
          cases h2 : b.2 with
          | true => exact Or.inl rfl
          | false =>
              right
              by_contra hcon
              exact hb ⟨h2, by omega⟩
        rcases ih with h | ⟨pre, sz, post, heq, hpre, hsz⟩
        · left
          intro c hc
          rcases List.mem_cons.mp hc with rfl | hc
          · exact hbok
          · exact h c hc
        · right
          refine ⟨b :: pre, sz, post, by simp [heq], ?_, hsz⟩
          intro c hc
          rcases List.mem_cons.mp hc with rfl | hc
          · exact hbok
          · exact hpre c hc

/-! ### `mallocBody`: failure paths -/

theorem mallocBody_fail {s : HeapState} {w : Nat}
    (h : ¬(0 < w ∧ w ≤ s.xFreeBytesRemaining)) : mallocBody s w = (none, s) := by
  simp only [mallocBody]
  rw [if_neg h]

theorem mallocBody_fail_nofit {base : Nat} {s : HeapState} {bs : List Block} {w : Nat}
    (hM : Models base s bs) (hw : 0 < w)
    (hnofit : ∀ b ∈ bs, b.2 = true ∨ b.1 < w) : mallocBody s w = (none, s) := by
  by_cases hle : w ≤ s.xFreeBytesRemaining
  case neg => exact mallocBody_fail (fun hc => hle hc.2)
  have hchain := hM.chain
  have hext : chainSeg s.mem s.xStartNext
      (freeAddrs (startAddr base) bs ++ [endAddr base]) none :=
    chainSeg_snoc_end hchain (by rw [hM.end_hdr])
  cases hPL : freeAddrs (startAddr base) bs ++ [endAddr base] with
  | nil => simp at hPL
  | cons b0 L' =>
      have hsn : s.xStartNext = some b0 := by
        have := entry_of_chainSeg hext
        rw [hPL] at this
        simpa [entry] using this
      have hsizes : ∀ x ∈ freeAddrs (startAddr base) bs, (s.mem x).xBlockSize < w :=
        freeAddrs_size_bound hM.phys hnofit
      have hff := @findFit_spec_end s.mem w (endAddr base)
        (freeAddrs (startAddr base) bs) none b0 configTOTAL_HEAP_SIZE
        hM.freeLen_lt (hsn ▸ hext) hsizes
      simp only [mallocBody]
      rw [if_pos ⟨hw, hle⟩, hsn]
      simp only [hff]
      simp [hM.pxEnd_eq]

/-- Writing a free block's header with an unchanged size preserves `PhysOK`
(free-block headers constrain only the size field). -/
theorem PhysOK_write_free {m : Mem} {v : BlockLink} :
    ∀ {a0 : Nat} {xs : List Block} {x : Nat}, PhysOK m a0 xs →
      (∀ b ∈ xs, 0 < b.1) → x ∈ freeAddrs a0 xs →
      v.xBlockSize = (m x).xBlockSize → PhysOK (writeMem m x v) a0 xs := by
  intro a0 xs
  induction xs generalizing a0 with
  | nil => intro x _ _ hx; simp [freeAddrs] at hx
  | cons b t ih =>
      intro x hphys hpos hx hsz
      have hpt : ∀ c ∈ t, 0 < c.1 := fun c hc => hpos c (by simp [hc])
      cases hb2 : b.2 with
      | true =>
          rw [freeAddrs, hb2, if_pos rfl] at hx
          have hxge : a0 + b.1 ≤ x := mem_addrsOf_ge (freeAddrs_subset_addrsOf hx)
          have hb1 := hpos b (by simp)
          have hxa0 : a0 ≠ x := by omega
          constructor
          · rw [writeMem_other _ _ hxa0]
            exact hphys.1
          · exact ih hphys.2 hpt hx hsz
      | false =>
          rw [freeAddrs, hb2] at hx
          simp only [Bool.false_eq_true, if_false, List.mem_cons] at hx
          rcases hx with rfl | hx
          · constructor
            · simp only [PhysOK, hb2, Bool.false_eq_true, if_false] at hphys
              simp only [hb2, Bool.false_eq_true, if_false]
              rw [writeMem_same, hsz]
              exact hphys.1
            · have hb1 := hpos b (by simp)
              have hnm : x ∉ addrsOf (x + b.1) t := by
                intro hc
                have := mem_addrsOf_ge hc
                omega
              exact (PhysOK_write hnm).mpr hphys.2
          · have hxge : a0 + b.1 ≤ x := mem_addrsOf_ge (freeAddrs_subset_addrsOf hx)
            have hb1 := hpos b (by simp)
            have hxa0 : a0 ≠ x := by omega
            constructor
            · rw [writeMem_other _ _ hxa0]
              exact hphys.1
            · exact ih hphys.2 hpt hx hsz

theorem freeAddrs_disjoint_allocAddrs {a0 : Nat} {xs : List Block}
    (hpos : ∀ b ∈ xs, 0 < b.1) :
    ∀ x ∈ freeAddrs a0 xs, x ∉ allocAddrs a0 xs := by
  induction xs generalizing a0 with
  | nil => intro x hx; simp [freeAddrs] at hx
  | cons b t ih =>
      intro x hx hxa
      have hb1 := hpos b (by simp)
      have hpt : ∀ c ∈ t, 0 < c.1 := fun c hc => hpos c (by simp [hc])
      cases hb2 : b.2 with
      | true =>
          rw [freeAddrs, hb2, if_pos rfl] at hx
          rw [allocAddrs, hb2, if_pos rfl] at hxa
          rcases List.mem_cons.mp hxa with rfl | hxa
          · have := mem_addrsOf_ge (freeAddrs_subset_addrsOf hx)
            omega
          · exact ih hpt x hx hxa
      | false =>
          rw [freeAddrs, hb2] at hx
          rw [allocAddrs, hb2] at hxa
          simp only [Bool.false_eq_true, if_false, List.mem_cons] at hx hxa
          rcases hx with rfl | hx
          · have := mem_addrsOf_ge (allocAddrs_subset_addrsOf hxa)
            omega
          · exact ih hpt x hx hxa

theorem mallocBody_succ {base : Nat} {s : HeapState} {bs : List Block}
    (hM : Models base s bs) {pre post : List Block} {sz w : Nat}
    (hbs : bs = pre ++ (sz, false) :: post)
    (hpre : ∀ b ∈ pre, b.2 = true ∨ b.1 < w)
    (hfit : w ≤ sz) (hw : 0 < w) (hw8 : w % 8 = 0) :
    (mallocBody s w).1 = some (blocksEnd (startAddr base) pre + xHeapStructSize) ∧
    Models base (mallocBody s w).2 (pre ++ splitBlocks sz w ++ post) ∧
    (mallocBody s w).2.xFreeBytesRemaining =
      s.xFreeBytesRemaining - (if heapMINIMUM_BLOCK_SIZE < sz - w then w else sz) ∧
    ((mallocBody s w).2.xMinimumEverFreeBytesRemaining =
      if (mallocBody s w).2.xFreeBytesRemaining < s.xMinimumEverFreeBytesRemaining
      then (mallocBody s w).2.xFreeBytesRemaining else s.xMinimumEverFreeBytesRemaining) ∧
    (mallocBody s w).2.xNumberOfSuccessfulAllocations =
      add32 s.xNumberOfSuccessfulAllocations 1 ∧
    (mallocBody s w).2.xNumberOfSuccessfulFrees = s.xNumberOfSuccessfulFrees ∧
    (mallocBody s w).2.pxEnd = s.pxEnd := by
  have hmem : (sz, false) ∈ bs := by rw [hbs]; simp
  have hsz_pos : 0 < sz := hM.sizes_pos _ hmem
  have hsz8 : (sz : Nat) % 8 = 0 := hM.sizes_mod _ hmem
  have hszlt : sz < 2 ^ 31 := hM.sizes_lt_mask _ hmem
  have hwlt : w < 2 ^ 31 := by omega
  have hfree : s.xFreeBytesRemaining = freeSum pre + sz + freeSum post := by
    rw [hM.free_eq, hbs, freeSum_append]
    simp [freeSum]
    omega
  have hwle : w ≤ s.xFreeBytesRemaining := by omega
  have hfblt : s.xFreeBytesRemaining < SIZE_MOD := hM.freeBytes_lt
  -- geometry
  have hcov := hM.cover
  rw [hbs, blocksEnd_append] at hcov
  rw [show blocksEnd (blocksEnd (startAddr base) pre) ((sz, false) :: post) =
    blocksEnd (blocksEnd (startAddr base) pre + sz) post from rfl] at hcov
  have hposall := hM.sizes_pos
  rw [hbs] at hposall
  have hpos_pre : ∀ b ∈ pre, 0 < b.1 := fun b hb => hposall b (by simp [hb])
  have hpos_post : ∀ b ∈ post, 0 < b.1 := fun b hb => hposall b (by simp [hb])
  have hasz : blocksEnd (startAddr base) pre + sz ≤ endAddr base := by
    have := le_blocksEnd (blocksEnd (startAddr base) pre + sz) post
    omega
  have haE : blocksEnd (startAddr base) pre < endAddr base := by omega
  -- free-list decomposition
  have hfreeL : freeAddrs (startAddr base) bs =
      freeAddrs (startAddr base) pre ++ blocksEnd (startAddr base) pre ::
        freeAddrs (blocksEnd (startAddr base) pre + sz) post := by
    rw [hbs, freeAddrs_append]
    rfl
  have hchain : chainSeg s.mem s.xStartNext
      (freeAddrs (startAddr base) pre ++ blocksEnd (startAddr base) pre ::
        freeAddrs (blocksEnd (startAddr base) pre + sz) post) (some (endAddr base)) := by
    have := hM.chain
    rw [hfreeL] at this
    exact this
  have hPlt : ∀ x ∈ freeAddrs (startAddr base) pre, x < blocksEnd (startAddr base) pre :=
    fun x hx => mem_addrsOf_lt hpos_pre (freeAddrs_subset_addrsOf hx)
  have hRge : ∀ x ∈ freeAddrs (blocksEnd (startAddr base) pre + sz) post,
      blocksEnd (startAddr base) pre + sz ≤ x :=
    fun x hx => mem_addrsOf_ge (freeAddrs_subset_addrsOf hx)
  have hRlt : ∀ x ∈ freeAddrs (blocksEnd (startAddr base) pre + sz) post, x < endAddr base := by
    intro x hx
    have := mem_addrsOf_lt hpos_post (freeAddrs_subset_addrsOf hx)
    omega
  -- physical decomposition
  have hphys := hM.phys
  rw [hbs, PhysOK_append] at hphys
  have hphys_pre : PhysOK s.mem (startAddr base) pre := hphys.1
  have hsza : (s.mem (blocksEnd (startAddr base) pre)).xBlockSize = sz := by
    have := hphys.2
    simp only [PhysOK, Bool.false_eq_true, if_false] at this
    exact this.1
  have hphys_post : PhysOK s.mem (blocksEnd (startAddr base) pre + sz) post := by
    have := hphys.2
    simp only [PhysOK, Bool.false_eq_true, if_false] at this
    exact this.2
  have hsizeP : ∀ x ∈ freeAddrs (startAddr base) pre, (s.mem x).xBlockSize < w :=
    freeAddrs_size_bound hphys_pre hpre
  have hPpair : List.Pairwise (· < ·) (freeAddrs (startAddr base) pre) :=
    freeAddrs_pairwise hpos_pre
  -- post head is allocated (no two free blocks adjacent)
  have hposthead : ∀ b2 t, post = b2 :: t → b2.2 = true := by
    intro b2 t hp
    have hna := hM.noadj
    rw [hbs, hp] at hna
    have := (List.chain'_append.mp hna).2.1
    rcases (List.chain'_cons.mp this).1 with hc | hc
    · simp at hc
    · exact hc
  have hRgt : ∀ r ∈ freeAddrs (blocksEnd (startAddr base) pre + sz) post,
      blocksEnd (startAddr base) pre + sz < r :=
    freeAddrs_gt_of_head_alloc hpos_post hposthead
  -- the search
  cases hPL : freeAddrs (startAddr base) pre ++ blocksEnd (startAddr base) pre ::
      freeAddrs (blocksEnd (startAddr base) pre + sz) post with
  | nil => simp at hPL
  | cons b0 L' =>
      have hsn : s.xStartNext = some b0 := by
        have := entry_of_chainSeg hchain
        rw [hPL] at this
        simpa [entry] using this
      have hlenP : (freeAddrs (startAddr base) pre).length < configTOTAL_HEAP_SIZE := by
        have h1 := hM.freeLen_lt
        rw [hfreeL] at h1
        simp at h1
        omega
      have hff := @findFit_spec_found s.mem w (endAddr base)
        (freeAddrs (startAddr base) pre)
        (freeAddrs (blocksEnd (startAddr base) pre + sz) post)
        (blocksEnd (startAddr base) pre) none b0 configTOTAL_HEAP_SIZE
        hlenP (hsn ▸ hchain) hsizeP (by rw [hsza]; omega)
      have hane : ¬ (some (blocksEnd (startAddr base) pre) = s.pxEnd) := by
        rw [hM.pxEnd_eq]
        intro hc
        have := Option.some.inj hc
        omega
      simp only [mallocBody]
      rw [if_pos (show 0 < w ∧ w ≤ s.xFreeBytesRemaining from ⟨hw, hwle⟩), hsn]
      simp only [hff]
      rw [if_pos (show some (blocksEnd (startAddr base) pre) ≠ s.pxEnd from hane)]
      have hsubw : sub32 (s.mem (blocksEnd (startAddr base) pre)).xBlockSize w = sz - w := by
        rw [hsza]
        exact sub32_eq hfit (by show sz < 2 ^ 32; omega)
      have hfree_sub : sub32 s.xFreeBytesRemaining w = s.xFreeBytesRemaining - w :=
        sub32_eq hwle hfblt
      have hfree_sub2 : sub32 s.xFreeBytesRemaining sz = s.xFreeBytesRemaining - sz :=
        sub32_eq (by omega) hfblt
      rcases List.eq_nil_or_concat' (freeAddrs (startAddr base) pre) with hP | ⟨P0, p, hP⟩
      · -- no free block below the fitting one: pxPreviousBlock is &xStart
        rw [hP] at hPL
        have hb0 : b0 = blocksEnd (startAddr base) pre ∧
            L' = freeAddrs (blocksEnd (startAddr base) pre + sz) post := by
          rw [List.nil_append] at hPL
          exact ⟨(List.cons.inj hPL).1.symm, (List.cons.inj hPL).2.symm⟩
        have hchA : chainSeg s.mem (some (blocksEnd (startAddr base) pre))
            (blocksEnd (startAddr base) pre ::
              freeAddrs (blocksEnd (startAddr base) pre + sz) post) (some (endAddr base)) := by
          have := hsn ▸ hchain
          rw [hP, List.nil_append] at this
          exact hb0.1 ▸ this
        simp only [chainSeg] at hchA
        have hanext : chainSeg s.mem
            (s.mem (blocksEnd (startAddr base) pre)).pxNextFreeBlock
            (freeAddrs (blocksEnd (startAddr base) pre + sz) post) (some (endAddr base)) :=
          hchA.2
        simp only [hP, lastO_nil]
        rw [hsubw]
        by_cases hsplit : heapMINIMUM_BLOCK_SIZE < sz - w
        · rw [if_pos hsplit]
          rw [hM.pxEnd_eq]
          have hwltsz : w < sz := by
            unfold heapMINIMUM_BLOCK_SIZE xHeapStructSize at hsplit
            omega
          have haR : ∀ x ∈ freeAddrs (blocksEnd (startAddr base) pre + sz) post, blocksEnd (startAddr base) pre ≠ x := by
            intro x hx
            have := hRgt x hx
            omega
          have hnaR : ∀ x ∈ freeAddrs (blocksEnd (startAddr base) pre + sz) post, blocksEnd (startAddr base) pre + w ≠ x := by
            intro x hx
            have := hRgt x hx
            omega
          have hm3read : (writeMem (writeMem s.mem (blocksEnd (startAddr base) pre + w) ⟨(s.mem (blocksEnd (startAddr base) pre + w)).pxNextFreeBlock, sz - w⟩) (blocksEnd (startAddr base) pre) ⟨((writeMem s.mem (blocksEnd (startAddr base) pre + w) ⟨(s.mem (blocksEnd (startAddr base) pre + w)).pxNextFreeBlock, sz - w⟩) (blocksEnd (startAddr base) pre)).pxNextFreeBlock, w⟩) (blocksEnd (startAddr base) pre + w) =
              ⟨(s.mem (blocksEnd (startAddr base) pre + w)).pxNextFreeBlock, sz - w⟩ := by
            rw [writeMem_other _ _ (by omega), writeMem_same]
          have hchm3 : chainSeg (writeMem (writeMem s.mem (blocksEnd (startAddr base) pre + w) ⟨(s.mem (blocksEnd (startAddr base) pre + w)).pxNextFreeBlock, sz - w⟩) (blocksEnd (startAddr base) pre) ⟨((writeMem s.mem (blocksEnd (startAddr base) pre + w) ⟨(s.mem (blocksEnd (startAddr base) pre + w)).pxNextFreeBlock, sz - w⟩) (blocksEnd (startAddr base) pre)).pxNextFreeBlock, w⟩)
              (s.mem (blocksEnd (startAddr base) pre)).pxNextFreeBlock (freeAddrs (blocksEnd (startAddr base) pre + sz) post) (some (endAddr base)) := by
            refine (chainSeg_write (fun hc => (haR _ hc) rfl)).mpr ?_
            exact (chainSeg_write (fun hc => (hnaR _ hc) rfl)).mpr hanext
          have hins := @insert_plain_nil (writeMem (writeMem s.mem (blocksEnd (startAddr base) pre + w) ⟨(s.mem (blocksEnd (startAddr base) pre + w)).pxNextFreeBlock, sz - w⟩) (blocksEnd (startAddr base) pre) ⟨((writeMem s.mem (blocksEnd (startAddr base) pre + w) ⟨(s.mem (blocksEnd (startAddr base) pre + w)).pxNextFreeBlock, sz - w⟩) (blocksEnd (startAddr base) pre)).pxNextFreeBlock, w⟩)
            ((s.mem (blocksEnd (startAddr base) pre)).pxNextFreeBlock) (endAddr base)
            (blocksEnd (startAddr base) pre + w) (freeAddrs (blocksEnd (startAddr base) pre + sz) post) hchm3
            (fun x hx => by have := hRgt x hx; omega)
            (by omega)
            (by
              intro q R2 hR2
              rw [hm3read]
              show blocksEnd (startAddr base) pre + w + (sz - w) ≠ q
              have : q ∈ freeAddrs (blocksEnd (startAddr base) pre + sz) post := by rw [hR2]; simp
              have := hRgt q this
              omega)
          rw [hins.1]
          dsimp only
          have hmInsa : (writeMem (writeMem (writeMem s.mem (blocksEnd (startAddr base) pre + w) ⟨(s.mem (blocksEnd (startAddr base) pre + w)).pxNextFreeBlock, sz - w⟩) (blocksEnd (startAddr base) pre) ⟨((writeMem s.mem (blocksEnd (startAddr base) pre + w) ⟨(s.mem (blocksEnd (startAddr base) pre + w)).pxNextFreeBlock, sz - w⟩) (blocksEnd (startAddr base) pre)).pxNextFreeBlock, w⟩) (blocksEnd (startAddr base) pre + w) ⟨entry (freeAddrs (blocksEnd (startAddr base) pre + sz) post) (some (endAddr base)), ((writeMem (writeMem s.mem (blocksEnd (startAddr base) pre + w) ⟨(s.mem (blocksEnd (startAddr base) pre + w)).pxNextFreeBlock, sz - w⟩) (blocksEnd (startAddr base) pre) ⟨((writeMem s.mem (blocksEnd (startAddr base) pre + w) ⟨(s.mem (blocksEnd (startAddr base) pre + w)).pxNextFreeBlock, sz - w⟩) (blocksEnd (startAddr base) pre)).pxNextFreeBlock, w⟩) (blocksEnd (startAddr base) pre + w)).xBlockSize⟩) (blocksEnd (startAddr base) pre) = ⟨((writeMem s.mem (blocksEnd (startAddr base) pre + w) ⟨(s.mem (blocksEnd (startAddr base) pre + w)).pxNextFreeBlock, sz - w⟩) (blocksEnd (startAddr base) pre)).pxNextFreeBlock, w⟩ := by
            rw [writeMem_other _ _ (by omega), writeMem_same]
          have hsz5 : ((writeMem (writeMem (writeMem s.mem (blocksEnd (startAddr base) pre + w) ⟨(s.mem (blocksEnd (startAddr base) pre + w)).pxNextFreeBlock, sz - w⟩) (blocksEnd (startAddr base) pre) ⟨((writeMem s.mem (blocksEnd (startAddr base) pre + w) ⟨(s.mem (blocksEnd (startAddr base) pre + w)).pxNextFreeBlock, sz - w⟩) (blocksEnd (startAddr base) pre)).pxNextFreeBlock, w⟩) (blocksEnd (startAddr base) pre + w) ⟨entry (freeAddrs (blocksEnd (startAddr base) pre + sz) post) (some (endAddr base)), ((writeMem (writeMem s.mem (blocksEnd (startAddr base) pre + w) ⟨(s.mem (blocksEnd (startAddr base) pre + w)).pxNextFreeBlock, sz - w⟩) (blocksEnd (startAddr base) pre) ⟨((writeMem s.mem (blocksEnd (startAddr base) pre + w) ⟨(s.mem (blocksEnd (startAddr base) pre + w)).pxNextFreeBlock, sz - w⟩) (blocksEnd (startAddr base) pre)).pxNextFreeBlock, w⟩) (blocksEnd (startAddr base) pre + w)).xBlockSize⟩) (blocksEnd (startAddr base) pre)).xBlockSize = w := by rw [hmInsa]
          rw [hsz5, hfree_sub]
          refine ⟨trivial, ?_, by rw [if_pos hsplit], trivial, trivial, trivial, trivial⟩
          rw [show splitBlocks sz w = [(w, true), (sz - w, false)] from by
            unfold splitBlocks
            rw [if_pos hsplit]]
          rw [show (pre ++ [(w, true), (sz - w, false)]) ++ post =
            pre ++ (w, true) :: (sz - w, false) :: post from by simp]
          have hEa : endAddr base ≠ blocksEnd (startAddr base) pre := by omega
          have hEaw : endAddr base ≠ blocksEnd (startAddr base) pre + w := by omega
          have haRm : ∀ x ∈ (blocksEnd (startAddr base) pre + w) :: (freeAddrs (blocksEnd (startAddr base) pre + sz) post), blocksEnd (startAddr base) pre ≠ x := by
            intro x hx
            rcases List.mem_cons.mp hx with rfl | hx
            · omega
            · exact haR x hx
          have hc1 : blocksEnd (startAddr base) pre ∉ addrsOf (startAddr base) pre :=
            fun hc => absurd (mem_addrsOf_lt hpos_pre hc) (lt_irrefl _)
          have hc2 : blocksEnd (startAddr base) pre + w ∉ addrsOf (startAddr base) pre := by
            intro hc
            have := mem_addrsOf_lt hpos_pre hc
            omega
          have hd1 : blocksEnd (startAddr base) pre ∉ addrsOf (blocksEnd (startAddr base) pre + sz) post := by
            intro hc
            have := mem_addrsOf_ge hc
            omega
          have hd2 : blocksEnd (startAddr base) pre + w ∉ addrsOf (blocksEnd (startAddr base) pre + sz) post := by
            intro hc
            have := mem_addrsOf_ge hc
            omega
          have harith : blocksEnd (startAddr base) pre + w + (sz - w) = blocksEnd (startAddr base) pre + sz := by omega
          constructor
          · rfl
          · show _ = ({ pxNextFreeBlock := none, xBlockSize := 0 } : BlockLink)
            dsimp only
            rw [writeMem_other _ _ hEa, writeMem_other _ _ hEaw, writeMem_other _ _ hEa,
              writeMem_other _ _ hEaw]
            exact hM.end_hdr
          · show PhysOK _ (startAddr base) (pre ++ (w, true) :: (sz - w, false) :: post)
            dsimp only
            rw [PhysOK_append]
            constructor
            · exact (PhysOK_write hc1).mpr ((PhysOK_write hc2).mpr
                ((PhysOK_write hc1).mpr ((PhysOK_write hc2).mpr hphys_pre)))
            · refine ⟨?_, ?_, ?_⟩
              · simp only [PhysOK]
                rw [writeMem_same]
                exact ⟨rfl, rfl⟩
              · simp only [PhysOK]
                rw [writeMem_other _ _ (by omega : blocksEnd (startAddr base) pre + w ≠ blocksEnd (startAddr base) pre), writeMem_same]
                show ((writeMem (writeMem s.mem (blocksEnd (startAddr base) pre + w) ⟨(s.mem (blocksEnd (startAddr base) pre + w)).pxNextFreeBlock, sz - w⟩) (blocksEnd (startAddr base) pre) ⟨((writeMem s.mem (blocksEnd (startAddr base) pre + w) ⟨(s.mem (blocksEnd (startAddr base) pre + w)).pxNextFreeBlock, sz - w⟩) (blocksEnd (startAddr base) pre)).pxNextFreeBlock, w⟩) (blocksEnd (startAddr base) pre + w)).xBlockSize = sz - w
                rw [hm3read]
              · rw [harith]
                exact (PhysOK_write hd1).mpr ((PhysOK_write hd2).mpr
                  ((PhysOK_write hd1).mpr ((PhysOK_write hd2).mpr hphys_post)))
          · show chainSeg _ (some (blocksEnd (startAddr base) pre + w))
              (freeAddrs (startAddr base) (pre ++ (w, true) :: (sz - w, false) :: post)) (some (endAddr base))
            have hfa : freeAddrs (startAddr base) (pre ++ (w, true) :: (sz - w, false) :: post) =
                (blocksEnd (startAddr base) pre + w) :: (freeAddrs (blocksEnd (startAddr base) pre + sz) post) := by
              rw [freeAddrs_append, hP]
              simp only [List.nil_append, freeAddrs, if_pos, Bool.false_eq_true, if_false]
              rw [harith]
            dsimp only
            rw [hfa]
            exact (chainSeg_write (fun hc => (haRm _ hc) rfl)).mpr hins.2
          · show blocksEnd (startAddr base) (pre ++ (w, true) :: (sz - w, false) :: post) = endAddr base
            rw [blocksEnd_append]
            show blocksEnd (blocksEnd (startAddr base) pre + w + (sz - w)) post = endAddr base
            rw [harith]
            exact hcov
          · intro b hb
            simp only [List.mem_append, List.mem_cons] at hb
            rcases hb with hb | hb | hb | hb
            · exact hpos_pre b hb
            · subst hb; simpa using hw
            · subst hb
              show 0 < sz - w
              unfold heapMINIMUM_BLOCK_SIZE xHeapStructSize at hsplit
              omega
            · exact hpos_post b hb
          · intro b hb
            simp only [List.mem_append, List.mem_cons] at hb
            rcases hb with hb | hb | hb | hb
            · exact hM.sizes_mod b (by rw [hbs]; simp [hb])
            · subst hb; simpa using hw8
            · subst hb
              show (sz - w) % 8 = 0
              omega
            · exact hM.sizes_mod b (by rw [hbs]; simp [hb])
          · show List.Chain' _ (pre ++ (w, true) :: (sz - w, false) :: post)
            have hold := hM.noadj
            rw [hbs] at hold
            rw [List.chain'_append] at hold ⊢
            refine ⟨hold.1, ?_, ?_⟩
            · rw [List.chain'_cons]
              refine ⟨Or.inl rfl, ?_⟩
              rw [List.chain'_cons']
              constructor
              · intro y hy
                cases post with
                | nil => simp at hy
                | cons b2 t =>
                    simp at hy
                    subst hy
                    exact Or.inr (hposthead b2 t rfl)
              · exact (List.chain'_cons'.mp hold.2.1).2
            · intro x hx y hy
              simp at hy
              subst hy
              exact Or.inr rfl
          · show s.xFreeBytesRemaining - w =
              freeSum (pre ++ (w, true) :: (sz - w, false) :: post)
            rw [freeSum_append]
            show s.xFreeBytesRemaining - w =
              freeSum pre + (0 + ((sz - w) + freeSum post))
            omega
          · intro x hx
            have hall' : allocAddrs (startAddr base) (pre ++ (w, true) :: (sz - w, false) :: post) =
                allocAddrs (startAddr base) pre ++ blocksEnd (startAddr base) pre :: allocAddrs (blocksEnd (startAddr base) pre + sz) post := by
              rw [allocAddrs_append]
              simp only [allocAddrs, if_pos, Bool.false_eq_true, if_false]
              rw [harith]
            rw [hall'] at hx
            simp only [List.mem_append, List.mem_cons] at hx
            push_neg at hx
            dsimp only
            have hbitold : heapBLOCK_IS_ALLOCATED ((s.mem x).xBlockSize) = false := by
              refine hM.clean x ?_
              rw [hbs, allocAddrs_append]
              simp only [allocAddrs, Bool.false_eq_true, if_false, List.mem_append]
              push_neg
              exact ⟨hx.1, hx.2.2⟩
            by_cases hxaw : x = blocksEnd (startAddr base) pre + w
            · subst hxaw
              rw [writeMem_other _ _ (by omega : blocksEnd (startAddr base) pre + w ≠ blocksEnd (startAddr base) pre), writeMem_same]
              show heapBLOCK_IS_ALLOCATED ((writeMem (writeMem s.mem (blocksEnd (startAddr base) pre + w) ⟨(s.mem (blocksEnd (startAddr base) pre + w)).pxNextFreeBlock, sz - w⟩) (blocksEnd (startAddr base) pre) ⟨((writeMem s.mem (blocksEnd (startAddr base) pre + w) ⟨(s.mem (blocksEnd (startAddr base) pre + w)).pxNextFreeBlock, sz - w⟩) (blocksEnd (startAddr base) pre)).pxNextFreeBlock, w⟩) (blocksEnd (startAddr base) pre + w)).xBlockSize = false
              rw [hm3read]
              show heapBLOCK_IS_ALLOCATED (sz - w) = false
              exact heapBLOCK_IS_ALLOCATED_of_lt (by omega)
            · rw [writeMem_other _ _ hx.2.1, writeMem_other _ _ hxaw,
                writeMem_other _ _ hx.2.1, writeMem_other _ _ hxaw]
              exact hbitold
        · rw [if_neg hsplit]
          rw [hM.pxEnd_eq]
          dsimp only
          rw [hsza, hfree_sub2]
          refine ⟨trivial, ?_, by rw [if_neg hsplit], trivial, trivial, trivial, trivial⟩
          rw [show splitBlocks sz w = [(sz, true)] from by
            unfold splitBlocks
            rw [if_neg hsplit]]
          rw [show (pre ++ [(sz, true)]) ++ post = pre ++ (sz, true) :: post from by simp]
          have hEa : endAddr base ≠ blocksEnd (startAddr base) pre := by omega
          have hc1 : blocksEnd (startAddr base) pre ∉ addrsOf (startAddr base) pre :=
            fun hc => absurd (mem_addrsOf_lt hpos_pre hc) (lt_irrefl _)
          have hd1 : blocksEnd (startAddr base) pre ∉ addrsOf (blocksEnd (startAddr base) pre + sz) post := by
            intro hc
            have := mem_addrsOf_ge hc
            omega
          have haR : ∀ x ∈ freeAddrs (blocksEnd (startAddr base) pre + sz) post, blocksEnd (startAddr base) pre ≠ x := by
            intro x hx
            have := hRgt x hx
            omega
          constructor
          · rfl
          · show _ = ({ pxNextFreeBlock := none, xBlockSize := 0 } : BlockLink)
            dsimp only
            rw [writeMem_other _ _ hEa]
            exact hM.end_hdr
          · show PhysOK _ (startAddr base) (pre ++ (sz, true) :: post)
            dsimp only
            rw [PhysOK_append]
            constructor
            · exact (PhysOK_write hc1).mpr hphys_pre
            · refine ⟨?_, ?_⟩
              · simp only [PhysOK]
                rw [writeMem_same]
                exact ⟨rfl, rfl⟩
              · exact (PhysOK_write hd1).mpr hphys_post
          · show chainSeg _ _ (freeAddrs (startAddr base) (pre ++ (sz, true) :: post)) (some (endAddr base))
            dsimp only
            have hfa : freeAddrs (startAddr base) (pre ++ (sz, true) :: post) = freeAddrs (blocksEnd (startAddr base) pre + sz) post := by
              rw [freeAddrs_append, hP]
              simp only [List.nil_append, freeAddrs, if_pos]
            rw [hfa]
            exact (chainSeg_write (fun hc => (haR _ hc) rfl)).mpr hanext
          · show blocksEnd (startAddr base) (pre ++ (sz, true) :: post) = endAddr base
            rw [blocksEnd_append]
            exact hcov
          · intro b hb
            simp only [List.mem_append, List.mem_cons] at hb
            rcases hb with hb | hb | hb
            · exact hpos_pre b hb
            · subst hb; simpa using hsz_pos
            · exact hpos_post b hb
          · intro b hb
            simp only [List.mem_append, List.mem_cons] at hb
            rcases hb with hb | hb | hb
            · exact hM.sizes_mod b (by rw [hbs]; simp [hb])
            · subst hb; simpa using hsz8
            · exact hM.sizes_mod b (by rw [hbs]; simp [hb])
          · show List.Chain' _ (pre ++ (sz, true) :: post)
            have hold := hM.noadj
            rw [hbs] at hold
            rw [List.chain'_append] at hold ⊢
            refine ⟨hold.1, ?_, ?_⟩
            · rw [List.chain'_cons']
              refine ⟨fun y hy => Or.inl rfl, (List.chain'_cons'.mp hold.2.1).2⟩
            · intro x hx y hy
              simp at hy
              subst hy
              exact Or.inr rfl
          · show s.xFreeBytesRemaining - sz = freeSum (pre ++ (sz, true) :: post)
            rw [freeSum_append]
            show s.xFreeBytesRemaining - sz = freeSum pre + (0 + freeSum post)
            omega
          · intro x hx
            have hall' : allocAddrs (startAddr base) (pre ++ (sz, true) :: post) =
                allocAddrs (startAddr base) pre ++ blocksEnd (startAddr base) pre :: allocAddrs (blocksEnd (startAddr base) pre + sz) post := by
              rw [allocAddrs_append]
              simp only [allocAddrs, if_pos]
            rw [hall'] at hx
            simp only [List.mem_append, List.mem_cons] at hx
            push_neg at hx
            dsimp only
            have hbitold : heapBLOCK_IS_ALLOCATED ((s.mem x).xBlockSize) = false := by
              refine hM.clean x ?_
              rw [hbs, allocAddrs_append]
              simp only [allocAddrs, Bool.false_eq_true, if_false, List.mem_append]
              push_neg
              exact ⟨hx.1, hx.2.2⟩
            rw [writeMem_other _ _ hx.2.1]
            exact hbitold
      · -- pxPreviousBlock is the last free block below the fit
        have hpP : p ∈ freeAddrs (startAddr base) pre := by rw [hP]; simp
        have hpa : p < blocksEnd (startAddr base) pre := hPlt p hpP
        have hpext : p + (s.mem p).xBlockSize ≤ blocksEnd (startAddr base) pre := freeAddrs_extent hphys_pre p hpP
        have hchain' : chainSeg s.mem (some b0)
            ((freeAddrs (startAddr base) pre) ++ blocksEnd (startAddr base) pre :: (freeAddrs (blocksEnd (startAddr base) pre + sz) post)) (some (endAddr base)) := hsn ▸ hchain
        rw [hP] at hchain'
        have hPpair' : List.Pairwise (· < ·) (P0 ++ [p]) := hP ▸ hPpair
        have hpP0 : p ∉ P0 := by
          intro hc
          have := List.pairwise_append.mp hPpair'
          exact absurd (this.2.2 p hc p (by simp)) (lt_irrefl p)
        have hpR : ∀ x ∈ freeAddrs (blocksEnd (startAddr base) pre + sz) post, p ≠ x := by
          intro x hx
          have := hRgt x hx
          omega
        -- decompose the chain around p and the fitting block
        rw [chainSeg_append] at hchain'
        have hchaR : chainSeg s.mem (some (blocksEnd (startAddr base) pre))
            (blocksEnd (startAddr base) pre :: (freeAddrs (blocksEnd (startAddr base) pre + sz) post)) (some (endAddr base)) := by
          have := hchain'.2
          simpa [entry] using this
        simp only [chainSeg] at hchaR
        have hanext : chainSeg s.mem (s.mem (blocksEnd (startAddr base) pre)).pxNextFreeBlock (freeAddrs (blocksEnd (startAddr base) pre + sz) post) (some (endAddr base)) :=
          hchaR.2
        have hchP : chainSeg s.mem (some b0) (P0 ++ [p]) (some (blocksEnd (startAddr base) pre)) := by
          have := hchain'.1
          simpa [entry] using this
        rw [chainSeg_append] at hchP
        have hchP0 : chainSeg s.mem (some b0) P0 (some p) := by
          have := hchP.1
          simpa [entry] using this
        have hpnext : (s.mem p).pxNextFreeBlock = some (blocksEnd (startAddr base) pre) := by
          have := hchP.2
          simp only [chainSeg, entry] at this
          exact this.2
        simp only [hP, lastO_concat]
        have hm1a : (writeMem s.mem p ⟨(s.mem (blocksEnd (startAddr base) pre)).pxNextFreeBlock, (s.mem p).xBlockSize⟩) (blocksEnd (startAddr base) pre) = s.mem (blocksEnd (startAddr base) pre) :=
          writeMem_other _ _ (by omega)
        rw [hm1a, hsubw]
        -- the unlinked chain
        have hchain1 : chainSeg (writeMem s.mem p ⟨(s.mem (blocksEnd (startAddr base) pre)).pxNextFreeBlock, (s.mem p).xBlockSize⟩) (some b0)
            ((P0 ++ [p]) ++ (freeAddrs (blocksEnd (startAddr base) pre + sz) post)) (some (endAddr base)) := by
          rw [chainSeg_append]
          constructor
          · rw [chainSeg_append]
            refine ⟨?_, ?_⟩
            · have : entry [p] (entry (freeAddrs (blocksEnd (startAddr base) pre + sz) post) (some (endAddr base))) = some p := rfl
              rw [this]
              exact (chainSeg_write hpP0).mpr hchP0
            · simp only [chainSeg, entry]
              refine ⟨by trivial, ?_⟩
              rw [writeMem_same]
              exact entry_of_chainSeg hanext
          · have he := entry_of_chainSeg hanext
            exact (chainSeg_write (fun hc => (hpR _ hc) rfl)).mpr (he ▸ hanext)
        by_cases hsplit : heapMINIMUM_BLOCK_SIZE < sz - w
        · rw [if_pos hsplit]
          rw [hM.pxEnd_eq]
          have hwltsz : w < sz := by
            unfold heapMINIMUM_BLOCK_SIZE xHeapStructSize at hsplit
            omega
          have hm3read : (writeMem (writeMem (writeMem s.mem p ⟨(s.mem (blocksEnd (startAddr base) pre)).pxNextFreeBlock, (s.mem p).xBlockSize⟩) (blocksEnd (startAddr base) pre + w) ⟨((writeMem s.mem p ⟨(s.mem (blocksEnd (startAddr base) pre)).pxNextFreeBlock, (s.mem p).xBlockSize⟩) (blocksEnd (startAddr base) pre + w)).pxNextFreeBlock, sz - w⟩) (blocksEnd (startAddr base) pre) ⟨((writeMem (writeMem s.mem p ⟨(s.mem (blocksEnd (startAddr base) pre)).pxNextFreeBlock, (s.mem p).xBlockSize⟩) (blocksEnd (startAddr base) pre + w) ⟨((writeMem s.mem p ⟨(s.mem (blocksEnd (startAddr base) pre)).pxNextFreeBlock, (s.mem p).xBlockSize⟩) (blocksEnd (startAddr base) pre + w)).pxNextFreeBlock, sz - w⟩) (blocksEnd (startAddr base) pre)).pxNextFreeBlock, w⟩) (blocksEnd (startAddr base) pre + w) =
              ⟨((writeMem s.mem p ⟨(s.mem (blocksEnd (startAddr base) pre)).pxNextFreeBlock, (s.mem p).xBlockSize⟩) (blocksEnd (startAddr base) pre + w)).pxNextFreeBlock, sz - w⟩ := by
            rw [writeMem_other _ _ (by omega), writeMem_same]
          have hm3p : (writeMem (writeMem (writeMem s.mem p ⟨(s.mem (blocksEnd (startAddr base) pre)).pxNextFreeBlock, (s.mem p).xBlockSize⟩) (blocksEnd (startAddr base) pre + w) ⟨((writeMem s.mem p ⟨(s.mem (blocksEnd (startAddr base) pre)).pxNextFreeBlock, (s.mem p).xBlockSize⟩) (blocksEnd (startAddr base) pre + w)).pxNextFreeBlock, sz - w⟩) (blocksEnd (startAddr base) pre) ⟨((writeMem (writeMem s.mem p ⟨(s.mem (blocksEnd (startAddr base) pre)).pxNextFreeBlock, (s.mem p).xBlockSize⟩) (blocksEnd (startAddr base) pre + w) ⟨((writeMem s.mem p ⟨(s.mem (blocksEnd (startAddr base) pre)).pxNextFreeBlock, (s.mem p).xBlockSize⟩) (blocksEnd (startAddr base) pre + w)).pxNextFreeBlock, sz - w⟩) (blocksEnd (startAddr base) pre)).pxNextFreeBlock, w⟩) p = ⟨(s.mem (blocksEnd (startAddr base) pre)).pxNextFreeBlock, (s.mem p).xBlockSize⟩ := by
            rw [writeMem_other _ _ (by omega), writeMem_other _ _ (by omega), writeMem_same]
          have hnotin1 : ∀ x ∈ (P0 ++ [p]) ++ (freeAddrs (blocksEnd (startAddr base) pre + sz) post), blocksEnd (startAddr base) pre ≠ x := by
            intro x hx
            rcases List.mem_append.mp hx with hx | hx
            · have : x ∈ freeAddrs (startAddr base) pre := by rw [hP]; exact hx
              have := hPlt x this
              omega
            · have := hRgt x hx
              omega
          have hnotin2 : ∀ x ∈ (P0 ++ [p]) ++ (freeAddrs (blocksEnd (startAddr base) pre + sz) post), blocksEnd (startAddr base) pre + w ≠ x := by
            intro x hx
            rcases List.mem_append.mp hx with hx | hx
            · have : x ∈ freeAddrs (startAddr base) pre := by rw [hP]; exact hx
              have := hPlt x this
              omega
            · have := hRgt x hx
              omega
          have hch3 : chainSeg (writeMem (writeMem (writeMem s.mem p ⟨(s.mem (blocksEnd (startAddr base) pre)).pxNextFreeBlock, (s.mem p).xBlockSize⟩) (blocksEnd (startAddr base) pre + w) ⟨((writeMem s.mem p ⟨(s.mem (blocksEnd (startAddr base) pre)).pxNextFreeBlock, (s.mem p).xBlockSize⟩) (blocksEnd (startAddr base) pre + w)).pxNextFreeBlock, sz - w⟩) (blocksEnd (startAddr base) pre) ⟨((writeMem (writeMem s.mem p ⟨(s.mem (blocksEnd (startAddr base) pre)).pxNextFreeBlock, (s.mem p).xBlockSize⟩) (blocksEnd (startAddr base) pre + w) ⟨((writeMem s.mem p ⟨(s.mem (blocksEnd (startAddr base) pre)).pxNextFreeBlock, (s.mem p).xBlockSize⟩) (blocksEnd (startAddr base) pre + w)).pxNextFreeBlock, sz - w⟩) (blocksEnd (startAddr base) pre)).pxNextFreeBlock, w⟩) (some b0) ((P0 ++ [p]) ++ (freeAddrs (blocksEnd (startAddr base) pre + sz) post)) (some (endAddr base)) := by
            refine (chainSeg_write (fun hc => (hnotin1 _ hc) rfl)).mpr ?_
            exact (chainSeg_write (fun hc => (hnotin2 _ hc) rfl)).mpr hchain1
          have hlen' : (P0 ++ [p]).length < configTOTAL_HEAP_SIZE := by
            rw [← hP]
            exact hlenP
          have hins := @insert_plain_concat (writeMem (writeMem (writeMem s.mem p ⟨(s.mem (blocksEnd (startAddr base) pre)).pxNextFreeBlock, (s.mem p).xBlockSize⟩) (blocksEnd (startAddr base) pre + w) ⟨((writeMem s.mem p ⟨(s.mem (blocksEnd (startAddr base) pre)).pxNextFreeBlock, (s.mem p).xBlockSize⟩) (blocksEnd (startAddr base) pre + w)).pxNextFreeBlock, sz - w⟩) (blocksEnd (startAddr base) pre) ⟨((writeMem (writeMem s.mem p ⟨(s.mem (blocksEnd (startAddr base) pre)).pxNextFreeBlock, (s.mem p).xBlockSize⟩) (blocksEnd (startAddr base) pre + w) ⟨((writeMem s.mem p ⟨(s.mem (blocksEnd (startAddr base) pre)).pxNextFreeBlock, (s.mem p).xBlockSize⟩) (blocksEnd (startAddr base) pre + w)).pxNextFreeBlock, sz - w⟩) (blocksEnd (startAddr base) pre)).pxNextFreeBlock, w⟩) (some b0) (endAddr base)
            (blocksEnd (startAddr base) pre + w) (p) (P0) (freeAddrs (blocksEnd (startAddr base) pre + sz) post) hch3 hlen'
            (by
              intro x hx
              have : x ∈ freeAddrs (startAddr base) pre := by rw [hP]; exact hx
              have := hPlt x this
              omega)
            (fun x hx => by have := hRgt x hx; omega)
            (by omega) hPpair'
            (by
              rw [hm3p]
              show p + (s.mem p).xBlockSize ≠ blocksEnd (startAddr base) pre + w
              omega)
            (by
              intro q R2 hR2
              rw [hm3read]
              show blocksEnd (startAddr base) pre + w + (sz - w) ≠ q
              have : q ∈ freeAddrs (blocksEnd (startAddr base) pre + sz) post := by rw [hR2]; simp
              have := hRgt q this
              omega)
          rw [hins.1]
          dsimp only
          have hmInsa : (writeMem (writeMem (writeMem (writeMem (writeMem s.mem p ⟨(s.mem (blocksEnd (startAddr base) pre)).pxNextFreeBlock, (s.mem p).xBlockSize⟩) (blocksEnd (startAddr base) pre + w) ⟨((writeMem s.mem p ⟨(s.mem (blocksEnd (startAddr base) pre)).pxNextFreeBlock, (s.mem p).xBlockSize⟩) (blocksEnd (startAddr base) pre + w)).pxNextFreeBlock, sz - w⟩) (blocksEnd (startAddr base) pre) ⟨((writeMem (writeMem s.mem p ⟨(s.mem (blocksEnd (startAddr base) pre)).pxNextFreeBlock, (s.mem p).xBlockSize⟩) (blocksEnd (startAddr base) pre + w) ⟨((writeMem s.mem p ⟨(s.mem (blocksEnd (startAddr base) pre)).pxNextFreeBlock, (s.mem p).xBlockSize⟩) (blocksEnd (startAddr base) pre + w)).pxNextFreeBlock, sz - w⟩) (blocksEnd (startAddr base) pre)).pxNextFreeBlock, w⟩) (blocksEnd (startAddr base) pre + w) ⟨entry (freeAddrs (blocksEnd (startAddr base) pre + sz) post) (some (endAddr base)), ((writeMem (writeMem (writeMem s.mem p ⟨(s.mem (blocksEnd (startAddr base) pre)).pxNextFreeBlock, (s.mem p).xBlockSize⟩) (blocksEnd (startAddr base) pre + w) ⟨((writeMem s.mem p ⟨(s.mem (blocksEnd (startAddr base) pre)).pxNextFreeBlock, (s.mem p).xBlockSize⟩) (blocksEnd (startAddr base) pre + w)).pxNextFreeBlock, sz - w⟩) (blocksEnd (startAddr base) pre) ⟨((writeMem (writeMem s.mem p ⟨(s.mem (blocksEnd (startAddr base) pre)).pxNextFreeBlock, (s.mem p).xBlockSize⟩) (blocksEnd (startAddr base) pre + w) ⟨((writeMem s.mem p ⟨(s.mem (blocksEnd (startAddr base) pre)).pxNextFreeBlock, (s.mem p).xBlockSize⟩) (blocksEnd (startAddr base) pre + w)).pxNextFreeBlock, sz - w⟩) (blocksEnd (startAddr base) pre)).pxNextFreeBlock, w⟩) (blocksEnd (startAddr base) pre + w)).xBlockSize⟩) p ⟨some (blocksEnd (startAddr base) pre + w), ((writeMem (writeMem (writeMem s.mem p ⟨(s.mem (blocksEnd (startAddr base) pre)).pxNextFreeBlock, (s.mem p).xBlockSize⟩) (blocksEnd (startAddr base) pre + w) ⟨((writeMem s.mem p ⟨(s.mem (blocksEnd (startAddr base) pre)).pxNextFreeBlock, (s.mem p).xBlockSize⟩) (blocksEnd (startAddr base) pre + w)).pxNextFreeBlock, sz - w⟩) (blocksEnd (startAddr base) pre) ⟨((writeMem (writeMem s.mem p ⟨(s.mem (blocksEnd (startAddr base) pre)).pxNextFreeBlock, (s.mem p).xBlockSize⟩) (blocksEnd (startAddr base) pre + w) ⟨((writeMem s.mem p ⟨(s.mem (blocksEnd (startAddr base) pre)).pxNextFreeBlock, (s.mem p).xBlockSize⟩) (blocksEnd (startAddr base) pre + w)).pxNextFreeBlock, sz - w⟩) (blocksEnd (startAddr base) pre)).pxNextFreeBlock, w⟩) p).xBlockSize⟩) (blocksEnd (startAddr base) pre) = ⟨((writeMem (writeMem s.mem p ⟨(s.mem (blocksEnd (startAddr base) pre)).pxNextFreeBlock, (s.mem p).xBlockSize⟩) (blocksEnd (startAddr base) pre + w) ⟨((writeMem s.mem p ⟨(s.mem (blocksEnd (startAddr base) pre)).pxNextFreeBlock, (s.mem p).xBlockSize⟩) (blocksEnd (startAddr base) pre + w)).pxNextFreeBlock, sz - w⟩) (blocksEnd (startAddr base) pre)).pxNextFreeBlock, w⟩ := by
            rw [writeMem_other _ _ (by omega), writeMem_other _ _ (by omega), writeMem_same]
          have hsz5 : ((writeMem (writeMem (writeMem (writeMem (writeMem s.mem p ⟨(s.mem (blocksEnd (startAddr base) pre)).pxNextFreeBlock, (s.mem p).xBlockSize⟩) (blocksEnd (startAddr base) pre + w) ⟨((writeMem s.mem p ⟨(s.mem (blocksEnd (startAddr base) pre)).pxNextFreeBlock, (s.mem p).xBlockSize⟩) (blocksEnd (startAddr base) pre + w)).pxNextFreeBlock, sz - w⟩) (blocksEnd (startAddr base) pre) ⟨((writeMem (writeMem s.mem p ⟨(s.mem (blocksEnd (startAddr base) pre)).pxNextFreeBlock, (s.mem p).xBlockSize⟩) (blocksEnd (startAddr base) pre + w) ⟨((writeMem s.mem p ⟨(s.mem (blocksEnd (startAddr base) pre)).pxNextFreeBlock, (s.mem p).xBlockSize⟩) (blocksEnd (startAddr base) pre + w)).pxNextFreeBlock, sz - w⟩) (blocksEnd (startAddr base) pre)).pxNextFreeBlock, w⟩) (blocksEnd (startAddr base) pre + w) ⟨entry (freeAddrs (blocksEnd (startAddr base) pre + sz) post) (some (endAddr base)), ((writeMem (writeMem (writeMem s.mem p ⟨(s.mem (blocksEnd (startAddr base) pre)).pxNextFreeBlock, (s.mem p).xBlockSize⟩) (blocksEnd (startAddr base) pre + w) ⟨((writeMem s.mem p ⟨(s.mem (blocksEnd (startAddr base) pre)).pxNextFreeBlock, (s.mem p).xBlockSize⟩) (blocksEnd (startAddr base) pre + w)).pxNextFreeBlock, sz - w⟩) (blocksEnd (startAddr base) pre) ⟨((writeMem (writeMem s.mem p ⟨(s.mem (blocksEnd (startAddr base) pre)).pxNextFreeBlock, (s.mem p).xBlockSize⟩) (blocksEnd (startAddr base) pre + w) ⟨((writeMem s.mem p ⟨(s.mem (blocksEnd (startAddr base) pre)).pxNextFreeBlock, (s.mem p).xBlockSize⟩) (blocksEnd (startAddr base) pre + w)).pxNextFreeBlock, sz - w⟩) (blocksEnd (startAddr base) pre)).pxNextFreeBlock, w⟩) (blocksEnd (startAddr base) pre + w)).xBlockSize⟩) p ⟨some (blocksEnd (startAddr base) pre + w), ((writeMem (writeMem (writeMem s.mem p ⟨(s.mem (blocksEnd (startAddr base) pre)).pxNextFreeBlock, (s.mem p).xBlockSize⟩) (blocksEnd (startAddr base) pre + w) ⟨((writeMem s.mem p ⟨(s.mem (blocksEnd (startAddr base) pre)).pxNextFreeBlock, (s.mem p).xBlockSize⟩) (blocksEnd (startAddr base) pre + w)).pxNextFreeBlock, sz - w⟩) (blocksEnd (startAddr base) pre) ⟨((writeMem (writeMem s.mem p ⟨(s.mem (blocksEnd (startAddr base) pre)).pxNextFreeBlock, (s.mem p).xBlockSize⟩) (blocksEnd (startAddr base) pre + w) ⟨((writeMem s.mem p ⟨(s.mem (blocksEnd (startAddr base) pre)).pxNextFreeBlock, (s.mem p).xBlockSize⟩) (blocksEnd (startAddr base) pre + w)).pxNextFreeBlock, sz - w⟩) (blocksEnd (startAddr base) pre)).pxNextFreeBlock, w⟩) p).xBlockSize⟩) (blocksEnd (startAddr base) pre)).xBlockSize = w := by rw [hmInsa]
          rw [hsz5, hfree_sub]
          refine ⟨trivial, ?_, by rw [if_pos hsplit], trivial, trivial, trivial, trivial⟩
          rw [show splitBlocks sz w = [(w, true), (sz - w, false)] from by
            unfold splitBlocks
            rw [if_pos hsplit]]
          rw [show (pre ++ [(w, true), (sz - w, false)]) ++ post =
            pre ++ (w, true) :: (sz - w, false) :: post from by simp]
          have hEa : endAddr base ≠ blocksEnd (startAddr base) pre := by omega
          have hEaw : endAddr base ≠ blocksEnd (startAddr base) pre + w := by omega
          have hEp : endAddr base ≠ p := by omega
          have hc1 : blocksEnd (startAddr base) pre ∉ addrsOf (startAddr base) pre :=
            fun hc => absurd (mem_addrsOf_lt hpos_pre hc) (lt_irrefl _)
          have hc2 : blocksEnd (startAddr base) pre + w ∉ addrsOf (startAddr base) pre := by
            intro hc
            have := mem_addrsOf_lt hpos_pre hc
            omega
          have hd1 : blocksEnd (startAddr base) pre ∉ addrsOf (blocksEnd (startAddr base) pre + sz) post := by
            intro hc
            have := mem_addrsOf_ge hc
            omega
          have hd2 : blocksEnd (startAddr base) pre + w ∉ addrsOf (blocksEnd (startAddr base) pre + sz) post := by
            intro hc
            have := mem_addrsOf_ge hc
            omega
          have hdp : p ∉ addrsOf (blocksEnd (startAddr base) pre + sz) post := by
            intro hc
            have := mem_addrsOf_ge hc
            omega
          have harith : blocksEnd (startAddr base) pre + w + (sz - w) = blocksEnd (startAddr base) pre + sz := by omega
          have hpnotalloc : p ∉ allocAddrs (startAddr base) bs := by
            rw [hbs, allocAddrs_append]
            simp only [allocAddrs, Bool.false_eq_true, if_false, List.mem_append]
            push_neg
            exact ⟨freeAddrs_disjoint_allocAddrs hpos_pre p hpP,
              fun hc => absurd (mem_addrsOf_ge (allocAddrs_subset_addrsOf hc)) (by omega)⟩
          constructor
          · rfl
          · show _ = ({ pxNextFreeBlock := none, xBlockSize := 0 } : BlockLink)
            dsimp only
            rw [writeMem_other _ _ hEa, writeMem_other _ _ hEp, writeMem_other _ _ hEaw,
              writeMem_other _ _ hEa, writeMem_other _ _ hEaw, writeMem_other _ _ hEp]
            exact hM.end_hdr
          · show PhysOK _ (startAddr base) (pre ++ (w, true) :: (sz - w, false) :: post)
            dsimp only
            rw [PhysOK_append]
            constructor
            · have h1p : PhysOK (writeMem s.mem p ⟨(s.mem (blocksEnd (startAddr base) pre)).pxNextFreeBlock, (s.mem p).xBlockSize⟩) (startAddr base) pre :=
                PhysOK_write_free hphys_pre hpos_pre hpP rfl
              have h2p : PhysOK (writeMem (writeMem s.mem p ⟨(s.mem (blocksEnd (startAddr base) pre)).pxNextFreeBlock, (s.mem p).xBlockSize⟩) (blocksEnd (startAddr base) pre + w) ⟨((writeMem s.mem p ⟨(s.mem (blocksEnd (startAddr base) pre)).pxNextFreeBlock, (s.mem p).xBlockSize⟩) (blocksEnd (startAddr base) pre + w)).pxNextFreeBlock, sz - w⟩) (startAddr base) pre := (PhysOK_write hc2).mpr h1p
              have h3p : PhysOK (writeMem (writeMem (writeMem s.mem p ⟨(s.mem (blocksEnd (startAddr base) pre)).pxNextFreeBlock, (s.mem p).xBlockSize⟩) (blocksEnd (startAddr base) pre + w) ⟨((writeMem s.mem p ⟨(s.mem (blocksEnd (startAddr base) pre)).pxNextFreeBlock, (s.mem p).xBlockSize⟩) (blocksEnd (startAddr base) pre + w)).pxNextFreeBlock, sz - w⟩) (blocksEnd (startAddr base) pre) ⟨((writeMem (writeMem s.mem p ⟨(s.mem (blocksEnd (startAddr base) pre)).pxNextFreeBlock, (s.mem p).xBlockSize⟩) (blocksEnd (startAddr base) pre + w) ⟨((writeMem s.mem p ⟨(s.mem (blocksEnd (startAddr base) pre)).pxNextFreeBlock, (s.mem p).xBlockSize⟩) (blocksEnd (startAddr base) pre + w)).pxNextFreeBlock, sz - w⟩) (blocksEnd (startAddr base) pre)).pxNextFreeBlock, w⟩) (startAddr base) pre := (PhysOK_write hc1).mpr h2p
              have h4p : PhysOK (writeMem (writeMem (writeMem (writeMem s.mem p ⟨(s.mem (blocksEnd (startAddr base) pre)).pxNextFreeBlock, (s.mem p).xBlockSize⟩) (blocksEnd (startAddr base) pre + w) ⟨((writeMem s.mem p ⟨(s.mem (blocksEnd (startAddr base) pre)).pxNextFreeBlock, (s.mem p).xBlockSize⟩) (blocksEnd (startAddr base) pre + w)).pxNextFreeBlock, sz - w⟩) (blocksEnd (startAddr base) pre) ⟨((writeMem (writeMem s.mem p ⟨(s.mem (blocksEnd (startAddr base) pre)).pxNextFreeBlock, (s.mem p).xBlockSize⟩) (blocksEnd (startAddr base) pre + w) ⟨((writeMem s.mem p ⟨(s.mem (blocksEnd (startAddr base) pre)).pxNextFreeBlock, (s.mem p).xBlockSize⟩) (blocksEnd (startAddr base) pre + w)).pxNextFreeBlock, sz - w⟩) (blocksEnd (startAddr base) pre)).pxNextFreeBlock, w⟩) (blocksEnd (startAddr base) pre + w) ⟨entry (freeAddrs (blocksEnd (startAddr base) pre + sz) post) (some (endAddr base)), ((writeMem (writeMem (writeMem s.mem p ⟨(s.mem (blocksEnd (startAddr base) pre)).pxNextFreeBlock, (s.mem p).xBlockSize⟩) (blocksEnd (startAddr base) pre + w) ⟨((writeMem s.mem p ⟨(s.mem (blocksEnd (startAddr base) pre)).pxNextFreeBlock, (s.mem p).xBlockSize⟩) (blocksEnd (startAddr base) pre + w)).pxNextFreeBlock, sz - w⟩) (blocksEnd (startAddr base) pre) ⟨((writeMem (writeMem s.mem p ⟨(s.mem (blocksEnd (startAddr base) pre)).pxNextFreeBlock, (s.mem p).xBlockSize⟩) (blocksEnd (startAddr base) pre + w) ⟨((writeMem s.mem p ⟨(s.mem (blocksEnd (startAddr base) pre)).pxNextFreeBlock, (s.mem p).xBlockSize⟩) (blocksEnd (startAddr base) pre + w)).pxNextFreeBlock, sz - w⟩) (blocksEnd (startAddr base) pre)).pxNextFreeBlock, w⟩) (blocksEnd (startAddr base) pre + w)).xBlockSize⟩) (startAddr base) pre := (PhysOK_write hc2).mpr h3p
              have h5p : PhysOK (writeMem (writeMem (writeMem (writeMem (writeMem s.mem p ⟨(s.mem (blocksEnd (startAddr base) pre)).pxNextFreeBlock, (s.mem p).xBlockSize⟩) (blocksEnd (startAddr base) pre + w) ⟨((writeMem s.mem p ⟨(s.mem (blocksEnd (startAddr base) pre)).pxNextFreeBlock, (s.mem p).xBlockSize⟩) (blocksEnd (startAddr base) pre + w)).pxNextFreeBlock, sz - w⟩) (blocksEnd (startAddr base) pre) ⟨((writeMem (writeMem s.mem p ⟨(s.mem (blocksEnd (startAddr base) pre)).pxNextFreeBlock, (s.mem p).xBlockSize⟩) (blocksEnd (startAddr base) pre + w) ⟨((writeMem s.mem p ⟨(s.mem (blocksEnd (startAddr base) pre)).pxNextFreeBlock, (s.mem p).xBlockSize⟩) (blocksEnd (startAddr base) pre + w)).pxNextFreeBlock, sz - w⟩) (blocksEnd (startAddr base) pre)).pxNextFreeBlock, w⟩) (blocksEnd (startAddr base) pre + w) ⟨entry (freeAddrs (blocksEnd (startAddr base) pre + sz) post) (some (endAddr base)), ((writeMem (writeMem (writeMem s.mem p ⟨(s.mem (blocksEnd (startAddr base) pre)).pxNextFreeBlock, (s.mem p).xBlockSize⟩) (blocksEnd (startAddr base) pre + w) ⟨((writeMem s.mem p ⟨(s.mem (blocksEnd (startAddr base) pre)).pxNextFreeBlock, (s.mem p).xBlockSize⟩) (blocksEnd (startAddr base) pre + w)).pxNextFreeBlock, sz - w⟩) (blocksEnd (startAddr base) pre) ⟨((writeMem (writeMem s.mem p ⟨(s.mem (blocksEnd (startAddr base) pre)).pxNextFreeBlock, (s.mem p).xBlockSize⟩) (blocksEnd (startAddr base) pre + w) ⟨((writeMem s.mem p ⟨(s.mem (blocksEnd (startAddr base) pre)).pxNextFreeBlock, (s.mem p).xBlockSize⟩) (blocksEnd (startAddr base) pre + w)).pxNextFreeBlock, sz - w⟩) (blocksEnd (startAddr base) pre)).pxNextFreeBlock, w⟩) (blocksEnd (startAddr base) pre + w)).xBlockSize⟩) p ⟨some (blocksEnd (startAddr base) pre + w), ((writeMem (writeMem (writeMem s.mem p ⟨(s.mem (blocksEnd (startAddr base) pre)).pxNextFreeBlock, (s.mem p).xBlockSize⟩) (blocksEnd (startAddr base) pre + w) ⟨((writeMem s.mem p ⟨(s.mem (blocksEnd (startAddr base) pre)).pxNextFreeBlock, (s.mem p).xBlockSize⟩) (blocksEnd (startAddr base) pre + w)).pxNextFreeBlock, sz - w⟩) (blocksEnd (startAddr base) pre) ⟨((writeMem (writeMem s.mem p ⟨(s.mem (blocksEnd (startAddr base) pre)).pxNextFreeBlock, (s.mem p).xBlockSize⟩) (blocksEnd (startAddr base) pre + w) ⟨((writeMem s.mem p ⟨(s.mem (blocksEnd (startAddr base) pre)).pxNextFreeBlock, (s.mem p).xBlockSize⟩) (blocksEnd (startAddr base) pre + w)).pxNextFreeBlock, sz - w⟩) (blocksEnd (startAddr base) pre)).pxNextFreeBlock, w⟩) p).xBlockSize⟩) (startAddr base) pre := by
                refine PhysOK_write_free h4p hpos_pre hpP ?_
                show ((writeMem (writeMem (writeMem s.mem p ⟨(s.mem (blocksEnd (startAddr base) pre)).pxNextFreeBlock, (s.mem p).xBlockSize⟩) (blocksEnd (startAddr base) pre + w) ⟨((writeMem s.mem p ⟨(s.mem (blocksEnd (startAddr base) pre)).pxNextFreeBlock, (s.mem p).xBlockSize⟩) (blocksEnd (startAddr base) pre + w)).pxNextFreeBlock, sz - w⟩) (blocksEnd (startAddr base) pre) ⟨((writeMem (writeMem s.mem p ⟨(s.mem (blocksEnd (startAddr base) pre)).pxNextFreeBlock, (s.mem p).xBlockSize⟩) (blocksEnd (startAddr base) pre + w) ⟨((writeMem s.mem p ⟨(s.mem (blocksEnd (startAddr base) pre)).pxNextFreeBlock, (s.mem p).xBlockSize⟩) (blocksEnd (startAddr base) pre + w)).pxNextFreeBlock, sz - w⟩) (blocksEnd (startAddr base) pre)).pxNextFreeBlock, w⟩) p).xBlockSize = ((writeMem (writeMem (writeMem (writeMem s.mem p ⟨(s.mem (blocksEnd (startAddr base) pre)).pxNextFreeBlock, (s.mem p).xBlockSize⟩) (blocksEnd (startAddr base) pre + w) ⟨((writeMem s.mem p ⟨(s.mem (blocksEnd (startAddr base) pre)).pxNextFreeBlock, (s.mem p).xBlockSize⟩) (blocksEnd (startAddr base) pre + w)).pxNextFreeBlock, sz - w⟩) (blocksEnd (startAddr base) pre) ⟨((writeMem (writeMem s.mem p ⟨(s.mem (blocksEnd (startAddr base) pre)).pxNextFreeBlock, (s.mem p).xBlockSize⟩) (blocksEnd (startAddr base) pre + w) ⟨((writeMem s.mem p ⟨(s.mem (blocksEnd (startAddr base) pre)).pxNextFreeBlock, (s.mem p).xBlockSize⟩) (blocksEnd (startAddr base) pre + w)).pxNextFreeBlock, sz - w⟩) (blocksEnd (startAddr base) pre)).pxNextFreeBlock, w⟩) (blocksEnd (startAddr base) pre + w) ⟨entry (freeAddrs (blocksEnd (startAddr base) pre + sz) post) (some (endAddr base)), ((writeMem (writeMem (writeMem s.mem p ⟨(s.mem (blocksEnd (startAddr base) pre)).pxNextFreeBlock, (s.mem p).xBlockSize⟩) (blocksEnd (startAddr base) pre + w) ⟨((writeMem s.mem p ⟨(s.mem (blocksEnd (startAddr base) pre)).pxNextFreeBlock, (s.mem p).xBlockSize⟩) (blocksEnd (startAddr base) pre + w)).pxNextFreeBlock, sz - w⟩) (blocksEnd (startAddr base) pre) ⟨((writeMem (writeMem s.mem p ⟨(s.mem (blocksEnd (startAddr base) pre)).pxNextFreeBlock, (s.mem p).xBlockSize⟩) (blocksEnd (startAddr base) pre + w) ⟨((writeMem s.mem p ⟨(s.mem (blocksEnd (startAddr base) pre)).pxNextFreeBlock, (s.mem p).xBlockSize⟩) (blocksEnd (startAddr base) pre + w)).pxNextFreeBlock, sz - w⟩) (blocksEnd (startAddr base) pre)).pxNextFreeBlock, w⟩) (blocksEnd (startAddr base) pre + w)).xBlockSize⟩) p).xBlockSize
                rw [writeMem_other _ _ (show p ≠ blocksEnd (startAddr base) pre + w by omega)]
              exact (PhysOK_write hc1).mpr h5p
            · refine ⟨?_, ?_, ?_⟩
              · simp only [PhysOK]
                rw [writeMem_same]
                exact ⟨rfl, rfl⟩
              · simp only [PhysOK]
                rw [writeMem_other _ _ (show blocksEnd (startAddr base) pre + w ≠ blocksEnd (startAddr base) pre by omega),
                  writeMem_other _ _ (show blocksEnd (startAddr base) pre + w ≠ p by omega), writeMem_same]
                show ((writeMem (writeMem (writeMem s.mem p ⟨(s.mem (blocksEnd (startAddr base) pre)).pxNextFreeBlock, (s.mem p).xBlockSize⟩) (blocksEnd (startAddr base) pre + w) ⟨((writeMem s.mem p ⟨(s.mem (blocksEnd (startAddr base) pre)).pxNextFreeBlock, (s.mem p).xBlockSize⟩) (blocksEnd (startAddr base) pre + w)).pxNextFreeBlock, sz - w⟩) (blocksEnd (startAddr base) pre) ⟨((writeMem (writeMem s.mem p ⟨(s.mem (blocksEnd (startAddr base) pre)).pxNextFreeBlock, (s.mem p).xBlockSize⟩) (blocksEnd (startAddr base) pre + w) ⟨((writeMem s.mem p ⟨(s.mem (blocksEnd (startAddr base) pre)).pxNextFreeBlock, (s.mem p).xBlockSize⟩) (blocksEnd (startAddr base) pre + w)).pxNextFreeBlock, sz - w⟩) (blocksEnd (startAddr base) pre)).pxNextFreeBlock, w⟩) (blocksEnd (startAddr base) pre + w)).xBlockSize = sz - w
                rw [hm3read]
              · rw [harith]
                exact (PhysOK_write hd1).mpr ((PhysOK_write hdp).mpr ((PhysOK_write hd2).mpr
                  ((PhysOK_write hd1).mpr ((PhysOK_write hd2).mpr
                    ((PhysOK_write hdp).mpr hphys_post)))))
          · show chainSeg _ (some b0)
              (freeAddrs (startAddr base) (pre ++ (w, true) :: (sz - w, false) :: post)) (some (endAddr base))
            dsimp only
            have hfa : freeAddrs (startAddr base) (pre ++ (w, true) :: (sz - w, false) :: post) =
                (P0 ++ [p]) ++ (blocksEnd (startAddr base) pre + w) :: (freeAddrs (blocksEnd (startAddr base) pre + sz) post) := by
              rw [freeAddrs_append, ← hP]
              simp only [freeAddrs, if_pos, Bool.false_eq_true, if_false]
              rw [harith]
            rw [hfa]
            refine (chainSeg_write ?_).mpr hins.2
            intro hc
            rcases List.mem_append.mp hc with hc | hc
            · have : blocksEnd (startAddr base) pre ∈ freeAddrs (startAddr base) pre := by rw [hP]; exact hc
              exact absurd (hPlt _ this) (lt_irrefl _)
            · rcases List.mem_cons.mp hc with hc | hc
              · omega
              · exact absurd (hRgt _ hc) (by omega)
          · show blocksEnd (startAddr base) (pre ++ (w, true) :: (sz - w, false) :: post) = endAddr base
            rw [blocksEnd_append]
            show blocksEnd (blocksEnd (startAddr base) pre + w + (sz - w)) post = endAddr base
            rw [harith]
            exact hcov
          · intro b hb
            simp only [List.mem_append, List.mem_cons] at hb
            rcases hb with hb | hb | hb | hb
            · exact hpos_pre b hb
            · subst hb; simpa using hw
            · subst hb
              show 0 < sz - w
              omega
            · exact hpos_post b hb
          · intro b hb
            simp only [List.mem_append, List.mem_cons] at hb
            rcases hb with hb | hb | hb | hb
            · exact hM.sizes_mod b (by rw [hbs]; simp [hb])
            · subst hb; simpa using hw8
            · subst hb
              show (sz - w) % 8 = 0
              omega
            · exact hM.sizes_mod b (by rw [hbs]; simp [hb])
          · show List.Chain' _ (pre ++ (w, true) :: (sz - w, false) :: post)
            have hold := hM.noadj
            rw [hbs] at hold
            rw [List.chain'_append] at hold ⊢
            refine ⟨hold.1, ?_, ?_⟩
            · rw [List.chain'_cons]
              refine ⟨Or.inl rfl, ?_⟩
              rw [List.chain'_cons']
              constructor
              · intro y hy
                cases post with
                | nil => simp at hy
                | cons b2 t =>
                    simp at hy
                    subst hy
                    exact Or.inr (hposthead b2 t rfl)
              · exact (List.chain'_cons'.mp hold.2.1).2
            · intro x hx y hy
              simp at hy
              subst hy
              exact Or.inr rfl
          · show s.xFreeBytesRemaining - w =
              freeSum (pre ++ (w, true) :: (sz - w, false) :: post)
            rw [freeSum_append]
            show s.xFreeBytesRemaining - w =
              freeSum pre + (0 + ((sz - w) + freeSum post))
            omega
          · intro x hx
            have hall' : allocAddrs (startAddr base) (pre ++ (w, true) :: (sz - w, false) :: post) =
                allocAddrs (startAddr base) pre ++ blocksEnd (startAddr base) pre :: allocAddrs (blocksEnd (startAddr base) pre + sz) post := by
              rw [allocAddrs_append]
              simp only [allocAddrs, if_pos, Bool.false_eq_true, if_false]
              rw [harith]
            rw [hall'] at hx
            simp only [List.mem_append, List.mem_cons] at hx
            push_neg at hx
            dsimp only
            have hbitold : heapBLOCK_IS_ALLOCATED ((s.mem x).xBlockSize) = false := by
              refine hM.clean x ?_
              rw [hbs, allocAddrs_append]
              simp only [allocAddrs, Bool.false_eq_true, if_false, List.mem_append]
              push_neg
              exact ⟨hx.1, hx.2.2⟩
            by_cases hxp : x = p
            · rw [writeMem_other _ _ hx.2.1, hxp, writeMem_same]
              show heapBLOCK_IS_ALLOCATED ((writeMem (writeMem (writeMem s.mem p ⟨(s.mem (blocksEnd (startAddr base) pre)).pxNextFreeBlock, (s.mem p).xBlockSize⟩) (blocksEnd (startAddr base) pre + w) ⟨((writeMem s.mem p ⟨(s.mem (blocksEnd (startAddr base) pre)).pxNextFreeBlock, (s.mem p).xBlockSize⟩) (blocksEnd (startAddr base) pre + w)).pxNextFreeBlock, sz - w⟩) (blocksEnd (startAddr base) pre) ⟨((writeMem (writeMem s.mem p ⟨(s.mem (blocksEnd (startAddr base) pre)).pxNextFreeBlock, (s.mem p).xBlockSize⟩) (blocksEnd (startAddr base) pre + w) ⟨((writeMem s.mem p ⟨(s.mem (blocksEnd (startAddr base) pre)).pxNextFreeBlock, (s.mem p).xBlockSize⟩) (blocksEnd (startAddr base) pre + w)).pxNextFreeBlock, sz - w⟩) (blocksEnd (startAddr base) pre)).pxNextFreeBlock, w⟩) p).xBlockSize = false
              rw [hm3p]
              exact hM.clean p hpnotalloc
            · by_cases hxaw : x = blocksEnd (startAddr base) pre + w
              · subst hxaw
                rw [writeMem_other _ _ hx.2.1, writeMem_other _ _ hxp, writeMem_same]
                show heapBLOCK_IS_ALLOCATED ((writeMem (writeMem (writeMem s.mem p ⟨(s.mem (blocksEnd (startAddr base) pre)).pxNextFreeBlock, (s.mem p).xBlockSize⟩) (blocksEnd (startAddr base) pre + w) ⟨((writeMem s.mem p ⟨(s.mem (blocksEnd (startAddr base) pre)).pxNextFreeBlock, (s.mem p).xBlockSize⟩) (blocksEnd (startAddr base) pre + w)).pxNextFreeBlock, sz - w⟩) (blocksEnd (startAddr base) pre) ⟨((writeMem (writeMem s.mem p ⟨(s.mem (blocksEnd (startAddr base) pre)).pxNextFreeBlock, (s.mem p).xBlockSize⟩) (blocksEnd (startAddr base) pre + w) ⟨((writeMem s.mem p ⟨(s.mem (blocksEnd (startAddr base) pre)).pxNextFreeBlock, (s.mem p).xBlockSize⟩) (blocksEnd (startAddr base) pre + w)).pxNextFreeBlock, sz - w⟩) (blocksEnd (startAddr base) pre)).pxNextFreeBlock, w⟩) (blocksEnd (startAddr base) pre + w)).xBlockSize = false
                rw [hm3read]
                show heapBLOCK_IS_ALLOCATED (sz - w) = false
                exact heapBLOCK_IS_ALLOCATED_of_lt (by omega)
              · rw [writeMem_other _ _ hx.2.1, writeMem_other _ _ hxp,
                  writeMem_other _ _ hxaw, writeMem_other _ _ hx.2.1,
                  writeMem_other _ _ hxaw, writeMem_other _ _ hxp]
                exact hbitold
        · rw [if_neg hsplit]
          rw [hM.pxEnd_eq]
          dsimp only
          rw [hm1a, hsza, hfree_sub2]
          refine ⟨trivial, ?_, by rw [if_neg hsplit], trivial, trivial, trivial, trivial⟩
          rw [show splitBlocks sz w = [(sz, true)] from by
            unfold splitBlocks
            rw [if_neg hsplit]]
          rw [show (pre ++ [(sz, true)]) ++ post = pre ++ (sz, true) :: post from by simp]
          have hEa : endAddr base ≠ blocksEnd (startAddr base) pre := by omega
          have hEp : endAddr base ≠ p := by omega
          have hc1 : blocksEnd (startAddr base) pre ∉ addrsOf (startAddr base) pre :=
            fun hc => absurd (mem_addrsOf_lt hpos_pre hc) (lt_irrefl _)
          have hd1 : blocksEnd (startAddr base) pre ∉ addrsOf (blocksEnd (startAddr base) pre + sz) post := by
            intro hc
            have := mem_addrsOf_ge hc
            omega
          have hdp : p ∉ addrsOf (blocksEnd (startAddr base) pre + sz) post := by
            intro hc
            have := mem_addrsOf_ge hc
            omega
          have hpnotalloc : p ∉ allocAddrs (startAddr base) bs := by
            rw [hbs, allocAddrs_append]
            simp only [allocAddrs, Bool.false_eq_true, if_false, List.mem_append]
            push_neg
            exact ⟨freeAddrs_disjoint_allocAddrs hpos_pre p hpP,
              fun hc => absurd (mem_addrsOf_ge (allocAddrs_subset_addrsOf hc)) (by omega)⟩
          constructor
          · rfl
          · show _ = ({ pxNextFreeBlock := none, xBlockSize := 0 } : BlockLink)
            dsimp only
            rw [writeMem_other _ _ hEa, writeMem_other _ _ hEp]
            exact hM.end_hdr
          · show PhysOK _ (startAddr base) (pre ++ (sz, true) :: post)
            dsimp only
            rw [PhysOK_append]
            constructor
            · exact (PhysOK_write hc1).mpr (PhysOK_write_free hphys_pre hpos_pre hpP rfl)
            · refine ⟨?_, ?_⟩
              · simp only [PhysOK]
                rw [writeMem_same]
                exact ⟨rfl, rfl⟩
              · exact (PhysOK_write hd1).mpr ((PhysOK_write hdp).mpr hphys_post)
          · show chainSeg _ (some b0) (freeAddrs (startAddr base) (pre ++ (sz, true) :: post)) (some (endAddr base))
            dsimp only
            have hfa : freeAddrs (startAddr base) (pre ++ (sz, true) :: post) = (P0 ++ [p]) ++ (freeAddrs (blocksEnd (startAddr base) pre + sz) post) := by
              rw [freeAddrs_append, ← hP]
              simp only [freeAddrs, if_pos]
            rw [hfa]
            refine (chainSeg_write ?_).mpr hchain1
            intro hc
            rcases List.mem_append.mp hc with hc | hc
            · have : blocksEnd (startAddr base) pre ∈ freeAddrs (startAddr base) pre := by rw [hP]; exact hc
              exact absurd (hPlt _ this) (lt_irrefl _)
            · exact absurd (hRgt _ hc) (by omega)
          · show blocksEnd (startAddr base) (pre ++ (sz, true) :: post) = endAddr base
            rw [blocksEnd_append]
            exact hcov
          · intro b hb
            simp only [List.mem_append, List.mem_cons] at hb
            rcases hb with hb | hb | hb
            · exact hpos_pre b hb
            · subst hb; simpa using hsz_pos
            · exact hpos_post b hb
          · intro b hb
            simp only [List.mem_append, List.mem_cons] at hb
            rcases hb with hb | hb | hb
            · exact hM.sizes_mod b (by rw [hbs]; simp [hb])
            · subst hb; simpa using hsz8
            · exact hM.sizes_mod b (by rw [hbs]; simp [hb])
          · show List.Chain' _ (pre ++ (sz, true) :: post)
            have hold := hM.noadj
            rw [hbs] at hold
            rw [List.chain'_append] at hold ⊢
            refine ⟨hold.1, ?_, ?_⟩
            · rw [List.chain'_cons']
              refine ⟨fun y hy => Or.inl rfl, (List.chain'_cons'.mp hold.2.1).2⟩
            · intro x hx y hy
              simp at hy
              subst hy
              exact Or.inr rfl
          · show s.xFreeBytesRemaining - sz = freeSum (pre ++ (sz, true) :: post)
            rw [freeSum_append]
            show s.xFreeBytesRemaining - sz = freeSum pre + (0 + freeSum post)
            omega
          · intro x hx
            have hall' : allocAddrs (startAddr base) (pre ++ (sz, true) :: post) =
                allocAddrs (startAddr base) pre ++ blocksEnd (startAddr base) pre :: allocAddrs (blocksEnd (startAddr base) pre + sz) post := by
              rw [allocAddrs_append]
              simp only [allocAddrs, if_pos]
            rw [hall'] at hx
            simp only [List.mem_append, List.mem_cons] at hx
            push_neg at hx
            dsimp only
            have hbitold : heapBLOCK_IS_ALLOCATED ((s.mem x).xBlockSize) = false := by
              refine hM.clean x ?_
              rw [hbs, allocAddrs_append]
              simp only [allocAddrs, Bool.false_eq_true, if_false, List.mem_append]
              push_neg
              exact ⟨hx.1, hx.2.2⟩
            by_cases hxp : x = p
            · rw [writeMem_other _ _ hx.2.1, hxp, writeMem_same]
              show heapBLOCK_IS_ALLOCATED ((s.mem p).xBlockSize) = false
              exact hM.clean p hpnotalloc
            · rw [writeMem_other _ _ hx.2.1, writeMem_other _ _ hxp]
              exact hbitold

/-! ### `vPortFree`: fatal path and successful path -/

theorem allocAddrs_decomp {x : Nat} :
    ∀ {a0 : Nat} {xs : List Block}, x ∈ allocAddrs a0 xs →
      ∃ pre sz post, xs = pre ++ (sz, true) :: post ∧ x = blocksEnd a0 pre := by
  intro a0 xs
  induction xs generalizing a0 with
  | nil => intro hx; simp [allocAddrs] at hx
  | cons b t ih =>
      intro hx
      cases hb2 : b.2 with
      | true =>
          rw [allocAddrs, hb2, if_pos rfl] at hx
          rcases List.mem_cons.mp hx with rfl | hx
          · refine ⟨[], b.1, t, ?_, rfl⟩
            have : b = (b.1, true) := by
              cases b
              simp at hb2 ⊢
              exact hb2
            rw [← this]
            simp
          · obtain ⟨pre, sz, post, heq, hx⟩ := ih hx
            exact ⟨b :: pre, sz, post, by simp [heq], by simp [blocksEnd, hx]⟩
      | false =>
          rw [allocAddrs, hb2, if_neg (by simp [hb2])] at hx
          obtain ⟨pre, sz, post, heq, hx⟩ := ih hx
          exact ⟨b :: pre, sz, post, by simp [heq], by simp [blocksEnd, hx]⟩

theorem vPortFree_fatal {base : Nat} {s : HeapState} {bs : List Block} {p : Nat}
    (hM : Models base s bs)
    (hna : (p - xHeapStructSize) ∉ allocAddrs (startAddr base) bs) :
    vPortFree s (some p) = none := by
  simp only [vPortFree]
  rw [if_pos (hM.clean _ hna)]

theorem freeAddrs_extent_strict {m : Mem} {A : Nat} {pre : List Block}
    (hphys : PhysOK m A pre) (hpos : ∀ b ∈ pre, 0 < b.1)
    (hnl : ∀ l : Nat, pre.getLast? ≠ some (l, false)) :
    ∀ x ∈ freeAddrs A pre, x + (m x).xBlockSize < blocksEnd A pre := by
  rcases List.eq_nil_or_concat' pre with rfl | ⟨pre2, b, rfl⟩
  · intro x hx
    simp [freeAddrs] at hx
  · have hb2 : b.2 = true := by
      by_contra hc
      refine hnl b.1 ?_
      rw [List.getLast?_concat]
      have : b = (b.1, false) := by
        cases b
        simp_all
      rw [this]
    intro x hx
    rw [freeAddrs_append] at hx
    have hsing : freeAddrs (blocksEnd A pre2) [b] = [] := by
      simp [freeAddrs, hb2]
    rw [hsing, List.append_nil] at hx
    rw [PhysOK_append] at hphys
    have hext := freeAddrs_extent hphys.1 x hx
    have hb1 : 0 < b.1 := hpos b (by simp)
    rw [blocksEnd_append]
    have : blocksEnd (blocksEnd A pre2) [b] = blocksEnd A pre2 + b.1 := by
      simp [blocksEnd]
    omega

theorem freeShape_plain {pre post : List Block} {sz : Nat}
    (hnl : ∀ l : Nat, pre.getLast? ≠ some (l, false))
    (hnr : ∀ r : Nat, post.head? ≠ some (r, false)) :
    freeShape pre sz post = pre ++ (sz, false) :: post := by
  unfold freeShape
  rcases hL : pre.getLast? with _ | ⟨l, bl⟩
  · rcases hR : post.head? with _ | ⟨r, br⟩
    · simp
    · cases br
      · exact absurd hR (hnr r)
      · simp
  · cases bl
    · exact absurd hL (hnl l)
    · rcases hR : post.head? with _ | ⟨r, br⟩
      · simp
      · cases br
        · exact absurd hR (hnr r)
        · simp

theorem freeShape_fwd {pre post' : List Block} {sz r : Nat}
    (hnl : ∀ l : Nat, pre.getLast? ≠ some (l, false)) :
    freeShape pre sz ((r, false) :: post') = pre ++ (sz + r, false) :: post' := by
  unfold freeShape
  rcases hL : pre.getLast? with _ | ⟨l, bl⟩
  · simp
  · cases bl
    · exact absurd hL (hnl l)
    · simp

theorem freeShape_back {pre2 post : List Block} {sz l : Nat}
    (hnr : ∀ r : Nat, post.head? ≠ some (r, false)) :
    freeShape (pre2 ++ [(l, false)]) sz post = pre2 ++ (l + sz, false) :: post := by
  unfold freeShape
  rw [List.getLast?_concat]
  rcases hR : post.head? with _ | ⟨r, br⟩
  · simp
  · cases br
    · exact absurd hR (hnr r)
    · simp

theorem freeShape_backfwd {pre2 post' : List Block} {sz l r : Nat} :
    freeShape (pre2 ++ [(l, false)]) sz ((r, false) :: post') =
      pre2 ++ (l + sz + r, false) :: post' := by
  unfold freeShape
  rw [List.getLast?_concat]
  simp

theorem vPortFree_succ {base : Nat} {s : HeapState} {bs : List Block}
    {pre post : List Block} {sz : Nat} {p : Nat}
    (hM : Models base s bs) (hbs : bs = pre ++ (sz, true) :: post)
    (hp : p - xHeapStructSize = blocksEnd (startAddr base) pre) :
    ∃ s', vPortFree s (some p) = some s' ∧
      Models base s' (freeShape pre sz post) ∧
      s'.xFreeBytesRemaining = s.xFreeBytesRemaining + sz ∧
      s'.xMinimumEverFreeBytesRemaining = s.xMinimumEverFreeBytesRemaining ∧
      s'.xNumberOfSuccessfulAllocations = s.xNumberOfSuccessfulAllocations ∧
      s'.xNumberOfSuccessfulFrees = add32 s.xNumberOfSuccessfulFrees 1 ∧
      s'.pxEnd = s.pxEnd := by
  have hmem : (sz, true) ∈ bs := by rw [hbs]; simp
  have hsz_pos : 0 < sz := hM.sizes_pos _ hmem
  have hsz8 : (sz : Nat) % 8 = 0 := hM.sizes_mod _ hmem
  have hszlt : sz < 2 ^ 31 := hM.sizes_lt_mask _ hmem
  have hsum := hM.sum_sizes
  have hub := (usableSize_bounds base).2
  have hfree : s.xFreeBytesRemaining = freeSum pre + freeSum post := by
    rw [hM.free_eq, hbs, freeSum_append]
    simp [freeSum]
  have hfreeb : freeSum pre + freeSum post + sz ≤ usableSize base := by
    have h1 := freeSum_add_allocSum pre
    have h2 := freeSum_add_allocSum post
    rw [hbs] at hsum
    rw [List.map_append] at hsum
    simp [List.sum_append] at hsum
    omega
  -- geometry
  have hcov := hM.cover
  rw [hbs, blocksEnd_append] at hcov
  rw [show blocksEnd (blocksEnd (startAddr base) pre) ((sz, true) :: post) =
    blocksEnd (blocksEnd (startAddr base) pre + sz) post from rfl] at hcov
  have hposall := hM.sizes_pos
  rw [hbs] at hposall
  have hpos_pre : ∀ b ∈ pre, 0 < b.1 := fun b hb => hposall b (by simp [hb])
  have hpos_post : ∀ b ∈ post, 0 < b.1 := fun b hb => hposall b (by simp [hb])
  have hasz : blocksEnd (startAddr base) pre + sz ≤ endAddr base := by
    have := le_blocksEnd (blocksEnd (startAddr base) pre + sz) post
    omega
  have haE : blocksEnd (startAddr base) pre < endAddr base := by omega
  have hfreeL : freeAddrs (startAddr base) bs =
      freeAddrs (startAddr base) pre ++ freeAddrs (blocksEnd (startAddr base) pre + sz) post := by
    rw [hbs, freeAddrs_append]
    rfl
  have hchain : chainSeg s.mem s.xStartNext
      (freeAddrs (startAddr base) pre ++ freeAddrs (blocksEnd (startAddr base) pre + sz) post) (some (endAddr base)) := by
    have := hM.chain
    rw [hfreeL] at this
    exact this
  have hPlt : ∀ x ∈ freeAddrs (startAddr base) pre, x < blocksEnd (startAddr base) pre :=
    fun x hx => mem_addrsOf_lt hpos_pre (freeAddrs_subset_addrsOf hx)
  have hRge : ∀ x ∈ freeAddrs (blocksEnd (startAddr base) pre + sz) post, blocksEnd (startAddr base) pre + sz ≤ x :=
    fun x hx => mem_addrsOf_ge (freeAddrs_subset_addrsOf hx)
  have hRlt : ∀ x ∈ freeAddrs (blocksEnd (startAddr base) pre + sz) post, x < endAddr base := by
    intro x hx
    have := mem_addrsOf_lt hpos_post (freeAddrs_subset_addrsOf hx)
    omega
  have hphys := hM.phys
  rw [hbs, PhysOK_append] at hphys
  have hphys_pre : PhysOK s.mem (startAddr base) pre := hphys.1
  have hsza : (s.mem (blocksEnd (startAddr base) pre)).xBlockSize = heapALLOCATE_BLOCK sz ∧
      (s.mem (blocksEnd (startAddr base) pre)).pxNextFreeBlock = none := by
    have := hphys.2
    simp only [PhysOK, if_pos] at this
    exact this.1
  have hszarec : s.mem (blocksEnd (startAddr base) pre) = ⟨none, heapALLOCATE_BLOCK sz⟩ := by
    have h1 := hsza.1
    have h2 := hsza.2
    cases hzz : s.mem (blocksEnd (startAddr base) pre)
    rw [hzz] at h1 h2
    simp at h1 h2
    simp [h1, h2]
  have hphys_post : PhysOK s.mem (blocksEnd (startAddr base) pre + sz) post := by
    have := hphys.2
    simp only [PhysOK, if_pos] at this
    exact this.2
  have hPpair : List.Pairwise (· < ·) (freeAddrs (startAddr base) pre) :=
    freeAddrs_pairwise hpos_pre
  have haP : blocksEnd (startAddr base) pre ∉ freeAddrs (startAddr base) pre :=
    fun hc => absurd (hPlt _ hc) (lt_irrefl _)
  have haR : blocksEnd (startAddr base) pre ∉ freeAddrs (blocksEnd (startAddr base) pre + sz) post := by
    intro hc
    have := hRge _ hc
    omega
  have hchain1 : chainSeg (writeMem s.mem (blocksEnd (startAddr base) pre) ⟨none, sz⟩) s.xStartNext
      (freeAddrs (startAddr base) pre ++ freeAddrs (blocksEnd (startAddr base) pre + sz) post) (some (endAddr base)) := by
    refine (chainSeg_write ?_).mpr hchain
    intro hc
    rcases List.mem_append.mp hc with hc | hc
    · exact haP hc
    · exact haR hc
  have hlenP : (freeAddrs (startAddr base) pre).length < configTOTAL_HEAP_SIZE := by
    have h1 := hM.freeLen_lt
    rw [hfreeL] at h1
    simp at h1
    unfold configTOTAL_HEAP_SIZE at h1 ⊢
    omega
  have hfb32 : add32 s.xFreeBytesRemaining sz = s.xFreeBytesRemaining + sz := by
    refine add32_eq ?_
    show s.xFreeBytesRemaining + sz < 2 ^ 32
    omega
  have hrun : vPortFree s (some p) = some
      { mem := (prvInsertBlockIntoFreeList (some (endAddr base)) (writeMem s.mem (blocksEnd (startAddr base) pre) ⟨none, sz⟩) s.xStartNext (blocksEnd (startAddr base) pre)).1,
         xStartNext := (prvInsertBlockIntoFreeList (some (endAddr base)) (writeMem s.mem (blocksEnd (startAddr base) pre) ⟨none, sz⟩) s.xStartNext (blocksEnd (startAddr base) pre)).2,
         pxEnd := some (endAddr base),
         xFreeBytesRemaining := s.xFreeBytesRemaining + sz,
         xMinimumEverFreeBytesRemaining := s.xMinimumEverFreeBytesRemaining,
         xNumberOfSuccessfulAllocations := s.xNumberOfSuccessfulAllocations,
         xNumberOfSuccessfulFrees := add32 s.xNumberOfSuccessfulFrees 1 } := by
    simp only [vPortFree]
    rw [hp, hszarec]
    rw [if_neg (by
      rw [show (⟨none, heapALLOCATE_BLOCK sz⟩ : BlockLink).xBlockSize =
        heapALLOCATE_BLOCK sz from rfl, heapBLOCK_IS_ALLOCATED_alloc hszlt]
      simp)]
    rw [if_neg (by simp)]
    rw [show heapFREE_BLOCK ((⟨none, heapALLOCATE_BLOCK sz⟩ : BlockLink).xBlockSize) =
      sz from heapFREE_BLOCK_alloc hszlt]
    rw [show ((⟨none, heapALLOCATE_BLOCK sz⟩ : BlockLink).pxNextFreeBlock) = none from rfl]
    rw [show (writeMem s.mem (blocksEnd (startAddr base) pre) ⟨none, sz⟩ (blocksEnd (startAddr base) pre)).xBlockSize = sz from by
      rw [writeMem_same]]
    rw [hfb32, hM.pxEnd_eq]
  refine ⟨_, hrun, ?_, rfl, rfl, rfl, rfl, hM.pxEnd_eq.symm⟩
  -- shared facts for the case analysis
  have hsum2 : (pre.map Prod.fst).sum + sz + (post.map Prod.fst).sum = usableSize base := by
    rw [hbs] at hsum
    simp [List.sum_append] at hsum
    omega
  have h2R : ∀ x ∈ freeAddrs (blocksEnd (startAddr base) pre + sz) post, blocksEnd (startAddr base) pre < x := by
    intro x hx
    have := hRge x hx
    omega
  have hm1size : ((writeMem s.mem (blocksEnd (startAddr base) pre) ⟨none, sz⟩) (blocksEnd (startAddr base) pre)).xBlockSize = sz := by
    rw [writeMem_same]
  have hmod_pre : ∀ b ∈ pre, b.1 % 8 = 0 := by
    intro b hb
    refine hM.sizes_mod b ?_
    rw [hbs]
    simp [hb]
  have hmod_post : ∀ b ∈ post, b.1 % 8 = 0 := by
    intro b hb
    refine hM.sizes_mod b ?_
    rw [hbs]
    simp [hb]
  have hltm_pre : ∀ b ∈ pre, b.1 < 2 ^ 31 := by
    intro b hb
    refine hM.sizes_lt_mask b ?_
    rw [hbs]
    simp [hb]
  have hltm_post : ∀ b ∈ post, b.1 < 2 ^ 31 := by
    intro b hb
    refine hM.sizes_lt_mask b ?_
    rw [hbs]
    simp [hb]
  have hallocbs : allocAddrs (startAddr base) bs =
      allocAddrs (startAddr base) pre ++ blocksEnd (startAddr base) pre :: allocAddrs (blocksEnd (startAddr base) pre + sz) post := by
    rw [hbs, allocAddrs_append]
    rfl
  have haTaddr : blocksEnd (startAddr base) pre ∉ addrsOf (startAddr base) pre := by
    intro hc
    exact absurd (mem_addrsOf_lt hpos_pre hc) (lt_irrefl _)
  have haTpost : blocksEnd (startAddr base) pre ∉ addrsOf (blocksEnd (startAddr base) pre + sz) post := by
    intro hc
    have := mem_addrsOf_ge hc
    omega
  have hadjbs := hM.noadj
  rw [hbs, List.chain'_append] at hadjbs
  -- classify the blocks adjacent to the freed one
  have hclassL : (∀ l : Nat, pre.getLast? ≠ some (l, false)) ∨
      ∃ pre2 l, pre = pre2 ++ [(l, false)] := by
    rcases List.eq_nil_or_concat' pre with rfl | ⟨pre2, b, rfl⟩
    · exact Or.inl (by simp)
    · cases hb2 : b.2 with
      | false =>
          right
          refine ⟨pre2, b.1, ?_⟩
          rw [show ((b.1, false) : Block) = b from by cases b; simp_all]
      | true =>
          left
          intro l hc
          rw [List.getLast?_concat] at hc
          have := Option.some.inj hc
          rw [this] at hb2
          simp at hb2
  have hclassR : (∀ r : Nat, post.head? ≠ some (r, false)) ∨
      ∃ post2 r, post = (r, false) :: post2 := by
    cases post with
    | nil => exact Or.inl (by simp)
    | cons b t =>
        cases hb2 : b.2 with
        | false =>
            right
            refine ⟨t, b.1, ?_⟩
            rw [show ((b.1, false) : Block) = b from by cases b; simp_all]
        | true =>
            left
            intro r hc
            simp at hc
            rw [hc] at hb2
            simp at hb2
  rcases hclassL with hnl | ⟨pre2, l, hpreq⟩
  case inl =>
    -- the block before the freed one is allocated (or absent): no backward merge
    have hstrict : ∀ x ∈ freeAddrs (startAddr base) pre, x + (s.mem x).xBlockSize < blocksEnd (startAddr base) pre :=
      freeAddrs_extent_strict hphys_pre hpos_pre hnl
    rcases hclassR with hnr | ⟨post2, r, hpostq⟩
    case inl =>
      -- no forward merge either
      have hheadA : ∀ b2 t, post = b2 :: t → b2.2 = true := by
        intro b2 t hpt
        by_contra hc
        refine hnr b2.1 ?_
        rw [hpt]
        simp
        rw [show ((b2.1, false) : Block) = b2 from by cases b2; simp_all]
      have hnofwd : ∀ q L2', freeAddrs (blocksEnd (startAddr base) pre + sz) post = q :: L2' →
          blocksEnd (startAddr base) pre + ((writeMem s.mem (blocksEnd (startAddr base) pre) ⟨none, sz⟩) (blocksEnd (startAddr base) pre)).xBlockSize ≠ q := by
        intro q L2' hq
        rw [hm1size]
        have hqmem : q ∈ freeAddrs (blocksEnd (startAddr base) pre + sz) post := by rw [hq]; simp
        have := freeAddrs_gt_of_head_alloc hpos_post hheadA q hqmem
        omega
      have hFS : freeShape pre sz post = pre ++ (sz, false) :: post :=
        freeShape_plain hnl hnr
      rcases List.eq_nil_or_concat' (freeAddrs (startAddr base) pre) with hP | ⟨P0, p0, hP⟩
      · -- free list has nothing before the insertion point
        have hchR : chainSeg (writeMem s.mem (blocksEnd (startAddr base) pre) ⟨none, sz⟩) s.xStartNext (freeAddrs (blocksEnd (startAddr base) pre + sz) post) (some (endAddr base)) := by
          rw [hP] at hchain1
          simpa using hchain1
        have hins := insert_plain_nil hchR h2R haE hnofwd
        rw [hm1size] at hins
        rw [hFS, hins.1]
        refine ⟨rfl, ?_, ?_, ?_, ?_, ?_, ?_, ?_, ?_, ?_⟩
        · -- end sentinel untouched
          dsimp only
          rw [writeMem_other _ _ (ne_of_gt haE), writeMem_other _ _ (ne_of_gt haE)]
          exact hM.end_hdr
        · -- headers
          dsimp only
          rw [PhysOK_append]
          refine ⟨?_, ?_, ?_⟩
          · exact (PhysOK_write haTaddr).mpr ((PhysOK_write haTaddr).mpr hphys_pre)
          · show (writeMem (writeMem s.mem (blocksEnd (startAddr base) pre) ⟨none, sz⟩) (blocksEnd (startAddr base) pre)
              ⟨entry (freeAddrs (blocksEnd (startAddr base) pre + sz) post) (some (endAddr base)), sz⟩ (blocksEnd (startAddr base) pre)).xBlockSize = (sz, false).1
            rw [writeMem_same]
          · exact (PhysOK_write haTpost).mpr ((PhysOK_write haTpost).mpr hphys_post)
        · -- free-list chain
          dsimp only
          have hfa : freeAddrs (startAddr base) (pre ++ (sz, false) :: post) =
              (freeAddrs (startAddr base) pre) ++ blocksEnd (startAddr base) pre :: (freeAddrs (blocksEnd (startAddr base) pre + sz) post) := by
            rw [freeAddrs_append]
            rfl
          rw [hfa, hP]
          simpa using hins.2
        · -- tiling
          show blocksEnd (startAddr base) (pre ++ (sz, false) :: post) = endAddr base
          rw [blocksEnd_append]
          exact hcov
        · intro b hb
          rcases List.mem_append.mp hb with hb | hb
          · exact hpos_pre b hb
          · rcases List.mem_cons.mp hb with rfl | hb
            · exact hsz_pos
            · exact hpos_post b hb
        · intro b hb
          rcases List.mem_append.mp hb with hb | hb
          · exact hmod_pre b hb
          · rcases List.mem_cons.mp hb with rfl | hb
            · exact hsz8
            · exact hmod_post b hb
        · -- no adjacent free blocks
          rw [List.chain'_append]
          refine ⟨hadjbs.1, ?_, ?_⟩
          · cases hpost_ : post with
            | nil => simp
            | cons b2 t =>
                rw [List.chain'_cons]
                refine ⟨Or.inr (hheadA b2 t hpost_), ?_⟩
                have h2 := hadjbs.2.1
                rw [hpost_] at h2
                exact (List.chain'_cons.mp h2).2
          · intro x hx y hy
            left
            by_contra hc
            refine hnl x.1 ?_
            rw [show ((x.1, false) : Block) = x from by cases x; simp_all]
            exact hx
        · -- free-bytes counter
          show s.xFreeBytesRemaining + sz = freeSum (pre ++ (sz, false) :: post)
          rw [freeSum_append]
          simp only [freeSum]
          simp
          omega
        · -- allocation bits
          intro x hx
          dsimp only
          by_cases hxa : x = blocksEnd (startAddr base) pre
          · subst hxa
            rw [writeMem_same]
            exact heapBLOCK_IS_ALLOCATED_of_lt hszlt
          · rw [writeMem_other _ _ hxa, writeMem_other _ _ hxa]
            refine hM.clean x ?_
            rw [hallocbs]
            intro hc
            rcases List.mem_append.mp hc with hc | hc
            · refine hx ?_
              rw [allocAddrs_append]
              exact List.mem_append.mpr (Or.inl hc)
            · rcases List.mem_cons.mp hc with heq | hc
              · exact absurd heq hxa
              · refine hx ?_
                rw [allocAddrs_append]
                exact List.mem_append.mpr (Or.inr hc)
      · -- a free block precedes the insertion point in the list
        have hp0mem : p0 ∈ freeAddrs (startAddr base) pre := by rw [hP]; simp
        have hp0lt : p0 < blocksEnd (startAddr base) pre := hPlt p0 hp0mem
        have hp0aT : p0 ≠ blocksEnd (startAddr base) pre := ne_of_lt hp0lt
        have hm1p0 : (writeMem s.mem (blocksEnd (startAddr base) pre) ⟨none, sz⟩) p0 = s.mem p0 := writeMem_other _ _ hp0aT
        have hnoback : p0 + ((writeMem s.mem (blocksEnd (startAddr base) pre) ⟨none, sz⟩) p0).xBlockSize ≠ blocksEnd (startAddr base) pre := by
          rw [hm1p0]
          have := hstrict p0 hp0mem
          omega
        have hch : chainSeg (writeMem s.mem (blocksEnd (startAddr base) pre) ⟨none, sz⟩) s.xStartNext ((P0 ++ [p0]) ++ (freeAddrs (blocksEnd (startAddr base) pre + sz) post))
            (some (endAddr base)) := by
          rw [hP] at hchain1
          exact hchain1
        have hlen2 : (P0 ++ [p0]).length < configTOTAL_HEAP_SIZE := by
          rw [hP] at hlenP
          exact hlenP
        have h1 : ∀ x ∈ P0 ++ [p0], x < blocksEnd (startAddr base) pre := by
          intro x hx
          refine hPlt x ?_
          rw [hP]
          exact hx
        have hpair2 : List.Pairwise (fun a b => a < b) (P0 ++ [p0]) := by
          rw [hP] at hPpair
          exact hPpair
        have hp0E : (endAddr base) ≠ p0 := by omega
        have hp0post : p0 ∉ addrsOf (blocksEnd (startAddr base) pre + sz) post := by
          intro hc
          have := mem_addrsOf_ge hc
          omega
        have hp0fbs : p0 ∈ freeAddrs (startAddr base) bs := by
          rw [hfreeL]
          exact List.mem_append.mpr (Or.inl hp0mem)
        have hp0notalloc : p0 ∉ allocAddrs (startAddr base) bs :=
          freeAddrs_disjoint_allocAddrs hM.sizes_pos p0 hp0fbs
        have hins := insert_plain_concat hch hlen2 h1 h2R haE hpair2 hnoback hnofwd
        rw [hm1size, hm1p0] at hins
        rw [hFS, hins.1]
        refine ⟨rfl, ?_, ?_, ?_, ?_, ?_, ?_, ?_, ?_, ?_⟩
        · -- end sentinel untouched
          dsimp only
          rw [writeMem_other _ _ hp0E, writeMem_other _ _ (ne_of_gt haE),
            writeMem_other _ _ (ne_of_gt haE)]
          exact hM.end_hdr
        · -- headers
          dsimp only
          rw [PhysOK_append]
          refine ⟨?_, ?_, ?_⟩
          · refine PhysOK_write_free
              ((PhysOK_write haTaddr).mpr ((PhysOK_write haTaddr).mpr hphys_pre))
              hpos_pre hp0mem ?_
            rw [writeMem_other _ _ hp0aT, hm1p0]
          · show (writeMem (writeMem (writeMem s.mem (blocksEnd (startAddr base) pre) ⟨none, sz⟩) (blocksEnd (startAddr base) pre) ⟨entry (freeAddrs (blocksEnd (startAddr base) pre + sz) post) (some (endAddr base)), sz⟩) p0
              ⟨some (blocksEnd (startAddr base) pre), (s.mem p0).xBlockSize⟩ (blocksEnd (startAddr base) pre)).xBlockSize = (sz, false).1
            rw [writeMem_other _ _ (Ne.symm hp0aT), writeMem_same]
          · exact (PhysOK_write hp0post).mpr
              ((PhysOK_write haTpost).mpr ((PhysOK_write haTpost).mpr hphys_post))
        · -- free-list chain
          dsimp only
          have hfa : freeAddrs (startAddr base) (pre ++ (sz, false) :: post) =
              (freeAddrs (startAddr base) pre) ++ blocksEnd (startAddr base) pre :: (freeAddrs (blocksEnd (startAddr base) pre + sz) post) := by
            rw [freeAddrs_append]
            rfl
          rw [hfa, hP]
          exact hins.2
        · -- tiling
          show blocksEnd (startAddr base) (pre ++ (sz, false) :: post) = endAddr base
          rw [blocksEnd_append]
          exact hcov
        · intro b hb
          rcases List.mem_append.mp hb with hb | hb
          · exact hpos_pre b hb
          · rcases List.mem_cons.mp hb with rfl | hb
            · exact hsz_pos
            · exact hpos_post b hb
        · intro b hb
          rcases List.mem_append.mp hb with hb | hb
          · exact hmod_pre b hb
          · rcases List.mem_cons.mp hb with rfl | hb
            · exact hsz8
            · exact hmod_post b hb
        · -- no adjacent free blocks
          rw [List.chain'_append]
          refine ⟨hadjbs.1, ?_, ?_⟩
          · cases hpost_ : post with
            | nil => simp
            | cons b2 t =>
                rw [List.chain'_cons]
                refine ⟨Or.inr (hheadA b2 t hpost_), ?_⟩
                have h2 := hadjbs.2.1
                rw [hpost_] at h2
                exact (List.chain'_cons.mp h2).2
          · intro x hx y hy
            left
            by_contra hc
            refine hnl x.1 ?_
            rw [show ((x.1, false) : Block) = x from by cases x; simp_all]
            exact hx
        · -- free-bytes counter
          show s.xFreeBytesRemaining + sz = freeSum (pre ++ (sz, false) :: post)
          rw [freeSum_append]
          simp only [freeSum]
          simp
          omega
        · -- allocation bits
          intro x hx
          dsimp only
          by_cases hxp : x = p0
          · subst hxp
            rw [writeMem_same]
            exact hM.clean x hp0notalloc
          · rw [writeMem_other _ _ hxp]
            by_cases hxa : x = blocksEnd (startAddr base) pre
            · subst hxa
              rw [writeMem_same]
              exact heapBLOCK_IS_ALLOCATED_of_lt hszlt
            · rw [writeMem_other _ _ hxa, writeMem_other _ _ hxa]
              refine hM.clean x ?_
              rw [hallocbs]
              intro hc
              rcases List.mem_append.mp hc with hc | hc
              · refine hx ?_
                rw [allocAddrs_append]
                exact List.mem_append.mpr (Or.inl hc)
              · rcases List.mem_cons.mp hc with heq | hc
                · exact absurd heq hxa
                · refine hx ?_
                  rw [allocAddrs_append]
                  exact List.mem_append.mpr (Or.inr hc)
    case inr =>
      -- the block after the freed one is free: forward merge
      subst hpostq
      have hr_pos : 0 < r := by
        have := hpos_post (r, false) (by simp)
        simpa using this
      have hrmod : r % 8 = 0 := by
        have := hmod_post (r, false) (by simp)
        simpa using this
      have hReq : (freeAddrs (blocksEnd (startAddr base) pre + sz) ((r, false) :: post2)) = (blocksEnd (startAddr base) pre + sz) :: (freeAddrs (blocksEnd (startAddr base) pre + sz + r) post2) := rfl
      have hq_lt_E : blocksEnd (startAddr base) pre + sz < endAddr base := by
        have h1 := le_blocksEnd (blocksEnd (startAddr base) pre + sz + r) post2
        rw [show blocksEnd (blocksEnd (startAddr base) pre + sz) ((r, false) :: post2) =
          blocksEnd (blocksEnd (startAddr base) pre + sz + r) post2 from rfl] at hcov
        omega
      have hqE : (blocksEnd (startAddr base) pre + sz : Nat) ≠ endAddr base := ne_of_lt hq_lt_E
      have hmemq_sz : (s.mem (blocksEnd (startAddr base) pre + sz)).xBlockSize = r := by
        simpa using hphys_post.1
      have hm1q : (writeMem s.mem (blocksEnd (startAddr base) pre) ⟨none, sz⟩) (blocksEnd (startAddr base) pre + sz) = s.mem (blocksEnd (startAddr base) pre + sz) :=
        writeMem_other _ _ (by omega)
      have hszr : sz + r ≤ usableSize base := by
        simp [List.sum_cons] at hsum2
        omega
      have hadd : add32 sz r = sz + r := by
        refine add32_eq ?_
        show sz + r < 2 ^ 32
        omega
      have h2q : ∀ x ∈ (blocksEnd (startAddr base) pre + sz) :: (freeAddrs (blocksEnd (startAddr base) pre + sz + r) post2), blocksEnd (startAddr base) pre < x := by
        intro x hx
        refine h2R x ?_
        rw [hReq]
        exact hx
      have hfwd : blocksEnd (startAddr base) pre + ((writeMem s.mem (blocksEnd (startAddr base) pre) ⟨none, sz⟩) (blocksEnd (startAddr base) pre)).xBlockSize = blocksEnd (startAddr base) pre + sz := by
        rw [hm1size]
      have hphys_post2 : PhysOK s.mem (blocksEnd (startAddr base) pre + sz + r) post2 := hphys_post.2
      have haTpost2 : blocksEnd (startAddr base) pre ∉ addrsOf (blocksEnd (startAddr base) pre + sz + r) post2 := by
        intro hc
        have := mem_addrsOf_ge hc
        omega
      have hFS : freeShape pre sz ((r, false) :: post2) =
          pre ++ (sz + r, false) :: post2 :=
        freeShape_fwd hnl
      rcases List.eq_nil_or_concat' (freeAddrs (startAddr base) pre) with hP | ⟨P0, p0, hP⟩
      · -- free list has nothing before the insertion point
        have hch : chainSeg (writeMem s.mem (blocksEnd (startAddr base) pre) ⟨none, sz⟩) s.xStartNext ((blocksEnd (startAddr base) pre + sz) :: (freeAddrs (blocksEnd (startAddr base) pre + sz + r) post2))
            (some (endAddr base)) := by
          rw [hP, hReq] at hchain1
          simpa using hchain1
        have hins := insert_fwd_nil hch h2q haE hfwd hqE
        rw [hm1size, hm1q, hmemq_sz, hadd] at hins
        rw [hFS, hins.1]
        refine ⟨rfl, ?_, ?_, ?_, ?_, ?_, ?_, ?_, ?_, ?_⟩
        · -- end sentinel untouched
          dsimp only
          rw [writeMem_other _ _ (ne_of_gt haE), writeMem_other _ _ (ne_of_gt haE)]
          exact hM.end_hdr
        · -- headers
          dsimp only
          rw [PhysOK_append]
          refine ⟨?_, ?_, ?_⟩
          · exact (PhysOK_write haTaddr).mpr ((PhysOK_write haTaddr).mpr hphys_pre)
          · show (writeMem (writeMem s.mem (blocksEnd (startAddr base) pre) ⟨none, sz⟩) (blocksEnd (startAddr base) pre) ⟨(s.mem (blocksEnd (startAddr base) pre + sz)).pxNextFreeBlock, sz + r⟩ (blocksEnd (startAddr base) pre)).xBlockSize = (sz + r, false).1
            rw [writeMem_same]
          · show PhysOK (writeMem (writeMem s.mem (blocksEnd (startAddr base) pre) ⟨none, sz⟩) (blocksEnd (startAddr base) pre) ⟨(s.mem (blocksEnd (startAddr base) pre + sz)).pxNextFreeBlock, sz + r⟩) (blocksEnd (startAddr base) pre + (sz + r)) post2
            rw [show blocksEnd (startAddr base) pre + (sz + r) = blocksEnd (startAddr base) pre + sz + r from by omega]
            exact (PhysOK_write haTpost2).mpr ((PhysOK_write haTpost2).mpr hphys_post2)
        · -- free-list chain
          dsimp only
          have hfa : freeAddrs (startAddr base) (pre ++ (sz + r, false) :: post2) =
              (freeAddrs (startAddr base) pre) ++ blocksEnd (startAddr base) pre :: (freeAddrs (blocksEnd (startAddr base) pre + sz + r) post2) := by
            rw [freeAddrs_append]
            rw [show freeAddrs (blocksEnd (startAddr base) pre) ((sz + r, false) :: post2) =
              blocksEnd (startAddr base) pre :: freeAddrs (blocksEnd (startAddr base) pre + (sz + r)) post2 from rfl]
            rw [show blocksEnd (startAddr base) pre + (sz + r) = blocksEnd (startAddr base) pre + sz + r from by omega]
          rw [hfa, hP]
          simpa using hins.2
        · -- tiling
          show blocksEnd (startAddr base) (pre ++ (sz + r, false) :: post2) = endAddr base
          rw [blocksEnd_append]
          show blocksEnd (blocksEnd (startAddr base) pre + (sz + r)) post2 = endAddr base
          rw [show blocksEnd (startAddr base) pre + (sz + r) = blocksEnd (startAddr base) pre + sz + r from by omega]
          exact hcov
        · intro b hb
          rcases List.mem_append.mp hb with hb | hb
          · exact hpos_pre b hb
          · rcases List.mem_cons.mp hb with rfl | hb
            · show 0 < sz + r
              omega
            · exact hpos_post b (by simp [hb])
        · intro b hb
          rcases List.mem_append.mp hb with hb | hb
          · exact hmod_pre b hb
          · rcases List.mem_cons.mp hb with rfl | hb
            · show (sz + r) % 8 = 0
              omega
            · exact hmod_post b (by simp [hb])
        · -- no adjacent free blocks
          rw [List.chain'_append]
          refine ⟨hadjbs.1, ?_, ?_⟩
          · cases hpost2_ : post2 with
            | nil => simp
            | cons b2 t =>
                rw [List.chain'_cons]
                have h2 := hadjbs.2.1
                rw [hpost2_] at h2
                have h3 := (List.chain'_cons.mp h2).2
                have h4 := List.chain'_cons.mp h3
                refine ⟨?_, h4.2⟩
                rcases h4.1 with hcf | hcb
                · simp at hcf
                · exact Or.inr hcb
          · intro x hx y hy
            left
            by_contra hc
            refine hnl x.1 ?_
            rw [show ((x.1, false) : Block) = x from by cases x; simp_all]
            exact hx
        · -- free-bytes counter
          show s.xFreeBytesRemaining + sz = freeSum (pre ++ (sz + r, false) :: post2)
          rw [freeSum_append]
          simp only [freeSum]
          simp
          simp [freeSum] at hfree
          omega
        · -- allocation bits
          intro x hx
          dsimp only
          by_cases hxa : x = blocksEnd (startAddr base) pre
          · subst hxa
            rw [writeMem_same]
            show heapBLOCK_IS_ALLOCATED (sz + r) = false
            refine heapBLOCK_IS_ALLOCATED_of_lt ?_
            show sz + r < 2 ^ 31
            omega
          · rw [writeMem_other _ _ hxa, writeMem_other _ _ hxa]
            refine hM.clean x ?_
            rw [hallocbs]
            intro hc
            rcases List.mem_append.mp hc with hc | hc
            · refine hx ?_
              rw [allocAddrs_append]
              exact List.mem_append.mpr (Or.inl hc)
            · rcases List.mem_cons.mp hc with heq | hc
              · exact absurd heq hxa
              · refine hx ?_
                rw [allocAddrs_append]
                refine List.mem_append.mpr (Or.inr ?_)
                show x ∈ allocAddrs (blocksEnd (startAddr base) pre + (sz + r)) post2
                rw [show blocksEnd (startAddr base) pre + (sz + r) = blocksEnd (startAddr base) pre + sz + r from by omega]
                exact hc
      · -- a free block precedes the insertion point in the list
        have hp0mem : p0 ∈ freeAddrs (startAddr base) pre := by rw [hP]; simp
        have hp0lt : p0 < blocksEnd (startAddr base) pre := hPlt p0 hp0mem
        have hp0aT : p0 ≠ blocksEnd (startAddr base) pre := ne_of_lt hp0lt
        have hm1p0 : (writeMem s.mem (blocksEnd (startAddr base) pre) ⟨none, sz⟩) p0 = s.mem p0 := writeMem_other _ _ hp0aT
        have hnoback : p0 + ((writeMem s.mem (blocksEnd (startAddr base) pre) ⟨none, sz⟩) p0).xBlockSize ≠ blocksEnd (startAddr base) pre := by
          rw [hm1p0]
          have := hstrict p0 hp0mem
          omega
        have hch : chainSeg (writeMem s.mem (blocksEnd (startAddr base) pre) ⟨none, sz⟩) s.xStartNext
            ((P0 ++ [p0]) ++ (blocksEnd (startAddr base) pre + sz) :: (freeAddrs (blocksEnd (startAddr base) pre + sz + r) post2)) (some (endAddr base)) := by
          rw [hP, hReq] at hchain1
          exact hchain1
        have hlen2 : (P0 ++ [p0]).length < configTOTAL_HEAP_SIZE := by
          rw [hP] at hlenP
          exact hlenP
        have h1 : ∀ x ∈ P0 ++ [p0], x < blocksEnd (startAddr base) pre := by
          intro x hx
          refine hPlt x ?_
          rw [hP]
          exact hx
        have hpair2 : List.Pairwise (fun a b => a < b) (P0 ++ [p0]) := by
          rw [hP] at hPpair
          exact hPpair
        have hp0E : (endAddr base) ≠ p0 := by omega
        have hp0post2 : p0 ∉ addrsOf (blocksEnd (startAddr base) pre + sz + r) post2 := by
          intro hc
          have := mem_addrsOf_ge hc
          omega
        have hp0fbs : p0 ∈ freeAddrs (startAddr base) bs := by
          rw [hfreeL]
          exact List.mem_append.mpr (Or.inl hp0mem)
        have hp0notalloc : p0 ∉ allocAddrs (startAddr base) bs :=
          freeAddrs_disjoint_allocAddrs hM.sizes_pos p0 hp0fbs
        have hins := insert_fwd_concat hch hlen2 h1 h2q haE hpair2 hnoback hfwd hqE
        rw [hm1size, hm1q, hmemq_sz, hadd, hm1p0] at hins
        rw [hFS, hins.1]
        refine ⟨rfl, ?_, ?_, ?_, ?_, ?_, ?_, ?_, ?_, ?_⟩
        · -- end sentinel untouched
          dsimp only
          rw [writeMem_other _ _ hp0E, writeMem_other _ _ (ne_of_gt haE),
            writeMem_other _ _ (ne_of_gt haE)]
          exact hM.end_hdr
        · -- headers
          dsimp only
          rw [PhysOK_append]
          refine ⟨?_, ?_, ?_⟩
          · refine PhysOK_write_free
              ((PhysOK_write haTaddr).mpr ((PhysOK_write haTaddr).mpr hphys_pre))
              hpos_pre hp0mem ?_
            rw [writeMem_other _ _ hp0aT, hm1p0]
          · show (writeMem (writeMem (writeMem s.mem (blocksEnd (startAddr base) pre) ⟨none, sz⟩) (blocksEnd (startAddr base) pre) ⟨(s.mem (blocksEnd (startAddr base) pre + sz)).pxNextFreeBlock, sz + r⟩) p0
              ⟨some (blocksEnd (startAddr base) pre), (s.mem p0).xBlockSize⟩ (blocksEnd (startAddr base) pre)).xBlockSize = (sz + r, false).1
            rw [writeMem_other _ _ (Ne.symm hp0aT), writeMem_same]
          · show PhysOK (writeMem (writeMem (writeMem s.mem (blocksEnd (startAddr base) pre) ⟨none, sz⟩) (blocksEnd (startAddr base) pre) ⟨(s.mem (blocksEnd (startAddr base) pre + sz)).pxNextFreeBlock, sz + r⟩) p0
              ⟨some (blocksEnd (startAddr base) pre), (s.mem p0).xBlockSize⟩) (blocksEnd (startAddr base) pre + (sz + r)) post2
            rw [show blocksEnd (startAddr base) pre + (sz + r) = blocksEnd (startAddr base) pre + sz + r from by omega]
            exact (PhysOK_write hp0post2).mpr
              ((PhysOK_write haTpost2).mpr ((PhysOK_write haTpost2).mpr hphys_post2))
        · -- free-list chain
          dsimp only
          have hfa : freeAddrs (startAddr base) (pre ++ (sz + r, false) :: post2) =
              (freeAddrs (startAddr base) pre) ++ blocksEnd (startAddr base) pre :: (freeAddrs (blocksEnd (startAddr base) pre + sz + r) post2) := by
            rw [freeAddrs_append]
            rw [show freeAddrs (blocksEnd (startAddr base) pre) ((sz + r, false) :: post2) =
              blocksEnd (startAddr base) pre :: freeAddrs (blocksEnd (startAddr base) pre + (sz + r)) post2 from rfl]
            rw [show blocksEnd (startAddr base) pre + (sz + r) = blocksEnd (startAddr base) pre + sz + r from by omega]
          rw [hfa, hP]
          exact hins.2
        · -- tiling
          show blocksEnd (startAddr base) (pre ++ (sz + r, false) :: post2) = endAddr base
          rw [blocksEnd_append]
          show blocksEnd (blocksEnd (startAddr base) pre + (sz + r)) post2 = endAddr base
          rw [show blocksEnd (startAddr base) pre + (sz + r) = blocksEnd (startAddr base) pre + sz + r from by omega]
          exact hcov
        · intro b hb
          rcases List.mem_append.mp hb with hb | hb
          · exact hpos_pre b hb
          · rcases List.mem_cons.mp hb with rfl | hb
            · show 0 < sz + r
              omega
            · exact hpos_post b (by simp [hb])
        · intro b hb
          rcases List.mem_append.mp hb with hb | hb
          · exact hmod_pre b hb
          · rcases List.mem_cons.mp hb with rfl | hb
            · show (sz + r) % 8 = 0
              omega
            · exact hmod_post b (by simp [hb])
        · -- no adjacent free blocks
          rw [List.chain'_append]
          refine ⟨hadjbs.1, ?_, ?_⟩
          · cases hpost2_ : post2 with
            | nil => simp
            | cons b2 t =>
                rw [List.chain'_cons]
                have h2 := hadjbs.2.1
                rw [hpost2_] at h2
                have h3 := (List.chain'_cons.mp h2).2
                have h4 := List.chain'_cons.mp h3
                refine ⟨?_, h4.2⟩
                rcases h4.1 with hcf | hcb
                · simp at hcf
                · exact Or.inr hcb
          · intro x hx y hy
            left
            by_contra hc
            refine hnl x.1 ?_
            rw [show ((x.1, false) : Block) = x from by cases x; simp_all]
            exact hx
        · -- free-bytes counter
          show s.xFreeBytesRemaining + sz = freeSum (pre ++ (sz + r, false) :: post2)
          rw [freeSum_append]
          simp only [freeSum]
          simp
          simp [freeSum] at hfree
          omega
        · -- allocation bits
          intro x hx
          dsimp only
          by_cases hxp : x = p0
          · subst hxp
            rw [writeMem_same]
            exact hM.clean x hp0notalloc
          · rw [writeMem_other _ _ hxp]
            by_cases hxa : x = blocksEnd (startAddr base) pre
            · subst hxa
              rw [writeMem_same]
              show heapBLOCK_IS_ALLOCATED (sz + r) = false
              refine heapBLOCK_IS_ALLOCATED_of_lt ?_
              show sz + r < 2 ^ 31
              omega
            · rw [writeMem_other _ _ hxa, writeMem_other _ _ hxa]
              refine hM.clean x ?_
              rw [hallocbs]
              intro hc
              rcases List.mem_append.mp hc with hc | hc
              · refine hx ?_
                rw [allocAddrs_append]
                exact List.mem_append.mpr (Or.inl hc)
              · rcases List.mem_cons.mp hc with heq | hc
                · exact absurd heq hxa
                · refine hx ?_
                  rw [allocAddrs_append]
                  refine List.mem_append.mpr (Or.inr ?_)
                  show x ∈ allocAddrs (blocksEnd (startAddr base) pre + (sz + r)) post2
                  rw [show blocksEnd (startAddr base) pre + (sz + r) = blocksEnd (startAddr base) pre + sz + r from by omega]
                  exact hc
  case inr =>
    -- the block before the freed one is free: backward merge
    subst hpreq
    have hl_pos : 0 < l := by
      have := hpos_pre (l, false) (by simp)
      simpa using this
    have hlmod : l % 8 = 0 := by
      have := hmod_pre (l, false) (by simp)
      simpa using this
    have hpos_pre2 : ∀ b ∈ pre2, 0 < b.1 := fun b hb => hpos_pre b (by simp [hb])
    have hmod_pre2 : ∀ b ∈ pre2, b.1 % 8 = 0 := fun b hb => hmod_pre b (by simp [hb])
    have haT_eq : (blocksEnd (startAddr base) (pre2 ++ [(l, false)])) = blocksEnd (startAddr base) pre2 + l := by
      rw [blocksEnd_append]
      simp [blocksEnd]
    rw [PhysOK_append] at hphys_pre
    have hphys_pre2 : PhysOK s.mem (startAddr base) pre2 := hphys_pre.1
    have hplsize : (s.mem (blocksEnd (startAddr base) pre2)).xBlockSize = l := by
      have := hphys_pre.2
      simpa [PhysOK] using this.1
    have hplaT : (blocksEnd (startAddr base) pre2) ≠ blocksEnd (startAddr base) (pre2 ++ [(l, false)]) := by omega
    have hm1pl : (writeMem s.mem (blocksEnd (startAddr base) (pre2 ++ [(l, false)])) ⟨none, sz⟩) (blocksEnd (startAddr base) pre2) = s.mem (blocksEnd (startAddr base) pre2) := writeMem_other _ _ hplaT
    have hPd : freeAddrs (startAddr base) (pre2 ++ [(l, false)]) =
        (freeAddrs (startAddr base) pre2) ++ [blocksEnd (startAddr base) pre2] := by
      rw [freeAddrs_append]
      rfl
    have hback : (blocksEnd (startAddr base) pre2) + ((writeMem s.mem (blocksEnd (startAddr base) (pre2 ++ [(l, false)])) ⟨none, sz⟩) (blocksEnd (startAddr base) pre2)).xBlockSize = blocksEnd (startAddr base) (pre2 ++ [(l, false)]) := by
      rw [hm1pl, hplsize]
      omega
    have hlsz : l + sz ≤ usableSize base := by
      simp [List.sum_append] at hsum2
      omega
    have hadd2 : add32 l sz = l + sz := by
      refine add32_eq ?_
      show l + sz < 2 ^ 32
      omega
    have hszSum : ((writeMem s.mem (blocksEnd (startAddr base) (pre2 ++ [(l, false)])) ⟨none, sz⟩) (blocksEnd (startAddr base) pre2)).xBlockSize +
        ((writeMem s.mem (blocksEnd (startAddr base) (pre2 ++ [(l, false)])) ⟨none, sz⟩) (blocksEnd (startAddr base) (pre2 ++ [(l, false)]))).xBlockSize < SIZE_MOD := by
      rw [hm1pl, hplsize, hm1size]
      show l + sz < 2 ^ 32
      omega
    have h1B : ∀ x ∈ (freeAddrs (startAddr base) pre2) ++ [blocksEnd (startAddr base) pre2], x < blocksEnd (startAddr base) (pre2 ++ [(l, false)]) := by
      intro x hx
      refine hPlt x ?_
      rw [hPd]
      exact hx
    have hpairB : List.Pairwise (fun a b => a < b) ((freeAddrs (startAddr base) pre2) ++ [blocksEnd (startAddr base) pre2]) := by
      rw [hPd] at hPpair
      exact hPpair
    have hlenB : ((freeAddrs (startAddr base) pre2) ++ [blocksEnd (startAddr base) pre2]).length < configTOTAL_HEAP_SIZE := by
      rw [hPd] at hlenP
      exact hlenP
    have hchB : chainSeg (writeMem s.mem (blocksEnd (startAddr base) (pre2 ++ [(l, false)])) ⟨none, sz⟩) s.xStartNext
        (((freeAddrs (startAddr base) pre2) ++ [blocksEnd (startAddr base) pre2]) ++ (freeAddrs (blocksEnd (startAddr base) (pre2 ++ [(l, false)]) + sz) post)) (some (endAddr base)) := by
      rw [hPd] at hchain1
      exact hchain1
    have hplpre2 : (blocksEnd (startAddr base) pre2) ∉ addrsOf (startAddr base) pre2 := by
      intro hc
      exact absurd (mem_addrsOf_lt hpos_pre2 hc) (lt_irrefl _)
    have haTpre2 : (blocksEnd (startAddr base) (pre2 ++ [(l, false)])) ∉ addrsOf (startAddr base) pre2 := by
      intro hc
      have := mem_addrsOf_lt hpos_pre2 hc
      omega
    have hplE : (endAddr base) ≠ (blocksEnd (startAddr base) pre2) := by omega
    have hplpost : (blocksEnd (startAddr base) pre2) ∉ addrsOf (blocksEnd (startAddr base) (pre2 ++ [(l, false)]) + sz) post := by
      intro hc
      have := mem_addrsOf_ge hc
      omega
    have hadjpre := hadjbs.1
    rw [List.chain'_append] at hadjpre
    rcases hclassR with hnr | ⟨post2, r, hpostq⟩
    case inl =>
      -- no forward merge
      have hheadA : ∀ b2 t, post = b2 :: t → b2.2 = true := by
        intro b2 t hpt
        by_contra hc
        refine hnr b2.1 ?_
        rw [hpt]
        simp
        rw [show ((b2.1, false) : Block) = b2 from by cases b2; simp_all]
      have hnofwd : ∀ q L2', (freeAddrs (blocksEnd (startAddr base) (pre2 ++ [(l, false)]) + sz) post) = q :: L2' →
          (blocksEnd (startAddr base) (pre2 ++ [(l, false)])) + ((writeMem s.mem (blocksEnd (startAddr base) (pre2 ++ [(l, false)])) ⟨none, sz⟩) (blocksEnd (startAddr base) (pre2 ++ [(l, false)]))).xBlockSize ≠ q := by
        intro q L2' hq
        rw [hm1size]
        have hqmem : q ∈ freeAddrs (blocksEnd (startAddr base) (pre2 ++ [(l, false)]) + sz) post := by rw [hq]; simp
        have := freeAddrs_gt_of_head_alloc hpos_post hheadA q hqmem
        omega
      have hFS : freeShape (pre2 ++ [(l, false)]) sz post =
          pre2 ++ (l + sz, false) :: post :=
        freeShape_back hnr
      have hins := insert_back hchB hlenB h1B h2R haE hpairB hback hszSum hnofwd
      rw [hm1pl, hplsize, hm1size, hadd2] at hins
      rw [hFS, hins.1]
      refine ⟨rfl, ?_, ?_, ?_, ?_, ?_, ?_, ?_, ?_, ?_⟩
      · -- end sentinel untouched
        dsimp only
        rw [writeMem_other _ _ hplE, writeMem_other _ _ (ne_of_gt haE)]
        exact hM.end_hdr
      · -- headers
        dsimp only
        rw [PhysOK_append]
        refine ⟨?_, ?_, ?_⟩
        · exact (PhysOK_write hplpre2).mpr ((PhysOK_write haTpre2).mpr hphys_pre2)
        · show (writeMem (writeMem s.mem (blocksEnd (startAddr base) (pre2 ++ [(l, false)])) ⟨none, sz⟩) (blocksEnd (startAddr base) pre2) ⟨entry (freeAddrs (blocksEnd (startAddr base) (pre2 ++ [(l, false)]) + sz) post) (some (endAddr base)), l + sz⟩ (blocksEnd (startAddr base) pre2)).xBlockSize = (l + sz, false).1
          rw [writeMem_same]
        · show PhysOK (writeMem (writeMem s.mem (blocksEnd (startAddr base) (pre2 ++ [(l, false)])) ⟨none, sz⟩) (blocksEnd (startAddr base) pre2) ⟨entry (freeAddrs (blocksEnd (startAddr base) (pre2 ++ [(l, false)]) + sz) post) (some (endAddr base)), l + sz⟩) (blocksEnd (startAddr base) pre2 + (l + sz)) post
          rw [show blocksEnd (startAddr base) pre2 + (l + sz) = (blocksEnd (startAddr base) (pre2 ++ [(l, false)])) + sz from by omega]
          exact (PhysOK_write hplpost).mpr ((PhysOK_write haTpost).mpr hphys_post)
      · -- free-list chain
        dsimp only
        have hfa : freeAddrs (startAddr base) (pre2 ++ (l + sz, false) :: post) =
            (freeAddrs (startAddr base) pre2) ++ blocksEnd (startAddr base) pre2 :: (freeAddrs (blocksEnd (startAddr base) (pre2 ++ [(l, false)]) + sz) post) := by
          rw [freeAddrs_append]
          rw [show freeAddrs (blocksEnd (startAddr base) pre2) ((l + sz, false) :: post) =
            blocksEnd (startAddr base) pre2 :: freeAddrs (blocksEnd (startAddr base) pre2 + (l + sz)) post from rfl]
          rw [show blocksEnd (startAddr base) pre2 + (l + sz) = (blocksEnd (startAddr base) (pre2 ++ [(l, false)])) + sz from by omega]
        rw [hfa]
        have h := hins.2
        rw [List.append_assoc] at h
        simpa using h
      · -- tiling
        show blocksEnd (startAddr base) (pre2 ++ (l + sz, false) :: post) = endAddr base
        rw [blocksEnd_append]
        show blocksEnd (blocksEnd (startAddr base) pre2 + (l + sz)) post = endAddr base
        rw [show blocksEnd (startAddr base) pre2 + (l + sz) = (blocksEnd (startAddr base) (pre2 ++ [(l, false)])) + sz from by omega]
        exact hcov
      · intro b hb
        rcases List.mem_append.mp hb with hb | hb
        · exact hpos_pre2 b hb
        · rcases List.mem_cons.mp hb with rfl | hb
          · show 0 < l + sz
            omega
          · exact hpos_post b hb
      · intro b hb
        rcases List.mem_append.mp hb with hb | hb
        · exact hmod_pre2 b hb
        · rcases List.mem_cons.mp hb with rfl | hb
          · show (l + sz) % 8 = 0
            omega
          · exact hmod_post b hb
      · -- no adjacent free blocks
        rw [List.chain'_append]
        refine ⟨hadjpre.1, ?_, ?_⟩
        · cases hpost_ : post with
          | nil => simp
          | cons b2 t =>
              rw [List.chain'_cons]
              refine ⟨Or.inr (hheadA b2 t hpost_), ?_⟩
              have h2 := hadjbs.2.1
              rw [hpost_] at h2
              exact (List.chain'_cons.mp h2).2
        · intro x hx y hy
          have hj := hadjpre.2.2 x hx (l, false) (by simp)
          rcases hj with hj | hj
          · exact Or.inl hj
          · simp at hj
      · -- free-bytes counter
        show s.xFreeBytesRemaining + sz = freeSum (pre2 ++ (l + sz, false) :: post)
        rw [freeSum_append]
        simp only [freeSum]
        simp
        rw [freeSum_append] at hfree
        simp [freeSum] at hfree
        omega
      · -- allocation bits
        intro x hx
        dsimp only
        by_cases hxp : x = blocksEnd (startAddr base) pre2
        · subst hxp
          rw [writeMem_same]
          show heapBLOCK_IS_ALLOCATED (l + sz) = false
          refine heapBLOCK_IS_ALLOCATED_of_lt ?_
          show l + sz < 2 ^ 31
          omega
        · rw [writeMem_other _ _ hxp]
          by_cases hxa : x = blocksEnd (startAddr base) (pre2 ++ [(l, false)])
          · subst hxa
            rw [writeMem_same]
            exact heapBLOCK_IS_ALLOCATED_of_lt hszlt
          · rw [writeMem_other _ _ hxa]
            refine hM.clean x ?_
            rw [hallocbs]
            intro hc
            rcases List.mem_append.mp hc with hc | hc
            · refine hx ?_
              rw [allocAddrs_append]
              refine List.mem_append.mpr (Or.inl ?_)
              rw [allocAddrs_append] at hc
              rcases List.mem_append.mp hc with hc | hc
              · exact hc
              · simp [allocAddrs] at hc
            · rcases List.mem_cons.mp hc with heq | hc
              · exact absurd heq hxa
              · refine hx ?_
                rw [allocAddrs_append]
                refine List.mem_append.mpr (Or.inr ?_)
                show x ∈ allocAddrs (blocksEnd (startAddr base) pre2 + (l + sz)) post
                rw [show blocksEnd (startAddr base) pre2 + (l + sz) = (blocksEnd (startAddr base) (pre2 ++ [(l, false)])) + sz from by omega]
                exact hc
    case inr =>
      -- forward merge as well: all three blocks fuse
      subst hpostq
      have hr_pos : 0 < r := by
        have := hpos_post (r, false) (by simp)
        simpa using this
      have hrmod : r % 8 = 0 := by
        have := hmod_post (r, false) (by simp)
        simpa using this
      have hReq : (freeAddrs (blocksEnd (startAddr base) (pre2 ++ [(l, false)]) + sz) ((r, false) :: post2)) =
          (blocksEnd (startAddr base) (pre2 ++ [(l, false)]) + sz) :: (freeAddrs (blocksEnd (startAddr base) (pre2 ++ [(l, false)]) + sz + r) post2) := rfl
      have hcov2 : blocksEnd (blocksEnd (startAddr base) (pre2 ++ [(l, false)]) + sz + r) post2 = endAddr base := hcov
      have hq_lt_E : blocksEnd (startAddr base) (pre2 ++ [(l, false)]) + sz < endAddr base := by
        have h1 := le_blocksEnd (blocksEnd (startAddr base) (pre2 ++ [(l, false)]) + sz + r) post2
        omega
      have hqE : (blocksEnd (startAddr base) (pre2 ++ [(l, false)]) + sz : Nat) ≠ endAddr base := ne_of_lt hq_lt_E
      have hmemq_sz : (s.mem (blocksEnd (startAddr base) (pre2 ++ [(l, false)]) + sz)).xBlockSize = r := by
        simpa using hphys_post.1
      have hm1q : (writeMem s.mem (blocksEnd (startAddr base) (pre2 ++ [(l, false)])) ⟨none, sz⟩) (blocksEnd (startAddr base) (pre2 ++ [(l, false)]) + sz) = s.mem (blocksEnd (startAddr base) (pre2 ++ [(l, false)]) + sz) :=
        writeMem_other _ _ (by omega)
      have hlszr : l + sz + r ≤ usableSize base := by
        simp [List.sum_append, List.sum_cons] at hsum2
        omega
      have hadd3 : add32 (l + sz) r = l + sz + r := by
        refine add32_eq ?_
        show l + sz + r < 2 ^ 32
        omega
      have h2q : ∀ x ∈ (blocksEnd (startAddr base) (pre2 ++ [(l, false)]) + sz) :: (freeAddrs (blocksEnd (startAddr base) (pre2 ++ [(l, false)]) + sz + r) post2), blocksEnd (startAddr base) (pre2 ++ [(l, false)]) < x := by
        intro x hx
        refine h2R x ?_
        rw [hReq]
        exact hx
      have hfwd : (blocksEnd (startAddr base) (pre2 ++ [(l, false)])) + ((writeMem s.mem (blocksEnd (startAddr base) (pre2 ++ [(l, false)])) ⟨none, sz⟩) (blocksEnd (startAddr base) (pre2 ++ [(l, false)]))).xBlockSize = blocksEnd (startAddr base) (pre2 ++ [(l, false)]) + sz := by
        rw [hm1size]
      have hphys_post2 : PhysOK s.mem (blocksEnd (startAddr base) (pre2 ++ [(l, false)]) + sz + r) post2 := hphys_post.2
      have haTpost2 : (blocksEnd (startAddr base) (pre2 ++ [(l, false)])) ∉ addrsOf (blocksEnd (startAddr base) (pre2 ++ [(l, false)]) + sz + r) post2 := by
        intro hc
        have := mem_addrsOf_ge hc
        omega
      have hplpost2 : (blocksEnd (startAddr base) pre2) ∉ addrsOf (blocksEnd (startAddr base) (pre2 ++ [(l, false)]) + sz + r) post2 := by
        intro hc
        have := mem_addrsOf_ge hc
        omega
      have hFS : freeShape (pre2 ++ [(l, false)]) sz ((r, false) :: post2) =
          pre2 ++ (l + sz + r, false) :: post2 :=
        freeShape_backfwd
      have hins := insert_backfwd hchB hlenB h1B h2q haE hpairB hback hszSum hfwd hqE
      rw [hm1pl, hplsize, hm1size, hm1q, hmemq_sz, hadd2, hadd3] at hins
      rw [hFS, hins.1]
      refine ⟨rfl, ?_, ?_, ?_, ?_, ?_, ?_, ?_, ?_, ?_⟩
      · -- end sentinel untouched
        dsimp only
        rw [writeMem_other _ _ hplE, writeMem_other _ _ (ne_of_gt haE)]
        exact hM.end_hdr
      · -- headers
        dsimp only
        rw [PhysOK_append]
        refine ⟨?_, ?_, ?_⟩
        · exact (PhysOK_write hplpre2).mpr ((PhysOK_write haTpre2).mpr hphys_pre2)
        · show (writeMem (writeMem s.mem (blocksEnd (startAddr base) (pre2 ++ [(l, false)])) ⟨none, sz⟩) (blocksEnd (startAddr base) pre2) ⟨(s.mem (blocksEnd (startAddr base) (pre2 ++ [(l, false)]) + sz)).pxNextFreeBlock, l + sz + r⟩ (blocksEnd (startAddr base) pre2)).xBlockSize = (l + sz + r, false).1
          rw [writeMem_same]
        · show PhysOK (writeMem (writeMem s.mem (blocksEnd (startAddr base) (pre2 ++ [(l, false)])) ⟨none, sz⟩) (blocksEnd (startAddr base) pre2) ⟨(s.mem (blocksEnd (startAddr base) (pre2 ++ [(l, false)]) + sz)).pxNextFreeBlock, l + sz + r⟩) (blocksEnd (startAddr base) pre2 + (l + sz + r)) post2
          rw [show blocksEnd (startAddr base) pre2 + (l + sz + r) = (blocksEnd (startAddr base) (pre2 ++ [(l, false)])) + sz + r from by omega]
          exact (PhysOK_write hplpost2).mpr ((PhysOK_write haTpost2).mpr hphys_post2)
      · -- free-list chain
        dsimp only
        have hfa : freeAddrs (startAddr base) (pre2 ++ (l + sz + r, false) :: post2) =
            (freeAddrs (startAddr base) pre2) ++ blocksEnd (startAddr base) pre2 :: (freeAddrs (blocksEnd (startAddr base) (pre2 ++ [(l, false)]) + sz + r) post2) := by
          rw [freeAddrs_append]
          rw [show freeAddrs (blocksEnd (startAddr base) pre2) ((l + sz + r, false) :: post2) =
            blocksEnd (startAddr base) pre2 :: freeAddrs (blocksEnd (startAddr base) pre2 + (l + sz + r)) post2 from rfl]
          rw [show blocksEnd (startAddr base) pre2 + (l + sz + r) = (blocksEnd (startAddr base) (pre2 ++ [(l, false)])) + sz + r from by omega]
        rw [hfa]
        have h := hins.2
        rw [List.append_assoc] at h
        simpa using h
      · -- tiling
        show blocksEnd (startAddr base) (pre2 ++ (l + sz + r, false) :: post2) = endAddr base
        rw [blocksEnd_append]
        show blocksEnd (blocksEnd (startAddr base) pre2 + (l + sz + r)) post2 = endAddr base
        rw [show blocksEnd (startAddr base) pre2 + (l + sz + r) = (blocksEnd (startAddr base) (pre2 ++ [(l, false)])) + sz + r from by omega]
        exact hcov2
      · intro b hb
        rcases List.mem_append.mp hb with hb | hb
        · exact hpos_pre2 b hb
        · rcases List.mem_cons.mp hb with rfl | hb
          · show 0 < l + sz + r
            omega
          · exact hpos_post b (by simp [hb])
      · intro b hb
        rcases List.mem_append.mp hb with hb | hb
        · exact hmod_pre2 b hb
        · rcases List.mem_cons.mp hb with rfl | hb
          · show (l + sz + r) % 8 = 0
            omega
          · exact hmod_post b (by simp [hb])
      · -- no adjacent free blocks
        rw [List.chain'_append]
        refine ⟨hadjpre.1, ?_, ?_⟩
        · cases hpost2_ : post2 with
          | nil => simp
          | cons b2 t =>
              rw [List.chain'_cons]
              have h2 := hadjbs.2.1
              rw [hpost2_] at h2
              have h3 := (List.chain'_cons.mp h2).2
              have h4 := List.chain'_cons.mp h3
              refine ⟨?_, h4.2⟩
              rcases h4.1 with hcf | hcb
              · simp at hcf
              · exact Or.inr hcb
        · intro x hx y hy
          have hj := hadjpre.2.2 x hx (l, false) (by simp)
          rcases hj with hj | hj
          · exact Or.inl hj
          · simp at hj
      · -- free-bytes counter
        show s.xFreeBytesRemaining + sz = freeSum (pre2 ++ (l + sz + r, false) :: post2)
        rw [freeSum_append]
        simp only [freeSum]
        simp
        rw [freeSum_append] at hfree
        simp [freeSum] at hfree
        omega
      · -- allocation bits
        intro x hx
        dsimp only
        by_cases hxp : x = blocksEnd (startAddr base) pre2
        · subst hxp
          rw [writeMem_same]
          show heapBLOCK_IS_ALLOCATED (l + sz + r) = false
          refine heapBLOCK_IS_ALLOCATED_of_lt ?_
          show l + sz + r < 2 ^ 31
          omega
        · rw [writeMem_other _ _ hxp]
          by_cases hxa : x = blocksEnd (startAddr base) (pre2 ++ [(l, false)])
          · subst hxa
            rw [writeMem_same]
            exact heapBLOCK_IS_ALLOCATED_of_lt hszlt
          · rw [writeMem_other _ _ hxa]
            refine hM.clean x ?_
            rw [hallocbs]
            intro hc
            rcases List.mem_append.mp hc with hc | hc
            · refine hx ?_
              rw [allocAddrs_append]
              refine List.mem_append.mpr (Or.inl ?_)
              rw [allocAddrs_append] at hc
              rcases List.mem_append.mp hc with hc | hc
              · exact hc
              · simp [allocAddrs] at hc
            · rcases List.mem_cons.mp hc with heq | hc
              · exact absurd heq hxa
              · refine hx ?_
                rw [allocAddrs_append]
                refine List.mem_append.mpr (Or.inr ?_)
                show x ∈ allocAddrs (blocksEnd (startAddr base) pre2 + (l + sz + r)) post2
                rw [show blocksEnd (startAddr base) pre2 + (l + sz + r) = (blocksEnd (startAddr base) (pre2 ++ [(l, false)])) + sz + r from by omega]
                exact hc

theorem computeWanted_mod (n : Nat) : computeWanted n % 8 = 0 := by
  unfold computeWanted
  by_cases h0 : 0 < n
  · rw [if_pos h0]
    by_cases hmask : add32 n xHeapStructSize &&& portBYTE_ALIGNMENT_MASK ≠ 0
    · rw [if_pos hmask]
      rw [and_mask_eq_mod]
      simp only [add32, SIZE_MOD, portBYTE_ALIGNMENT]
      omega
    · rw [if_neg hmask]
      push_neg at hmask
      rw [and_mask_eq_mod] at hmask
      exact hmask
  · rw [if_neg h0]
    omega

theorem mallocBody_preserves {base : Nat} {s : HeapState} {bs : List Block} {w : Nat}
    (hM : Models base s bs) (hw8 : w % 8 = 0) :
    ∃ bs', Models base (mallocBody s w).2 bs' := by
  by_cases hg : 0 < w ∧ w ≤ s.xFreeBytesRemaining
  · rcases firstFit_cases bs w with hno | ⟨pre, sz, post, hbs, hpre, hfit⟩
    · rw [mallocBody_fail_nofit hM hg.1 hno]
      exact ⟨bs, hM⟩
    · exact ⟨_, (mallocBody_succ hM hbs hpre hfit hg.1 hw8).2.1⟩
  · rw [mallocBody_fail hg]
    exact ⟨bs, hM⟩

theorem initState_clean :
    ∀ x, heapBLOCK_IS_ALLOCATED ((initState.mem x).xBlockSize) = false := by
  intro x
  show heapBLOCK_IS_ALLOCATED 0 = false
  decide

theorem pvPortMalloc_GInv {base : Nat} {s : HeapState} {n : Nat}
    (h : GInv base s) : GInv base (pvPortMalloc base s n).2 := by
  rcases h with rfl | ⟨bs, hM⟩
  · refine Or.inr ?_
    have := mallocBody_preserves (prvHeapInit_models base initState initState_clean)
      (computeWanted_mod n)
    simpa [pvPortMalloc] using this
  · refine Or.inr ?_
    have hne : s.pxEnd ≠ none := by rw [hM.pxEnd_eq]; simp
    have := mallocBody_preserves hM (computeWanted_mod n)
    simpa [pvPortMalloc, hne] using this

theorem vPortFree_initState_fatal (p : Nat) : vPortFree initState (some p) = none := by
  have h0 : heapBLOCK_IS_ALLOCATED 0 = false := by decide
  simp [vPortFree, initState, h0]

theorem vPortFree_GInv {base : Nat} {s s' : HeapState} {pv : Option Nat}
    (h : GInv base s) (hf : vPortFree s pv = some s') : GInv base s' := by
  cases pv with
  | none =>
      simp [vPortFree] at hf
      rw [← hf]
      exact h
  | some p =>
      rcases h with rfl | ⟨bs, hM⟩
      · rw [vPortFree_initState_fatal] at hf
        simp at hf
      · by_cases hmem : (p - xHeapStructSize) ∈ allocAddrs (startAddr base) bs
        · rcases allocAddrs_decomp hmem with ⟨pre, sz, post, hbs, hp⟩
          rcases vPortFree_succ hM hbs hp with ⟨s2, hrun, hM2, _⟩
          rw [hrun] at hf
          have hss := Option.some.inj hf
          subst hss
          exact Or.inr ⟨_, hM2⟩
        · rw [vPortFree_fatal hM hmem] at hf
          simp at hf

theorem Step_GInv {base : Nat} {s s' : HeapState}
    (h : GInv base s) (hs : Step base s s') : GInv base s' := by
  cases hs with
  | malloc n => exact pvPortMalloc_GInv h
  | free pv s2 hf => exact vPortFree_GInv h hf

theorem Reachable_GInv {base : Nat} {s : HeapState}
    (h : Reachable base s) : GInv base s := by
  induction h with
  | refl => exact Or.inl rfl
  | tail _ hstep ih => exact Step_GInv ih hstep

/-! ## Support lemmas for the claim-level theorems -/

theorem pvPortMalloc_of_init {base : Nat} {s : HeapState} (h : s.pxEnd ≠ none) (n : Nat) :
    pvPortMalloc base s n = mallocBody s (computeWanted n) := by
  simp [pvPortMalloc, h]

theorem mallocBody_pxEnd (s : HeapState) (w : Nat) :
    (mallocBody s w).2.pxEnd = s.pxEnd := by
  unfold mallocBody
  dsimp only
  repeat' split
  all_goals rfl

theorem mallocBody_cases (s : HeapState) (w : Nat) :
    mallocBody s w = (none, s) ∨ ∃ p, (mallocBody s w).1 = some p := by
  unfold mallocBody
  dsimp only
  repeat' split
  all_goals first | exact Or.inl rfl | exact Or.inr ⟨_, rfl⟩

theorem mallocBody_none_state {s : HeapState} {w : Nat}
    (h : (mallocBody s w).1 = none) : (mallocBody s w).2 = s := by
  rcases mallocBody_cases s w with hc | ⟨p, hp⟩
  · rw [hc]
  · rw [h] at hp
    simp at hp

theorem mallocBody_min_le (s : HeapState) (w : Nat) :
    (mallocBody s w).2.xMinimumEverFreeBytesRemaining ≤
      s.xMinimumEverFreeBytesRemaining := by
  unfold mallocBody
  dsimp only
  repeat' split
  all_goals dsimp only
  all_goals try dsimp only at *
  all_goals omega

theorem vPortFree_field_frame {s s' : HeapState} {pv : Option Nat}
    (h : vPortFree s pv = some s') :
    s'.xMinimumEverFreeBytesRemaining = s.xMinimumEverFreeBytesRemaining ∧
    s'.xNumberOfSuccessfulAllocations = s.xNumberOfSuccessfulAllocations ∧
    s'.pxEnd = s.pxEnd := by
  cases pv with
  | none =>
      simp [vPortFree] at h
      rw [← h]
      exact ⟨rfl, rfl, rfl⟩
  | some p =>
      unfold vPortFree at h
      dsimp only at h
      split at h
      · simp at h
      · split at h
        · simp at h
        · have h2 := Option.some.inj h
          rw [← h2]
          exact ⟨rfl, rfl, rfl⟩

theorem vPortFree_some_inv {base : Nat} {s s' : HeapState} {bs : List Block} {p : Nat}
    (hM : Models base s bs) (h : vPortFree s (some p) = some s') :
    (p - xHeapStructSize) ∈ allocAddrs (startAddr base) bs := by
  by_contra hc
  rw [vPortFree_fatal hM hc] at h
  simp at h

theorem last_class (xs : List Block) :
    (∀ l : Nat, xs.getLast? ≠ some (l, false)) ∨ ∃ xs2 l, xs = xs2 ++ [(l, false)] := by
  rcases List.eq_nil_or_concat' xs with rfl | ⟨xs2, b, rfl⟩
  · exact Or.inl (by simp)
  · cases hb2 : b.2 with
    | false =>
        right
        refine ⟨xs2, b.1, ?_⟩
        rw [show ((b.1, false) : Block) = b from by cases b; simp_all]
    | true =>
        left
        intro l hc
        rw [List.getLast?_concat] at hc
        have := Option.some.inj hc
        rw [this] at hb2
        simp at hb2

theorem head_class (xs : List Block) :
    (∀ r : Nat, xs.head? ≠ some (r, false)) ∨ ∃ xs2 r, xs = (r, false) :: xs2 := by
  cases xs with
  | nil => exact Or.inl (by simp)
  | cons b t =>
      cases hb2 : b.2 with
      | false =>
          right
          refine ⟨t, b.1, ?_⟩
          rw [show ((b.1, false) : Block) = b from by cases b; simp_all]
      | true =>
          left
          intro r hc
          simp at hc
          rw [hc] at hb2
          simp at hb2

theorem blocksEnd_mod {a : Nat} {bs : List Block} (ha : a % 8 = 0)
    (hbs : ∀ b ∈ bs, b.1 % 8 = 0) : blocksEnd a bs % 8 = 0 := by
  induction bs generalizing a with
  | nil => exact ha
  | cons b t ih =>
      rw [blocksEnd]
      refine ih ?_ (fun c hc => hbs c (by simp [hc]))
      have := hbs b (by simp)
      omega

theorem blocksEnd_concat_eq (A : Nat) (xs : List Block) (b : Block) :
    blocksEnd A (xs ++ [b]) = blocksEnd A xs + b.1 := by
  rw [blocksEnd_append]
  simp [blocksEnd]

theorem allocAddrs_freeShape {A : Nat} {pre post : List Block} {sz : Nat} :
    allocAddrs A (freeShape pre sz post) =
      allocAddrs A pre ++ allocAddrs (blocksEnd A pre + sz) post := by
  rcases last_class pre with hnl | ⟨pre2, l, rfl⟩
  · rcases head_class post with hnr | ⟨post2, r, rfl⟩
    · rw [freeShape_plain hnl hnr, allocAddrs_append]
      rfl
    · rw [freeShape_fwd hnl, allocAddrs_append]
      rw [show allocAddrs (blocksEnd A pre) ((sz + r, false) :: post2) =
        allocAddrs (blocksEnd A pre + (sz + r)) post2 from rfl]
      rw [show allocAddrs (blocksEnd A pre + sz) ((r, false) :: post2) =
        allocAddrs (blocksEnd A pre + sz + r) post2 from rfl]
      rw [show blocksEnd A pre + (sz + r) = blocksEnd A pre + sz + r from by omega]
  · have hbe := blocksEnd_concat_eq A pre2 (l, false)
    rcases head_class post with hnr | ⟨post2, r, rfl⟩
    · rw [freeShape_back hnr, allocAddrs_append]
      rw [show allocAddrs A (pre2 ++ [(l, false)]) =
        allocAddrs A pre2 ++ allocAddrs (blocksEnd A pre2) [(l, false)] from
        allocAddrs_append A pre2 [(l, false)]]
      rw [show allocAddrs (blocksEnd A pre2) [(l, false)] = ([] : List Nat) from rfl]
      rw [List.append_nil]
      rw [show allocAddrs (blocksEnd A pre2) ((l + sz, false) :: post) =
        allocAddrs (blocksEnd A pre2 + (l + sz)) post from rfl]
      rw [show blocksEnd A pre2 + (l + sz) =
        blocksEnd A (pre2 ++ [(l, false)]) + sz from by simp at hbe; omega]
    · rw [freeShape_backfwd, allocAddrs_append]
      rw [show allocAddrs A (pre2 ++ [(l, false)]) =
        allocAddrs A pre2 ++ allocAddrs (blocksEnd A pre2) [(l, false)] from
        allocAddrs_append A pre2 [(l, false)]]
      rw [show allocAddrs (blocksEnd A pre2) [(l, false)] = ([] : List Nat) from rfl]
      rw [List.append_nil]
      rw [show allocAddrs (blocksEnd A pre2) ((l + sz + r, false) :: post2) =
        allocAddrs (blocksEnd A pre2 + (l + sz + r)) post2 from rfl]
      rw [show allocAddrs (blocksEnd A (pre2 ++ [(l, false)]) + sz) ((r, false) :: post2) =
        allocAddrs (blocksEnd A (pre2 ++ [(l, false)]) + sz + r) post2 from rfl]
      rw [show blocksEnd A pre2 + (l + sz + r) =
        blocksEnd A (pre2 ++ [(l, false)]) + sz + r from by simp at hbe; omega]

theorem allocAddrs_split {A : Nat} {pre post : List Block} {sz w : Nat} (hw : w ≤ sz) :
    allocAddrs A (pre ++ splitBlocks sz w ++ post) =
      allocAddrs A pre ++ blocksEnd A pre :: allocAddrs (blocksEnd A pre + sz) post := by
  unfold splitBlocks
  split
  · rw [allocAddrs_append, allocAddrs_append]
    rw [show allocAddrs (blocksEnd A pre) [(w, true), (sz - w, false)] =
      [blocksEnd A pre] from rfl]
    rw [show blocksEnd A (pre ++ [(w, true), (sz - w, false)]) = blocksEnd A pre + sz from by
      rw [blocksEnd_append]
      simp [blocksEnd]
      omega]
    simp
  · rw [allocAddrs_append, allocAddrs_append]
    rw [show allocAddrs (blocksEnd A pre) [(sz, true)] = [blocksEnd A pre] from rfl]
    rw [show blocksEnd A (pre ++ [(sz, true)]) = blocksEnd A pre + sz from by
      rw [blocksEnd_append]
      simp [blocksEnd]]
    simp

theorem freeWalk_none (m : Mem) (fuel : Nat) : freeWalk m none fuel = [] := by
  cases fuel <;> rfl

theorem freeWalk_eq {m : Mem} {E : Nat} :
    ∀ {L : List Nat} {sn : Option Nat} {fuel : Nat},
      chainSeg m sn L (some E) → (m E).pxNextFreeBlock = none →
      L.length + 2 ≤ fuel → freeWalk m sn fuel = L ++ [E] := by
  intro L
  induction L with
  | nil =>
      intro sn fuel hch hE hlen
      cases fuel with
      | zero => omega
      | succ f =>
          have hsn : sn = some E := hch
          rw [hsn]
          show E :: freeWalk m (m E).pxNextFreeBlock f = [E]
          rw [hE, freeWalk_none]
  | cons a L ih =>
      intro sn fuel hch hE hlen
      cases fuel with
      | zero => simp at hlen
      | succ f =>
          rw [hch.1]
          show a :: freeWalk m (m a).pxNextFreeBlock f = (a :: L) ++ [E]
          rw [ih hch.2 hE (by simp at hlen ⊢; omega)]
          rfl

theorem freeAddrs_no_adjacent {m : Mem} :
    ∀ {a0 : Nat} {bs : List Block}, PhysOK m a0 bs → (∀ b ∈ bs, 0 < b.1) →
      List.Chain' (fun b c : Block => b.2 = true ∨ c.2 = true) bs →
      ∀ x ∈ freeAddrs a0 bs, ∀ y ∈ freeAddrs a0 bs, x + (m x).xBlockSize ≠ y := by
  intro a0 bs
  induction bs generalizing a0 with
  | nil => intro _ _ _ x hx; simp [freeAddrs] at hx
  | cons b t ih =>
      intro hphys hpos hchain x hx y hy
      have hpt : ∀ c ∈ t, 0 < c.1 := fun c hc => hpos c (by simp [hc])
      have hct := hchain.tail
      cases hb2 : b.2 with
      | true =>
          rw [freeAddrs, hb2, if_pos rfl] at hx hy
          exact ih hphys.2 hpt hct x hx y hy
      | false =>
          rw [freeAddrs, hb2] at hx hy
          simp only [Bool.false_eq_true, if_false, List.mem_cons] at hx hy
          have hsz : (m a0).xBlockSize = b.1 := by
            have := hphys.1
            rw [hb2] at this
            simpa using this
          rcases hx with rfl | hx
          · rcases hy with rfl | hy
            · rw [hsz]
              have := hpos b (by simp)
              omega
            · rw [hsz]
              cases ht : t with
              | nil =>
                  rw [ht] at hy
                  simp [freeAddrs] at hy
              | cons c t2 =>
                  rw [ht] at hy
                  have hc2 : c.2 = true := by
                    rw [ht] at hchain
                    have h1 := (List.chain'_cons.mp hchain).1
                    rcases h1 with h1 | h1
                    · rw [hb2] at h1
                      simp at h1
                    · exact h1
                  rw [freeAddrs, hc2, if_pos rfl] at hy
                  have hy2 := mem_addrsOf_ge (freeAddrs_subset_addrsOf hy)
                  have hcp : 0 < c.1 := hpos c (by simp [ht])
                  omega
          · rcases hy with rfl | hy
            · have hxge := mem_addrsOf_ge (freeAddrs_subset_addrsOf hx)
              have := hpos b (by simp)
              omega
            · exact ih hphys.2 hpt hct x hx y hy

theorem mallocBody_ptr_mod {base : Nat} {s : HeapState} {bs : List Block} {w p : Nat}
    (hM : Models base s bs) (hw8 : w % 8 = 0)
    (hp : (mallocBody s w).1 = some p) : p % 8 = 0 := by
  by_cases hg : 0 < w ∧ w ≤ s.xFreeBytesRemaining
  · rcases firstFit_cases bs w with hno | ⟨pre, sz, post, hbs, hpre, hfit⟩
    · rw [mallocBody_fail_nofit hM hg.1 hno] at hp
      simp at hp
    · have hs := mallocBody_succ hM hbs hpre hfit hg.1 hw8
      rw [hs.1] at hp
      have hpe := Option.some.inj hp
      have hbm : blocksEnd (startAddr base) pre % 8 = 0 :=
        blocksEnd_mod (startAddr_mod base)
          (fun b hb => hM.sizes_mod b (by rw [hbs]; simp [hb]))
      have hhs : xHeapStructSize = 8 := rfl
      omega
  · rw [mallocBody_fail hg] at hp
    simp at hp

theorem insert_frame (e : Option Nat) (m0 : Mem) (sn : Option Nat) (ins0 : Nat) :
    ∃ a : Nat, ∀ x, x ≠ ins0 → x ≠ a →
      (prvInsertBlockIntoFreeList e m0 sn ins0).1 x = m0 x := by
  unfold prvInsertBlockIntoFreeList
  dsimp only
  rcases hit : insertLoop m0 sn ins0 configTOTAL_HEAP_SIZE none with _ | itA
  · refine ⟨ins0, ?_⟩
    intro x hx1 hx2
    dsimp only
    repeat' split
    all_goals simp [writeMem, hx1, hx2]
  · refine ⟨itA, ?_⟩
    intro x hx1 hx2
    dsimp only
    repeat' split
    all_goals simp [writeMem, hx1, hx2]

theorem avoid_preserves {base p : Nat} {s s' : HeapState} {bs : List Block}
    (hp8 : xHeapStructSize ≤ p) (hM : Models base s bs)
    (hnot : p - xHeapStructSize ∉ allocAddrs (startAddr base) bs)
    (hst : AvoidsPtr base p s s') :
    ∃ bs', Models base s' bs' ∧
      p - xHeapStructSize ∉ allocAddrs (startAddr base) bs' := by
  rcases hst with ⟨n, rfl, hne⟩ | ⟨pv, hf⟩
  · rw [pvPortMalloc_of_init (by rw [hM.pxEnd_eq]; simp) n] at hne ⊢
    by_cases hg : 0 < computeWanted n ∧ computeWanted n ≤ s.xFreeBytesRemaining
    · rcases firstFit_cases bs (computeWanted n) with hno | ⟨pre, sz, post, hbs, hpre, hfit⟩
      · rw [mallocBody_fail_nofit hM hg.1 hno]
        exact ⟨bs, hM, hnot⟩
      · have hs := mallocBody_succ hM hbs hpre hfit hg.1 (computeWanted_mod n)
        refine ⟨_, hs.2.1, ?_⟩
        rw [allocAddrs_split hfit]
        intro hc
        rcases List.mem_append.mp hc with hc | hc
        · refine hnot ?_
          rw [hbs, allocAddrs_append]
          exact List.mem_append.mpr (Or.inl hc)
        · rcases List.mem_cons.mp hc with heq | hc
          · refine hne ?_
            rw [hs.1]
            have hpe : p = blocksEnd (startAddr base) pre + xHeapStructSize := by omega
            rw [hpe]
          · refine hnot ?_
            rw [hbs, allocAddrs_append]
            refine List.mem_append.mpr (Or.inr ?_)
            exact hc
    · rw [mallocBody_fail hg]
      exact ⟨bs, hM, hnot⟩
  · cases pv with
    | none =>
        simp [vPortFree] at hf
        rw [← hf]
        exact ⟨bs, hM, hnot⟩
    | some pf =>
        have hmem := vPortFree_some_inv hM hf
        rcases allocAddrs_decomp hmem with ⟨pre, sz, post, hbs, hpf⟩
        rcases vPortFree_succ hM hbs hpf with ⟨s2, hrun, hM2, hrest⟩
        rw [hrun] at hf
        have h2 := Option.some.inj hf
        subst h2
        refine ⟨_, hM2, ?_⟩
        rw [allocAddrs_freeShape]
        intro hc
        rcases List.mem_append.mp hc with hc | hc
        · refine hnot ?_
          rw [hbs, allocAddrs_append]
          exact List.mem_append.mpr (Or.inl hc)
        · refine hnot ?_
          rw [hbs, allocAddrs_append]
          refine List.mem_append.mpr (Or.inr ?_)
          exact List.mem_cons.mpr (Or.inr hc)

/-- C1 (refuted): the spec requires every request larger than the arena —
including one whose size adjustment overflows — to fail, but the unguarded
overflow makes `pvPortMalloc(2^32 - 7)` wrap its internal size to 8 and
hand out a block: on a fresh arena it returns the non-NULL payload pointer
8 and counts a successful allocation. -/
theorem claim_C1_overflow_counterexample :
    usableSize 0 < 2 ^ 32 - 7 ∧
    (pvPortMalloc 0 initState (2 ^ 32 - 7)).1 = some 8 ∧
    (pvPortMalloc 0 initState (2 ^ 32 - 7)).2.xNumberOfSuccessfulAllocations = 1 := by
  refine ⟨by decide, rfl, rfl⟩

/-- C2: in every reachable initialized state, the free-byte counter plus the
total size of the allocated blocks (headers included) equals the usable
arena size established by initialization. -/
theorem claim_C2_conservation {base : Nat} {s : HeapState}
    (hre : Reachable base s) (hinit : s.pxEnd ≠ none) :
    ∃ bs, Models base s bs ∧
      xPortGetFreeHeapSize s + allocSum bs = usableSize base := by
  rcases Reachable_GInv hre with rfl | ⟨bs, hM⟩
  · exact absurd rfl hinit
  · refine ⟨bs, hM, ?_⟩
    have h1 := hM.free_eq
    have h2 := hM.sum_sizes
    have h3 := freeSum_add_allocSum bs
    unfold xPortGetFreeHeapSize
    omega

/-- C4: in every reachable initialized state, walking the free list from
`xStart` visits a strictly address-increasing sequence ending at the end
sentinel, and no free block ends where another free block starts. -/
theorem claim_C4_freelist {base : Nat} {s : HeapState}
    (hre : Reachable base s) (hinit : s.pxEnd ≠ none) :
    ∃ L : List Nat,
      freeWalk s.mem s.xStartNext configTOTAL_HEAP_SIZE = L ++ [endAddr base] ∧
      List.Pairwise (fun a b => a < b) (L ++ [endAddr base]) ∧
      ∀ x ∈ L, ∀ y ∈ L, x + (s.mem x).xBlockSize ≠ y := by
  rcases Reachable_GInv hre with rfl | ⟨bs, hM⟩
  · exact absurd rfl hinit
  · refine ⟨freeAddrs (startAddr base) bs, ?_, ?_, ?_⟩
    · refine freeWalk_eq hM.chain (by rw [hM.end_hdr]) ?_
      have h1 : (freeAddrs (startAddr base) bs).length ≤
          (addrsOf (startAddr base) bs).length :=
        (freeAddrs_sublist _ bs).length_le
      rw [addrsOf_length] at h1
      have h2 := hM.length_le
      have h3 := (usableSize_bounds base).2
      unfold configTOTAL_HEAP_SIZE
      omega
    · rw [List.pairwise_append]
      refine ⟨freeAddrs_pairwise hM.sizes_pos, by simp, ?_⟩
      intro x hx y hy
      simp at hy
      subst hy
      have h1 := mem_addrsOf_lt hM.sizes_pos (freeAddrs_subset_addrsOf hx)
      rw [hM.cover] at h1
      exact h1
    · exact freeAddrs_no_adjacent hM.phys hM.sizes_pos hM.noadj

/-- C5: from every reachable state, a successful `pvPortMalloc` returns a
payload pointer divisible by the 8-byte alignment, and every reachable
initialized state decomposes into blocks (anchored to its memory by
`Models`) whose sizes are all multiples of 8. -/
theorem claim_C5_alignment {base : Nat} {s : HeapState} (hre : Reachable base s) :
    (∀ n p, (pvPortMalloc base s n).1 = some p → p % 8 = 0) ∧
    (s.pxEnd ≠ none → ∃ bs, Models base s bs ∧ ∀ b ∈ bs, b.1 % 8 = 0) := by
  constructor
  · intro n p hp
    rcases Reachable_GInv hre with rfl | ⟨bs, hM⟩
    · rw [show pvPortMalloc base initState n =
        mallocBody (prvHeapInit base initState) (computeWanted n) from by
          simp [pvPortMalloc, initState]] at hp
      exact mallocBody_ptr_mod (prvHeapInit_models base initState initState_clean)
        (computeWanted_mod n) hp
    · rw [pvPortMalloc_of_init (by rw [hM.pxEnd_eq]; simp) n] at hp
      exact mallocBody_ptr_mod hM (computeWanted_mod n) hp
  · intro hinit
    rcases Reachable_GInv hre with rfl | ⟨bs, hM⟩
    · exact absurd rfl hinit
    · exact ⟨bs, hM, hM.sizes_mod⟩

/-- C6: once the arena is initialized, no public operation increases the
minimum-ever-free watermark. -/
theorem claim_C6_watermark {base : Nat} {s s' : HeapState}
    (hinit : s.pxEnd ≠ none) (hstep : Step base s s') :
    xPortGetMinimumEverFreeHeapSize s' ≤ xPortGetMinimumEverFreeHeapSize s := by
  cases hstep with
  | malloc n =>
      show (pvPortMalloc base s n).2.xMinimumEverFreeBytesRemaining ≤
        s.xMinimumEverFreeBytesRemaining
      rw [pvPortMalloc_of_init hinit n]
      exact mallocBody_min_le s (computeWanted n)
  | free pv s2 hf =>
      have h := (vPortFree_field_frame hf).1
      unfold xPortGetMinimumEverFreeHeapSize
      omega

/-- C7: freeing a pointer and then freeing it again — with any number of
intervening operations none of which hands that pointer out again — makes
the second `vPortFree` trip a `configASSERT` and never return. -/
theorem claim_C7_double_free {base p : Nat} {s s1 t : HeapState} {bs : List Block}
    (hM : Models base s bs) (hp8 : xHeapStructSize ≤ p)
    (hfirst : vPortFree s (some p) = some s1)
    (hsteps : Relation.ReflTransGen (AvoidsPtr base p) s1 t) :
    vPortFree t (some p) = none := by
  have hmem := vPortFree_some_inv hM hfirst
  rcases allocAddrs_decomp hmem with ⟨pre, sz, post, hbs, hpf⟩
  rcases vPortFree_succ hM hbs hpf with ⟨s2, hrun, hM2, hrest⟩
  rw [hrun] at hfirst
  have h2 := Option.some.inj hfirst
  subst h2
  have hstart : ∃ bs', Models base s2 bs' ∧
      p - xHeapStructSize ∉ allocAddrs (startAddr base) bs' := by
    refine ⟨_, hM2, ?_⟩
    rw [allocAddrs_freeShape]
    have hpos_pre : ∀ b ∈ pre, 0 < b.1 := fun b hb =>
      hM.sizes_pos b (by rw [hbs]; simp [hb])
    intro hc
    rcases List.mem_append.mp hc with hc | hc
    · have := mem_addrsOf_lt hpos_pre (allocAddrs_subset_addrsOf hc)
      omega
    · have h3 := mem_addrsOf_ge (allocAddrs_subset_addrsOf hc)
      have hszpos : 0 < sz := hM.sizes_pos (sz, true) (by rw [hbs]; simp)
      omega
  have hiter : ∀ u, Relation.ReflTransGen (AvoidsPtr base p) s2 u →
      ∃ bs', Models base u bs' ∧
        p - xHeapStructSize ∉ allocAddrs (startAddr base) bs' := by
    intro u hu
    induction hu with
    | refl => exact hstart
    | tail _ hstep ih =>
        rcases ih with ⟨bs', hMu, hnu⟩
        exact avoid_preserves hp8 hMu hnu hstep
  rcases hiter t hsteps with ⟨bs', hMt, hnt⟩
  exact vPortFree_fatal hMt hnt

/-- C8: `pvPortMalloc(0)` returns `NULL` and changes nothing beyond the
lazy initialization: the resulting state is exactly the input state, or its
initialization if the arena was untouched. -/
theorem claim_C8_zero_request (base : Nat) (s : HeapState) :
    (pvPortMalloc base s 0).1 = none ∧
    (pvPortMalloc base s 0).2 = (if s.pxEnd = none then prvHeapInit base s else s) := by
  have hcw : computeWanted 0 = 0 := rfl
  unfold pvPortMalloc
  dsimp only
  rw [hcw, mallocBody_fail (by simp)]
  exact ⟨rfl, rfl⟩

/-- C9: the accessors read the zero-initialized counters before the first
`pvPortMalloc` call and never initialize the arena themselves; every
`pvPortMalloc` call initializes an uninitialized arena, and a failing first
call leaves the free-byte counter at the full usable size. -/
theorem claim_C9_accessors (base : Nat) :
    xPortGetFreeHeapSize initState = 0 ∧
    xPortGetMinimumEverFreeHeapSize initState = 0 ∧
    (∀ s : HeapState, ∀ n, s.pxEnd = none →
      (pvPortMalloc base s n).2.pxEnd = some (endAddr base)) ∧
    (∀ n, (pvPortMalloc base initState n).1 = none →
      xPortGetFreeHeapSize (pvPortMalloc base initState n).2 = usableSize base) := by
  refine ⟨rfl, rfl, ?_, ?_⟩
  · intro s n h
    unfold pvPortMalloc
    dsimp only
    rw [if_pos h, mallocBody_pxEnd]
    rfl
  · intro n hn
    unfold pvPortMalloc at hn ⊢
    dsimp only at hn ⊢
    rw [if_pos (show initState.pxEnd = none from rfl)] at hn ⊢
    rw [mallocBody_none_state hn]
    rfl

/-- C10: a returning `vPortFree` call never changes the minimum-ever-free
watermark, the successful-allocation counter or `pxEnd`; it writes at most
the freed block's header and one free-list predecessor header; a `NULL`
argument changes nothing. -/
theorem claim_C10_free_frame {s s' : HeapState} {pv : Option Nat}
    (h : vPortFree s pv = some s') :
    s'.xMinimumEverFreeBytesRemaining = s.xMinimumEverFreeBytesRemaining ∧
    s'.xNumberOfSuccessfulAllocations = s.xNumberOfSuccessfulAllocations ∧
    s'.pxEnd = s.pxEnd ∧
    (∀ p, pv = some p → ∃ a : Nat, ∀ x, x ≠ p - xHeapStructSize → x ≠ a →
      s'.mem x = s.mem x) ∧
    (pv = none → s' = s) := by
  cases pv with
  | none =>
      simp [vPortFree] at h
      rw [← h]
      exact ⟨rfl, rfl, rfl, by intro q hq; simp at hq, fun _ => rfl⟩
  | some p =>
      unfold vPortFree at h
      dsimp only at h
      split at h
      · simp at h
      · split at h
        · simp at h
        · have h2 := Option.some.inj h
          subst h2
          refine ⟨rfl, rfl, rfl, ?_, by intro hc; simp at hc⟩
          intro q hq
          have hqe := Option.some.inj hq
          subst hqe
          obtain ⟨a, hfr⟩ := insert_frame s.pxEnd
            (writeMem s.mem (p - xHeapStructSize)
              ⟨(s.mem (p - xHeapStructSize)).pxNextFreeBlock,
               heapFREE_BLOCK ((s.mem (p - xHeapStructSize)).xBlockSize)⟩)
            s.xStartNext (p - xHeapStructSize)
          refine ⟨a, ?_⟩
          intro x hx1 hx2
          show (prvInsertBlockIntoFreeList s.pxEnd
            (writeMem s.mem (p - xHeapStructSize)
              ⟨(s.mem (p - xHeapStructSize)).pxNextFreeBlock,
               heapFREE_BLOCK ((s.mem (p - xHeapStructSize)).xBlockSize)⟩)
            s.xStartNext (p - xHeapStructSize)).1 x = s.mem x
          rw [hfr x hx1 hx2, writeMem_other _ _ hx1]

/-- C3: from a fresh arena, allocate A, B, C in order, free B then A: the
two merge into one free block of size `wA + wB`, and an allocation whose
adjusted block size is exactly `wA + wB` succeeds, returns A's pointer, and
does not split the block. -/
theorem claim_C3_coalescing {base : Nat} {s : HeapState} {nA nB nC nD wA wB wC : Nat}
    (hM : Models base s [(usableSize base, false)])
    (hwA : computeWanted nA = wA) (hwB : computeWanted nB = wB)
    (hwC : computeWanted nC = wC) (hwD : computeWanted nD = wA + wB)
    (hA0 : 0 < wA) (hB0 : 0 < wB) (hC0 : 0 < wC)
    (hA8 : wA % 8 = 0) (hB8 : wB % 8 = 0) (hC8 : wC % 8 = 0)
    (hroom : wA + wB + wC + heapMINIMUM_BLOCK_SIZE < usableSize base) :
    ∃ pA pB pC s1 s2 s3 s4 s5,
      pvPortMalloc base s nA = (some pA, s1) ∧
      pvPortMalloc base s1 nB = (some pB, s2) ∧
      pvPortMalloc base s2 nC = (some pC, s3) ∧
      vPortFree s3 (some pB) = some s4 ∧
      vPortFree s4 (some pA) = some s5 ∧
      Models base s5 [(wA + wB, false), (wC, true),
        (usableSize base - wA - wB - wC, false)] ∧
      (pvPortMalloc base s5 nD).1 = some pA ∧
      Models base (pvPortMalloc base s5 nD).2 [(wA + wB, true), (wC, true),
        (usableSize base - wA - wB - wC, false)] := by
  have hmbs : heapMINIMUM_BLOCK_SIZE = 16 := rfl
  have hhs : xHeapStructSize = 8 := rfl
  have hinit : s.pxEnd ≠ none := by rw [hM.pxEnd_eq]; simp
  -- allocate A
  have h1 := @mallocBody_succ _ _ _ hM [] ([] : List Block)
    (usableSize base) wA rfl (by simp) (by omega) hA0 hA8
  have h1p : (mallocBody s wA).1 = some (startAddr base + xHeapStructSize) := h1.1
  have hsplitA : splitBlocks (usableSize base) wA =
      [(wA, true), (usableSize base - wA, false)] := by
    unfold splitBlocks
    rw [if_pos (by omega)]
  have hM1 : Models base (mallocBody s wA).2
      [(wA, true), (usableSize base - wA, false)] := by
    have h := h1.2.1
    rw [hsplitA] at h
    simpa using h
  have hinit1 : (mallocBody s wA).2.pxEnd ≠ none := by rw [hM1.pxEnd_eq]; simp
  -- allocate B
  have h2 := @mallocBody_succ _ _ _ hM1 [(wA, true)] ([] : List Block)
    (usableSize base - wA) wB rfl
    (by intro b hb; simp at hb; subst hb; exact Or.inl rfl) (by omega) hB0 hB8
  have h2p : (mallocBody (mallocBody s wA).2 wB).1 =
      some (startAddr base + wA + xHeapStructSize) := h2.1
  have hsplitB : splitBlocks (usableSize base - wA) wB =
      [(wB, true), (usableSize base - wA - wB, false)] := by
    unfold splitBlocks
    rw [if_pos (by omega)]
  have hM2 : Models base (mallocBody (mallocBody s wA).2 wB).2
      [(wA, true), (wB, true), (usableSize base - wA - wB, false)] := by
    have h := h2.2.1
    rw [hsplitB] at h
    simpa using h
  have hinit2 : (mallocBody (mallocBody s wA).2 wB).2.pxEnd ≠ none := by
    rw [hM2.pxEnd_eq]; simp
  -- allocate C
  have h3 := @mallocBody_succ _ _ _ hM2 [(wA, true), (wB, true)]
    ([] : List Block) (usableSize base - wA - wB) wC rfl
    (by intro b hb; simp at hb; rcases hb with hb | hb <;> (subst hb; exact Or.inl rfl))
    (by omega) hC0 hC8
  have h3p : (mallocBody (mallocBody (mallocBody s wA).2 wB).2 wC).1 =
      some (startAddr base + wA + wB + xHeapStructSize) := h3.1
  have hsplitC : splitBlocks (usableSize base - wA - wB) wC =
      [(wC, true), (usableSize base - wA - wB - wC, false)] := by
    unfold splitBlocks
    rw [if_pos (by omega)]
  have hM3 : Models base (mallocBody (mallocBody (mallocBody s wA).2 wB).2 wC).2
      [(wA, true), (wB, true), (wC, true),
        (usableSize base - wA - wB - wC, false)] := by
    have h := h3.2.1
    rw [hsplitC] at h
    simpa using h
  -- free B
  have h4 := @vPortFree_succ _ _ _ [(wA, true)]
    [(wC, true), (usableSize base - wA - wB - wC, false)] wB
    (startAddr base + wA + xHeapStructSize) hM3 rfl
    (by show startAddr base + wA + xHeapStructSize - xHeapStructSize =
        blocksEnd (startAddr base) [(wA, true)]
        rw [show blocksEnd (startAddr base) [(wA, true)] = startAddr base + wA from rfl]
        omega)
  rcases h4 with ⟨s4, hrun4, hM4, hrest4⟩
  have hM4a : Models base s4 [(wA, true), (wB, false), (wC, true),
      (usableSize base - wA - wB - wC, false)] := by
    have h := hM4
    rw [freeShape_plain (by simp) (by simp)] at h
    simpa using h
  -- free A
  have h5 := @vPortFree_succ _ _ _ ([] : List Block)
    [(wB, false), (wC, true), (usableSize base - wA - wB - wC, false)] wA
    (startAddr base + xHeapStructSize) hM4a rfl
    (by show startAddr base + xHeapStructSize - xHeapStructSize =
        blocksEnd (startAddr base) ([] : List Block)
        rw [show blocksEnd (startAddr base) ([] : List Block) = startAddr base from rfl]
        omega)
  rcases h5 with ⟨s5, hrun5, hM5, hrest5⟩
  have hM5a : Models base s5 [(wA + wB, false), (wC, true),
      (usableSize base - wA - wB - wC, false)] := by
    have h := hM5
    rw [freeShape_fwd (by simp)] at h
    simpa using h
  have hinit5 : s5.pxEnd ≠ none := by rw [hM5a.pxEnd_eq]; simp
  -- exact-fit reallocation
  have h6 := @mallocBody_succ _ _ _ hM5a ([] : List Block)
    [(wC, true), (usableSize base - wA - wB - wC, false)]
    (wA + wB) (wA + wB) rfl (by simp) (le_refl _) (by omega) (by omega)
  have h6p : (mallocBody s5 (wA + wB)).1 =
      some (startAddr base + xHeapStructSize) := h6.1
  have hsplitD : splitBlocks (wA + wB) (wA + wB) = [(wA + wB, true)] := by
    unfold splitBlocks
    rw [if_neg (by omega)]
  have hM6 : Models base (mallocBody s5 (wA + wB)).2
      [(wA + wB, true), (wC, true), (usableSize base - wA - wB - wC, false)] := by
    have h := h6.2.1
    rw [hsplitD] at h
    simpa using h
  refine ⟨startAddr base + xHeapStructSize, startAddr base + wA + xHeapStructSize,
    startAddr base + wA + wB + xHeapStructSize,
    (mallocBody s wA).2, (mallocBody (mallocBody s wA).2 wB).2,
    (mallocBody (mallocBody (mallocBody s wA).2 wB).2 wC).2, s4, s5,
    ?_, ?_, ?_, hrun4, hrun5, hM5a, ?_, ?_⟩
  · rw [pvPortMalloc_of_init hinit, hwA, ← h1p]
  · rw [pvPortMalloc_of_init hinit1, hwB, ← h2p]
  · rw [pvPortMalloc_of_init hinit2, hwC, ← h3p]
  · rw [pvPortMalloc_of_init hinit5, hwD]
    exact h6p
  · rw [pvPortMalloc_of_init hinit5, hwD]
    exact hM6

theorem claim_C2_witness :
    ∃ bs, Models 0 ((pvPortMalloc 0 initState 10).2) bs ∧
      xPortGetFreeHeapSize ((pvPortMalloc 0 initState 10).2) + allocSum bs =
        usableSize 0 :=
  claim_C2_conservation
    (Relation.ReflTransGen.single (Step.malloc initState 10)) (by decide)

theorem claim_C3_witness :
    ∃ pA pB pC s1 s2 s3 s4 s5,
      pvPortMalloc 0 (prvHeapInit 0 initState) 10 = (some pA, s1) ∧
      pvPortMalloc 0 s1 128 = (some pB, s2) ∧
      pvPortMalloc 0 s2 50 = (some pC, s3) ∧
      vPortFree s3 (some pB) = some s4 ∧
      vPortFree s4 (some pA) = some s5 ∧
      Models 0 s5 [(24 + 136, false), (64, true),
        (usableSize 0 - 24 - 136 - 64, false)] ∧
      (pvPortMalloc 0 s5 152).1 = some pA ∧
      Models 0 (pvPortMalloc 0 s5 152).2 [(24 + 136, true), (64, true),
        (usableSize 0 - 24 - 136 - 64, false)] :=
  claim_C3_coalescing (prvHeapInit_models 0 initState initState_clean)
    (by decide) (by decide) (by decide) (by decide)
    (by decide) (by decide) (by decide)
    (by decide) (by decide) (by decide) (by decide)

theorem claim_C4_witness :
    ∃ L : List Nat,
      freeWalk ((pvPortMalloc 0 initState 10).2).mem
          ((pvPortMalloc 0 initState 10).2).xStartNext configTOTAL_HEAP_SIZE =
        L ++ [endAddr 0] ∧
      List.Pairwise (fun a b => a < b) (L ++ [endAddr 0]) ∧
      ∀ x ∈ L, ∀ y ∈ L,
        x + (((pvPortMalloc 0 initState 10).2).mem x).xBlockSize ≠ y :=
  claim_C4_freelist
    (Relation.ReflTransGen.single (Step.malloc initState 10)) (by decide)

theorem claim_C5_witness :
    (∀ n p, (pvPortMalloc 0 ((pvPortMalloc 0 initState 10).2) n).1 = some p →
      p % 8 = 0) ∧
    (((pvPortMalloc 0 initState 10).2).pxEnd ≠ none →
      ∃ bs, Models 0 ((pvPortMalloc 0 initState 10).2) bs ∧
        ∀ b ∈ bs, b.1 % 8 = 0) :=
  claim_C5_alignment (Relation.ReflTransGen.single (Step.malloc initState 10))

theorem claim_C6_witness :
    xPortGetMinimumEverFreeHeapSize
        ((pvPortMalloc 0 ((pvPortMalloc 0 initState 10).2) 128).2) ≤
      xPortGetMinimumEverFreeHeapSize ((pvPortMalloc 0 initState 10).2) :=
  claim_C6_watermark (by decide) (Step.malloc ((pvPortMalloc 0 initState 10).2) 128)

theorem claim_C7_witness : vPortFree witC7t (some 8) = none :=
  claim_C7_double_free
    ((@mallocBody_succ _ _ _ (prvHeapInit_models 0 initState initState_clean)
      ([] : List Block) ([] : List Block) (usableSize 0) 24
      rfl (by simp) (by decide) (by decide) (by decide)).2.1)
    (by decide) (by rfl) Relation.ReflTransGen.refl

theorem claim_C10_witness :
    witC10t.xMinimumEverFreeBytesRemaining = witC10s.xMinimumEverFreeBytesRemaining ∧
    witC10t.xNumberOfSuccessfulAllocations = witC10s.xNumberOfSuccessfulAllocations ∧
    witC10t.pxEnd = witC10s.pxEnd ∧
    (∀ p, (some 8 : Option Nat) = some p →
      ∃ a : Nat, ∀ x, x ≠ p - xHeapStructSize → x ≠ a →
        witC10t.mem x = witC10s.mem x) ∧
    ((some 8 : Option Nat) = none → witC10t = witC10s) :=
  claim_C10_free_frame (by rfl)

end FreeHeap
